import Mathlib

/-!
# Positioners (Column, Row, Grid, Flow) of `qmlgraphicspositioners.cpp`

A shallow embedding of the positioning code and theorems about it.

Modelling conventions
* `qreal` item geometry (x, y, width, height, opacity) is a rational `ℚ`; a `qreal` is a
  binary64 double, and where the code adds an `int` and a `qreal` before a comparison or a
  conversion that a theorem depends on (Flow), the sum is rounded to the nearest double
  (`roundDouble`).
* C++ `int` is 32 bits.  The `int` arithmetic of Flow and of Grid's row and column counts
  wraps around (`wrapInt`), and the conversion of a double to `int` is `doubleToInt`.  The
  running offsets of Column, Row and of Grid's placing loop are unbounded `Int` with the
  truncation `qrealToInt`: the theorems about them evaluate the code on small inputs or
  relate runs that do the same arithmetic.
* Items live in a heap `Nat → QmlGraphicsItem` indexed by item address; a registry entry
  holds the address (or a null pointer, `none`).
* The mutable state a `doPositioning` touches is a `World`: the item heap and the two
  action batches.  The positioner's configuration and registry are a `Positioner`.
-/

namespace Positioners

/-! ## Data model -/

/-- The part of a `QmlGraphicsItem` the positioners read or write. -/
structure QmlGraphicsItem where
  x : ℚ
  y : ℚ
  width : ℚ
  height : ℚ
  opacity : ℚ
  visible : Bool
deriving DecidableEq

/-- `QmlGraphicsBasePositioner::PositionerType`. -/
inductive PositionerType where
  | Horizontal
  | Vertical
  | Both
deriving DecidableEq

/-- `QmlGraphicsFlow::Flow`. -/
inductive Flow where
  | LeftToRight
  | TopToBottom
deriving DecidableEq

/-- An entry of `positionedItems`: the item pointer (`none` is the null pointer) and the flags. -/
structure PositionedItem where
  item : Option Nat
  isNew : Bool
  isVisible : Bool
deriving DecidableEq

/-- A `QmlAction(target, property name, value)` as built by `positionX` / `positionY`. -/
structure QmlAction where
  target : Option Nat
  property : String
  value : Int
deriving DecidableEq

/-- The positioner object: the members of `QmlGraphicsBasePositionerPrivate` and of the item
base class that the positioning code reads or writes.  `addTransition` / `moveTransition` say
whether the transition pointer is non-null; `watched` lists the items on which the positioner
is registered as a change listener (`watchChanges` / `unwatchChanges`); `width` / `height` are
the positioner's own `width()` / `height()`, read by Flow. -/
structure Positioner where
  type : PositionerType
  spacing : Int
  addTransition : Bool
  moveTransition : Bool
  positionedItems : List PositionedItem
  width : ℚ
  height : ℚ
  componentComplete : Bool
  queuedPositioning : Bool
  watched : List Nat
  implicitWidth : ℚ
  implicitHeight : ℚ

/-- The state a positioning loop mutates: the item heap and the `addActions` / `moveActions`
batches. -/
structure World where
  scene : Nat → QmlGraphicsItem
  addActions : List QmlAction
  moveActions : List QmlAction

/-- The conversion `qreal → int` of C++: truncation toward zero. -/
def qrealToInt (q : ℚ) : Int := if 0 ≤ q then ⌊q⌋ else ⌈q⌉

/-- The value a 32-bit C++ `int` holds after an operation whose mathematical result is `z`:
two's complement wrap-around into [-2147483648, 2147483647].  Signed overflow is undefined in
C++; this is what the supported compilers produce. -/
def wrapInt (z : Int) : Int := (z + 2147483648) % 4294967296 - 2147483648

/-- The conversion of a double to `int` (`int += qreal`, `int(ceil(v))`): truncation toward
zero when the truncated value is an `int`.  Otherwise the conversion is undefined in C++; the
embedding returns -2147483648, the result of the x86 conversion instruction. -/
def doubleToInt (q : ℚ) : Int :=
  if -2147483649 < q ∧ q < 2147483648 then qrealToInt q else -2147483648

/-- The quotient `n / d` (`d > 0`) rounded to the nearest natural number, ties to even. -/
def roundHalfEven (n d : Nat) : Nat :=
  if 2 * (n % d) < d then n / d
  else if d < 2 * (n % d) then n / d + 1
  else if (n / d) % 2 = 0 then n / d else n / d + 1

/-- The position of the highest set bit among the lowest `fuel` bits: `floor (log2 n)` for
`0 < n < 2 ^ fuel`. -/
def log2Fuel : Nat → Nat → Nat
  | 0, _ => 0
  | fuel + 1, n => if n < 2 then 0 else log2Fuel fuel (n / 2) + 1

/-- The binary64 value nearest to a rational, ties to even: with `e` the exponent for which
the magnitude divided by `2 ^ e` lies in [2^52, 2^53) (not below -1074, the subnormal grid), the
magnitude is rounded to a multiple of `2 ^ e`.  Overflow to infinity is not modelled: the
sum of an `int` and a finite double is finite. -/
def nearestDouble (q : ℚ) : ℚ :=
  if q = 0 then 0
  else
    let n : Nat := q.num.natAbs
    let d : Nat := q.den
    let l : Int := (log2Fuel n n : Int) - (log2Fuel d d : Int)
    let fl : Int :=
      if (0 ≤ l ∧ d * 2 ^ l.toNat ≤ n) ∨ (l < 0 ∧ d ≤ n * 2 ^ (-l).toNat) then l else l - 1
    let e : Int := max (fl - 52) (-1074)
    let m : Nat :=
      if 0 ≤ e then roundHalfEven n (d * 2 ^ e.toNat) else roundHalfEven (n * 2 ^ (-e).toNat) d
    let a : ℚ :=
      if 0 ≤ e then ((m * 2 ^ e.toNat : Nat) : ℚ) else (m : ℚ) / ((2 ^ (-e).toNat : Nat) : ℚ)
    if 0 < q then a else -a

/-- The result of a double operation whose exact result is `q`: `q` itself when `q` is an
integer of magnitude at most 2^53 (such integers are binary64 values), otherwise the nearest
binary64 value. -/
def roundDouble (q : ℚ) : ℚ :=
  if q.den = 1 ∧ q.num.natAbs ≤ 9007199254740992 then q else nearestDouble q

/-- Qt `qCeil`: `int(ceil(v))`. -/
def qCeil (q : ℚ) : Int := doubleToInt ((⌈q⌉ : Int) : ℚ)

/-- The call `item->setX(x)` on the heap. -/
def setX (s : Nat → QmlGraphicsItem) (a : Nat) (x : ℚ) : Nat → QmlGraphicsItem :=
  fun b => if b = a then { s a with x := x } else s b

/-- The call `item->setY(y)` on the heap. -/
def setY (s : Nat → QmlGraphicsItem) (a : Nat) (y : ℚ) : Nat → QmlGraphicsItem :=
  fun b => if b = a then { s a with y := y } else s b

/-! ## Position assignment primitives (lines 250-278) -/

/-- `QmlGraphicsBasePositioner::positionX`. -/
def positionX (d : Positioner) (x : Int) (target : PositionedItem) (w : World) : World :=
  if d.type = PositionerType.Horizontal ∨ d.type = PositionerType.Both then
    if d.addTransition = false ∧ d.moveTransition = false then
      match target.item with
      | some a => { w with scene := setX w.scene a x }
      | none => w
    else if target.isNew then
      { w with addActions := w.addActions ++ [⟨target.item, "x", x⟩] }
    else
      { w with moveActions := w.moveActions ++ [⟨target.item, "x", x⟩] }
  else w

/-- `QmlGraphicsBasePositioner::positionY`. -/
def positionY (d : Positioner) (y : Int) (target : PositionedItem) (w : World) : World :=
  if d.type = PositionerType.Vertical ∨ d.type = PositionerType.Both then
    if d.addTransition = false ∧ d.moveTransition = false then
      match target.item with
      | some a => { w with scene := setY w.scene a y }
      | none => w
    else if target.isNew then
      { w with addActions := w.addActions ++ [⟨target.item, "y", y⟩] }
    else
      { w with moveActions := w.moveActions ++ [⟨target.item, "y", y⟩] }
  else w

/-! ## Column and Row (lines 399-419, 509-524) -/

/-- The static `isInvisible(child)` of line 399. -/
def isInvisible (child : QmlGraphicsItem) : Bool :=
  child.opacity == 0 || !child.visible || child.width == 0 || child.height == 0

/-- The loop of `QmlGraphicsColumn::doPositioning`, from the entry at hand on, with the
running `voffset`. -/
def QmlGraphicsColumn.loop (d : Positioner) : List PositionedItem → Int → World → World
  | [], _, w => w
  | child :: rest, voffset, w =>
    match child.item with
    | none => QmlGraphicsColumn.loop d rest voffset w
    | some a =>
      if isInvisible (w.scene a) then QmlGraphicsColumn.loop d rest voffset w
      else
        let w1 := if (w.scene a).y ≠ (voffset : ℚ) then positionY d voffset child w else w
        let voffset1 := qrealToInt ((voffset : ℚ) + (w1.scene a).height)
        let voffset2 := voffset1 + d.spacing
        QmlGraphicsColumn.loop d rest voffset2 w1

/-- `QmlGraphicsColumn::doPositioning`. -/
def QmlGraphicsColumn.doPositioning (d : Positioner) (w : World) : World :=
  QmlGraphicsColumn.loop d d.positionedItems 0 w

/-- The loop of `QmlGraphicsRow::doPositioning`, with the running `hoffset`. -/
def QmlGraphicsRow.loop (d : Positioner) : List PositionedItem → Int → World → World
  | [], _, w => w
  | child :: rest, hoffset, w =>
    match child.item with
    | none => QmlGraphicsRow.loop d rest hoffset w
    | some a =>
      if isInvisible (w.scene a) then QmlGraphicsRow.loop d rest hoffset w
      else
        let w1 := if (w.scene a).x ≠ (hoffset : ℚ) then positionX d hoffset child w else w
        let hoffset1 := qrealToInt ((hoffset : ℚ) + (w1.scene a).width)
        let hoffset2 := hoffset1 + d.spacing
        QmlGraphicsRow.loop d rest hoffset2 w1

/-- `QmlGraphicsRow::doPositioning`. -/
def QmlGraphicsRow.doPositioning (d : Positioner) (w : World) : World :=
  QmlGraphicsRow.loop d d.positionedItems 0 w

/-! ## Grid (lines 653-711)

Indexing a `QList<int>` out of range and dividing by zero are undefined in C++; the embedding
returns `none` there. -/

/-- Lines 655-664: the effective `(c, r)` from `_columns`, `_rows` and
`numVisible = positionedItems.count()`.  The sums are 32-bit `int` sums (`wrapInt`); C++ `/`
truncates toward zero. -/
def QmlGraphicsGrid.dims (columns rows : Int) (numVisible : Int) : Option (Int × Int) :=
  if columns = -1 ∧ rows = -1 then
    some (4, Int.tdiv (wrapInt (numVisible + 3)) 4)
  else if rows = -1 then
    if columns = 0 then none
    else some (columns, Int.tdiv (wrapInt (numVisible + wrapInt (columns - 1))) columns)
  else if columns = -1 then
    if rows = 0 then none
    else some (Int.tdiv (wrapInt (numVisible + wrapInt (rows - 1))) rows, rows)
  else some (columns, rows)

/-- The state of the measuring loop: `maxColWidth`, `maxRowHeight`, `childIndex`. -/
structure GridMeasure where
  maxColWidth : List Int
  maxRowHeight : List Int
  childIndex : Nat

/-- The body of the inner loop of lines 669-686 at row `i`, column `j`. -/
def QmlGraphicsGrid.measureCell (s : Nat → QmlGraphicsItem) (items : List PositionedItem)
    (i j : Nat) (m : GridMeasure) : Option GridMeasure :=
  let m1 : GridMeasure := if j = 0 then { m with maxRowHeight := m.maxRowHeight ++ [0] } else m
  let m2 : GridMeasure := if i = 0 then { m1 with maxColWidth := m1.maxColWidth ++ [0] } else m1
  if m2.childIndex = items.length then some m2
  else
    match items[m2.childIndex]? with
    | none => none
    | some child =>
      let m3 : GridMeasure := { m2 with childIndex := m2.childIndex + 1 }
      match child.item with
      | none => some m3
      | some a =>
        if isInvisible (s a) then some m3
        else
          match m3.maxColWidth[j]? with
          | none => none
          | some cw =>
            let m4 : GridMeasure :=
              if (s a).width > (cw : ℚ) then
                { m3 with maxColWidth := m3.maxColWidth.set j (qrealToInt (s a).width) }
              else m3
            match m4.maxRowHeight[i]? with
            | none => none
            | some rh =>
              if (s a).height > (rh : ℚ) then
                some { m4 with maxRowHeight := m4.maxRowHeight.set i (qrealToInt (s a).height) }
              else some m4

/-- The inner loop `for (int j=0; j<c; j++)` at row `i`. -/
def QmlGraphicsGrid.measureRow (s : Nat → QmlGraphicsItem) (items : List PositionedItem)
    (c : Int) (i : Nat) (m : GridMeasure) : Option GridMeasure :=
  (List.range c.toNat).foldlM (fun m j => QmlGraphicsGrid.measureCell s items i j m) m

/-- The loops of lines 666-686. -/
def QmlGraphicsGrid.measure (s : Nat → QmlGraphicsItem) (items : List PositionedItem)
    (c r : Int) : Option GridMeasure :=
  (List.range r.toNat).foldlM (fun m i => QmlGraphicsGrid.measureRow s items c i m) ⟨[], [], 0⟩

/-- `list[i]` for a C++ `int` index: `none` when out of range. -/
def intIndex (l : List Int) (i : Int) : Option Int :=
  if 0 ≤ i then l[i.toNat]? else none

/-- The placing loop of lines 692-710, from the entry at hand on, with the running
`xoffset`, `yoffset`, `curRow`, `curCol`. -/
def QmlGraphicsGrid.loop (d : Positioner) (c r : Int) (maxColWidth maxRowHeight : List Int) :
    List PositionedItem → Int → Int → Int → Int → World → Option World
  | [], _, _, _, _, w => some w
  | child :: rest, xoffset, yoffset, curRow, curCol, w =>
    match child.item with
    | none => QmlGraphicsGrid.loop d c r maxColWidth maxRowHeight rest xoffset yoffset curRow curCol w
    | some a =>
      if isInvisible (w.scene a) then
        QmlGraphicsGrid.loop d c r maxColWidth maxRowHeight rest xoffset yoffset curRow curCol w
      else
        let w1 :=
          if (w.scene a).x ≠ (xoffset : ℚ) ∨ (w.scene a).y ≠ (yoffset : ℚ) then
            positionY d yoffset child (positionX d xoffset child w)
          else w
        match intIndex maxColWidth curCol with
        | none => none
        | some cw =>
          let xoffset1 := xoffset + (cw + d.spacing)
          let curCol1 := curCol + 1
          if c = 0 then none
          else
            let curCol2 := Int.tmod curCol1 c
            if curCol2 = 0 then
              match intIndex maxRowHeight curRow with
              | none => none
              | some rh =>
                let yoffset1 := yoffset + (rh + d.spacing)
                let curRow1 := curRow + 1
                if curRow1 ≥ r then some w1
                else
                  QmlGraphicsGrid.loop d c r maxColWidth maxRowHeight rest 0 yoffset1 curRow1
                    curCol2 w1
            else
              QmlGraphicsGrid.loop d c r maxColWidth maxRowHeight rest xoffset1 yoffset curRow
                curCol2 w1

/-- `QmlGraphicsGrid::doPositioning` with the members `_columns`, `_rows`. -/
def QmlGraphicsGrid.doPositioning (d : Positioner) (columns rows : Int) (w : World) :
    Option World :=
  match QmlGraphicsGrid.dims columns rows d.positionedItems.length with
  | none => none
  | some (c, r) =>
    match QmlGraphicsGrid.measure w.scene d.positionedItems c r with
    | none => none
    | some m =>
      QmlGraphicsGrid.loop d c r m.maxColWidth m.maxRowHeight d.positionedItems 0 0 0 0 w

/-! ## Flow (lines 806-848) -/

/-- The loop variables `hoffset`, `voffset`, `linemax` of `QmlGraphicsFlow::doPositioning`. -/
structure FlowVars where
  hoffset : Int
  voffset : Int
  linemax : Int
deriving DecidableEq

/-- Lines 819-831: the wrap test before an item of the given width and height; `pw`, `ph` are
the positioner's `width()` and `height()`.  `hoffset + child.item->width()` is a double sum,
`voffset += linemax + spacing()` is `int` arithmetic. -/
def QmlGraphicsFlow.wrap (flow : Flow) (spacing : Int) (pw ph : ℚ) (width height : ℚ)
    (v : FlowVars) : FlowVars :=
  if flow = Flow.LeftToRight then
    if v.hoffset ≠ 0 ∧ roundDouble ((v.hoffset : ℚ) + width) > pw then
      ⟨0, wrapInt (v.voffset + wrapInt (v.linemax + spacing)), 0⟩
    else v
  else
    if v.voffset ≠ 0 ∧ roundDouble ((v.voffset : ℚ) + height) > ph then
      ⟨wrapInt (v.hoffset + wrapInt (v.linemax + spacing)), 0, 0⟩
    else v

/-- Lines 838-846: the advance after an item of the given width and height.
`hoffset += child.item->width()` adds in double and converts the sum to `int`;
`hoffset += spacing()` is `int` arithmetic. -/
def QmlGraphicsFlow.advance (flow : Flow) (spacing : Int) (width height : ℚ)
    (v : FlowVars) : FlowVars :=
  if flow = Flow.LeftToRight then
    ⟨wrapInt (doubleToInt (roundDouble ((v.hoffset : ℚ) + width)) + spacing), v.voffset,
      max v.linemax (qCeil height)⟩
  else
    ⟨v.hoffset, wrapInt (doubleToInt (roundDouble ((v.voffset : ℚ) + height)) + spacing),
      max v.linemax (qCeil width)⟩

/-- The loop of `QmlGraphicsFlow::doPositioning`, from the entry at hand on. -/
def QmlGraphicsFlow.loop (d : Positioner) (flow : Flow) :
    List PositionedItem → FlowVars → World → World
  | [], _, w => w
  | child :: rest, v, w =>
    match child.item with
    | none => QmlGraphicsFlow.loop d flow rest v w
    | some a =>
      if isInvisible (w.scene a) then QmlGraphicsFlow.loop d flow rest v w
      else
        let v1 := QmlGraphicsFlow.wrap flow d.spacing d.width d.height (w.scene a).width
          (w.scene a).height v
        let w1 :=
          if (w.scene a).x ≠ (v1.hoffset : ℚ) ∨ (w.scene a).y ≠ (v1.voffset : ℚ) then
            positionY d v1.voffset child (positionX d v1.hoffset child w)
          else w
        let v2 := QmlGraphicsFlow.advance flow d.spacing (w1.scene a).width (w1.scene a).height v1
        QmlGraphicsFlow.loop d flow rest v2 w1

/-- `QmlGraphicsFlow::doPositioning` with the member `flow`. -/
def QmlGraphicsFlow.doPositioning (d : Positioner) (flow : Flow) (w : World) : World :=
  QmlGraphicsFlow.loop d flow d.positionedItems ⟨0, 0, 0⟩ w

/-! ## The positioning pass (lines 197-248, 280-289) -/

/-- Modelled from the spec: the constructor `PositionedItem(child)` is declared in
`qmlgraphicspositioners_p.h`, which is not among the sources.  Spec 4.2: an entry is created
with `isVisible = false`; spec 3: `isNew` is false outside the pass that sees the item appear. -/
def PositionedItem.create (child : Nat) : PositionedItem := ⟨some child, false, false⟩

/-- Modelled from the spec: `positionedItems.find(posItem)` belongs to the container declared
in the missing header.  Spec 4.2: `find(item) -> index-or-absent`, by item identity, linear
scan; `none` stands for the `-1` the code tests with `wIdx < 0`. -/
def find : List PositionedItem → PositionedItem → Option Nat
  | [], _ => none
  | e :: rest, posItem =>
    if e.item = posItem.item then some 0
    else
      match find rest posItem with
      | none => none
      | some i => some (i + 1)

/-- A write through the pointer `item = &positionedItems[idx]`. -/
def writeEntry (items : List PositionedItem) (idx : Nat) (f : PositionedItem → PositionedItem) :
    List PositionedItem :=
  match items[idx]? with
  | none => items
  | some e => items.set idx (f e)

/-- The body of the loop of lines 208-232 for one element of the sorted `children`;
`childq` is the result of `qobject_cast<QmlGraphicsItem *>` (`none` when the cast fails). -/
def QmlGraphicsBasePositioner.track (s : Nat → QmlGraphicsItem) (p : Positioner)
    (childq : Option Nat) : Positioner :=
  match childq with
  | none => p
  | some child =>
    let posItem := PositionedItem.create child
    let wIdx := find p.positionedItems posItem
    let p1 : Positioner :=
      match wIdx with
      | none =>
        { p with watched := p.watched ++ [child],
                 positionedItems := p.positionedItems ++ [posItem] }
      | some _ => p
    let idx : Nat :=
      match wIdx with
      | none => p1.positionedItems.length - 1
      | some i => i
    if (s child).opacity ≤ 0 ∨ (s child).visible = false then
      { p1 with positionedItems :=
          writeEntry p1.positionedItems idx (fun e => { e with isVisible := false }) }
    else
      match p1.positionedItems[idx]? with
      | none => p1
      | some e =>
        if e.isVisible = false then
          let appear : PositionedItem → PositionedItem :=
            fun e => { e with isVisible := true, isNew := true }
          { p1 with positionedItems := writeEntry p1.positionedItems idx appear }
        else
          { p1 with positionedItems :=
              writeEntry p1.positionedItems idx (fun e => { e with isNew := false }) }

/-- The effect of one `QmlAction` when it is applied directly. -/
def applyAction (s : Nat → QmlGraphicsItem) (act : QmlAction) : Nat → QmlGraphicsItem :=
  match act.target with
  | none => s
  | some a =>
    if act.property = "x" then setX s a act.value
    else if act.property = "y" then setY s a act.value
    else s

/-- Modelled from the spec: `QmlTransitionManager::transition(actions, transition)` belongs to
the transition engine, which is not among the sources.  Spec 6: with no transition descriptor
the values are applied immediately; with one they are animated and control returns once the
request is issued, so the call itself leaves the heap as it is. -/
def transition (actions : List QmlAction) (descriptor : Bool) (s : Nat → QmlGraphicsItem) :
    Nat → QmlGraphicsItem :=
  if descriptor then s else actions.foldl applyAction s

/-- `QmlGraphicsBasePositioner::finishApplyTransitions`. -/
def finishApplyTransitions (d : Positioner) (w : World) : World :=
  let s1 := transition w.addActions d.addTransition w.scene
  let s2 := transition w.moveActions d.moveTransition s1
  { scene := s2, addActions := [], moveActions := [] }

/-- The four subclasses with their own members: Grid has `_columns`, `_rows`, Flow has `flow`. -/
inductive Layout where
  | Column
  | Row
  | Grid (columns rows : Int)
  | Flow (flow : Flow)

/-- The virtual `doPositioning()`; `none` is undefined behaviour inside Grid. -/
def doPositioning (k : Layout) (d : Positioner) (w : World) : Option World :=
  match k with
  | Layout.Column => some (QmlGraphicsColumn.doPositioning d w)
  | Layout.Row => some (QmlGraphicsRow.doPositioning d w)
  | Layout.Grid columns rows => QmlGraphicsGrid.doPositioning d columns rows w
  | Layout.Flow flow => some (QmlGraphicsFlow.doPositioning d flow w)

/-- Lines 237-245: the implicit height and width, over entries with `isVisible`. -/
def implicitSize (s : Nat → QmlGraphicsItem) : List PositionedItem → ℚ × ℚ → ℚ × ℚ
  | [], hw => hw
  | posItem :: rest, hw =>
    if posItem.isVisible then
      match posItem.item with
      | none => implicitSize s rest hw
      | some a =>
        implicitSize s rest
          (max hw.1 ((s a).y + (s a).height), max hw.2 ((s a).x + (s a).width))
    else implicitSize s rest hw

/-- `QmlGraphicsBasePositioner::prePositioning`.  `children` is the list of children after
`qSort`, each as the result of `qobject_cast<QmlGraphicsItem *>`. -/
def QmlGraphicsBasePositioner.prePositioning (k : Layout) (children : List (Option Nat))
    (p : Positioner) (w : World) : Option (Positioner × World) :=
  if p.componentComplete = false then some (p, w)
  else
    let p1 : Positioner := { p with queuedPositioning := false }
    let p2 := children.foldl (QmlGraphicsBasePositioner.track w.scene) p1
    match doPositioning k p2 w with
    | none => none
    | some w1 =>
      let w2 := if p2.addTransition ∨ p2.moveTransition then finishApplyTransitions p2 w1 else w1
      let hw := implicitSize w2.scene p2.positionedItems (0, 0)
      some ({ p2 with implicitHeight := hw.1, implicitWidth := hw.2 }, w2)

/-! ## Entry points that run a pass (lines 64-74, 122-130, 156-195, 796-804) -/

/-- `QGraphicsItem::GraphicsItemChange`, as far as `itemChange` distinguishes it. -/
inductive GraphicsItemChange where
  | ItemChildAddedChange
  | ItemChildRemovedChange
  | OtherChange
deriving DecidableEq

/-- Modelled from the spec: the comparator `d->insertionOrder` passed to `qSort` is declared in
the missing private header.  Spec 4.3: the children are sorted by a key combining creation
order and stacking order; here each child comes with that key, and the result is the list
`prePositioning` walks, each child as the result of `qobject_cast<QmlGraphicsItem *>`. -/
def sortedChildren (children : List (Int × Option Nat)) : List (Option Nat) :=
  (children.insertionSort (fun a b => a.1 ≤ b.1)).map Prod.snd

/-- `QmlGraphicsBasePositioner::setSpacing`; `children` are the sorted children at the call. -/
def QmlGraphicsBasePositioner.setSpacing (k : Layout) (children : List (Option Nat)) (s : Int)
    (p : Positioner) (w : World) : Option (Positioner × World) :=
  if s = p.spacing then some (p, w)
  else QmlGraphicsBasePositioner.prePositioning k children { p with spacing := s } w

/-- `QmlGraphicsFlow::setFlow`: the member `flow` before the call is `current`; the result
carries the member after the call. -/
def QmlGraphicsFlow.setFlow (children : List (Option Nat)) (current flow : Flow)
    (p : Positioner) (w : World) : Option (Flow × Positioner × World) :=
  if current ≠ flow then
    match QmlGraphicsBasePositioner.prePositioning (Layout.Flow flow) children p w with
    | none => none
    | some r => some (flow, r.1, r.2)
  else some (current, p, w)

/-- `QmlGraphicsBasePositioner::componentComplete`: the base class call marks the component
complete, then a pass runs. -/
def QmlGraphicsBasePositioner.componentComplete (k : Layout) (children : List (Option Nat))
    (p : Positioner) (w : World) : Option (Positioner × World) :=
  QmlGraphicsBasePositioner.prePositioning k children { p with componentComplete := true } w

/-- `QmlGraphicsBasePositioner::itemChange`.  `value` is the child the notification names, as
the result of `qobject_cast<QmlGraphicsItem *>` (`none` when it is not such an item);
`children` are the sorted children at the time of the call.  `unwatchChanges(child)` removes
one registration of the positioner on the child. -/
def QmlGraphicsBasePositioner.itemChange (k : Layout) (children : List (Option Nat))
    (change : GraphicsItemChange) (value : Option Nat) (p : Positioner) (w : World) :
    Option (Positioner × World) :=
  match change with
  | GraphicsItemChange.ItemChildAddedChange =>
    match value with
    | none => some (p, w)
    | some _ => QmlGraphicsBasePositioner.prePositioning k children p w
  | GraphicsItemChange.ItemChildRemovedChange =>
    match value with
    | none => some (p, w)
    | some child =>
      let posItem := PositionedItem.create child
      let p1 : Positioner :=
        match find p.positionedItems posItem with
        | some idx =>
          { p with watched := p.watched.erase child,
                   positionedItems := p.positionedItems.eraseIdx idx }
        | none => p
      QmlGraphicsBasePositioner.prePositioning k children p1 w
  | GraphicsItemChange.OtherChange => some (p, w)

/-! ## Laid-out entries and placement plans -/

/-- A registry entry the layout loops do not skip, with the geometry the loops read. -/
structure Laid where
  addr : Nat
  isNew : Bool
  width : ℚ
  height : ℚ
deriving DecidableEq

/-- The entries a layout loop lays out, in registry order: non-null and not `isInvisible`. -/
def laid (s : Nat → QmlGraphicsItem) : List PositionedItem → List Laid
  | [] => []
  | child :: rest =>
    match child.item with
    | none => laid s rest
    | some a =>
      if isInvisible (s a) then laid s rest
      else ⟨a, child.isNew, (s a).width, (s a).height⟩ :: laid s rest

/-- One conditional position request of a loop body: the offsets requested for an entry. -/
structure Placement where
  target : Laid
  xo : Option Int
  yo : Option Int
deriving DecidableEq

/-- Whether a coordinate differs from the requested offset. -/
def offBy (o : Option Int) (q : ℚ) : Bool :=
  match o with
  | none => false
  | some v => decide (q ≠ (v : ℚ))

/-- The conditional request: when a requested coordinate differs from the current one, call
`positionX` and/or `positionY` as the loop body does. -/
def place (d : Positioner) (p : Placement) (w : World) : World :=
  if offBy p.xo (w.scene p.target.addr).x || offBy p.yo (w.scene p.target.addr).y then
    let child : PositionedItem := ⟨some p.target.addr, p.target.isNew, true⟩
    let w1 :=
      match p.xo with
      | none => w
      | some h => positionX d h child w
    match p.yo with
    | none => w1
    | some v => positionY d v child w1
  else w

/-- The requests of a plan, in order. -/
def placeAll (d : Positioner) : List Placement → World → World
  | [], w => w
  | p :: ps, w => placeAll d ps (place d p w)

/-- The requests of the Column loop for the laid-out entries, from the running `voffset`. -/
def columnPlan (spacing : Int) : List Laid → Int → List Placement
  | [], _ => []
  | l :: ls, voffset =>
    ⟨l, none, some voffset⟩ ::
      columnPlan spacing ls (qrealToInt ((voffset : ℚ) + l.height) + spacing)

/-- The requests of the Row loop for the laid-out entries, from the running `hoffset`. -/
def rowPlan (spacing : Int) : List Laid → Int → List Placement
  | [], _ => []
  | l :: ls, hoffset =>
    ⟨l, some hoffset, none⟩ ::
      rowPlan spacing ls (qrealToInt ((hoffset : ℚ) + l.width) + spacing)

/-- The requests of the Flow loop for the laid-out entries, from the loop variables. -/
def flowPlan (flow : Flow) (spacing : Int) (pw ph : ℚ) : List Laid → FlowVars → List Placement
  | [], _ => []
  | l :: ls, v =>
    let v1 := QmlGraphicsFlow.wrap flow spacing pw ph l.width l.height v
    ⟨l, some v1.hoffset, some v1.voffset⟩ ::
      flowPlan flow spacing pw ph ls (QmlGraphicsFlow.advance flow spacing l.width l.height v1)

/-- The requests of the Grid placing loop for the laid-out entries; `none` where the loop
indexes out of range or divides by zero. -/
def gridPlan (spacing c r : Int) (maxColWidth maxRowHeight : List Int) :
    List Laid → Int → Int → Int → Int → Option (List Placement)
  | [], _, _, _, _ => some []
  | l :: ls, xoffset, yoffset, curRow, curCol =>
    match intIndex maxColWidth curCol with
    | none => none
    | some cw =>
      if c = 0 then none
      else if Int.tmod (curCol + 1) c = 0 then
        match intIndex maxRowHeight curRow with
        | none => none
        | some rh =>
          if curRow + 1 ≥ r then some [⟨l, some xoffset, some yoffset⟩]
          else
            (gridPlan spacing c r maxColWidth maxRowHeight ls 0 (yoffset + (rh + spacing))
              (curRow + 1) (Int.tmod (curCol + 1) c)).map
              (fun ps => ⟨l, some xoffset, some yoffset⟩ :: ps)
      else
        (gridPlan spacing c r maxColWidth maxRowHeight ls (xoffset + (cw + spacing)) yoffset
          curRow (Int.tmod (curCol + 1) c)).map
          (fun ps => ⟨l, some xoffset, some yoffset⟩ :: ps)

/-- Two heaps agree on everything but the items' x and y. -/
def SameGeom (s t : Nat → QmlGraphicsItem) : Prop :=
  ∀ b, (t b).width = (s b).width ∧ (t b).height = (s b).height ∧
    (t b).opacity = (s b).opacity ∧ (t b).visible = (s b).visible

/-- Immediate mode: neither transition is configured. -/
def Immediate (d : Positioner) : Prop := d.addTransition = false ∧ d.moveTransition = false

instance (d : Positioner) : Decidable (Immediate d) := by unfold Immediate; infer_instance

/-- `positionX` may write: the type is Horizontal or Both. -/
def AllowsX (d : Positioner) : Prop :=
  d.type = PositionerType.Horizontal ∨ d.type = PositionerType.Both

/-- `positionY` may write: the type is Vertical or Both. -/
def AllowsY (d : Positioner) : Prop :=
  d.type = PositionerType.Vertical ∨ d.type = PositionerType.Both

instance (d : Positioner) : Decidable (AllowsX d) := by unfold AllowsX; infer_instance
instance (d : Positioner) : Decidable (AllowsY d) := by unfold AllowsY; infer_instance

/-! ## Concrete inputs and proof-side definitions -/

/-- Column, fractional height: items 0 and 1, heights 1/2 and 1, spacing 0. -/
def columnHalfD : Positioner :=
  { type := PositionerType.Vertical, spacing := 0, addTransition := false,
    moveTransition := false,
    positionedItems := [⟨some 0, false, true⟩, ⟨some 1, false, true⟩],
    width := 0, height := 0, componentComplete := true, queuedPositioning := false,
    watched := [0, 1], implicitWidth := 0, implicitHeight := 0 }

/-- The heap for `columnHalfD`: item 0 is 10 by 1/2, every other item 10 by 1, all at (3, 7). -/
def columnHalfW : World :=
  { scene := fun a => if a = 0 then ⟨3, 7, 10, 1 / 2, 1, true⟩ else ⟨3, 7, 10, 1, 1, true⟩,
    addActions := [], moveActions := [] }

/-- Row, fractional width: items 0 and 1, widths 1/2 and 1, spacing 0. -/
def rowHalfD : Positioner :=
  { type := PositionerType.Horizontal, spacing := 0, addTransition := false,
    moveTransition := false,
    positionedItems := [⟨some 0, false, true⟩, ⟨some 1, false, true⟩],
    width := 0, height := 0, componentComplete := true, queuedPositioning := false,
    watched := [0, 1], implicitWidth := 0, implicitHeight := 0 }

/-- The heap for `rowHalfD`: item 0 is 1/2 by 10, every other item 1 by 10, all at (3, 7). -/
def rowHalfW : World :=
  { scene := fun a => if a = 0 then ⟨3, 7, 1 / 2, 10, 1, true⟩ else ⟨3, 7, 1, 10, 1, true⟩,
    addActions := [], moveActions := [] }

/-- The recurrence of spec 4.5 for Flow LeftToRight, in the spec's words, on integer sizes
`(width, height)`: before an item, wrap (`hoffset := 0`, `voffset += linemax + spacing`,
`linemax := 0`) exactly when `hoffset > 0` and `hoffset + width > W`; the item goes to
`(hoffset, voffset)`; after it `hoffset += width + spacing`, `linemax := max linemax height`. -/
def flowRule (W : ℚ) (spacing : Int) : List (Int × Int) → Int → Int → Int → List (Int × Int)
  | [], _, _, _ => []
  | (width, height) :: rest, hoffset, voffset, linemax =>
    let wraps : Bool := decide (hoffset > 0 ∧ ((hoffset + width : Int) : ℚ) > W)
    let hoffset1 := if wraps then 0 else hoffset
    let voffset1 := if wraps then voffset + linemax + spacing else voffset
    let linemax1 := if wraps then 0 else linemax
    (hoffset1, voffset1) ::
      flowRule W spacing rest (hoffset1 + width + spacing) voffset1 (max linemax1 height)

/-- Flow, the example of spec 8.6: width 100, spacing 0, items of widths 60, 50, 10 and heights
20, 30, 4. -/
def flowWrapD : Positioner :=
  { type := PositionerType.Both, spacing := 0, addTransition := false,
    moveTransition := false,
    positionedItems := [⟨some 0, true, true⟩, ⟨some 1, false, true⟩, ⟨some 2, false, true⟩],
    width := 100, height := 0, componentComplete := true, queuedPositioning := false,
    watched := [0, 1, 2], implicitWidth := 0, implicitHeight := 0 }

/-- The heap for `flowWrapD`, every item at (7, 7) before the layout. -/
def flowWrapW : World :=
  { scene := fun a =>
      if a = 0 then ⟨7, 7, 60, 20, 1, true⟩
      else if a = 1 then ⟨7, 7, 50, 30, 1, true⟩ else ⟨7, 7, 10, 4, 1, true⟩,
    addActions := [], moveActions := [] }

/-- An item with x and y swapped and width and height swapped. -/
def transposeItem (it : QmlGraphicsItem) : QmlGraphicsItem :=
  ⟨it.y, it.x, it.height, it.width, it.opacity, it.visible⟩

/-- The heap with every item transposed. -/
def transposeScene (s : Nat → QmlGraphicsItem) : Nat → QmlGraphicsItem :=
  fun a => transposeItem (s a)

/-- The positioner with its own width and height swapped. -/
def transposePositioner (d : Positioner) : Positioner :=
  { d with width := d.height, height := d.width }

/-- The world over the transposed heap. -/
def transposeWorld (w : World) : World :=
  { w with scene := transposeScene w.scene }

/-- A laid-out entry with width and height swapped. -/
def transposeLaid (l : Laid) : Laid := ⟨l.addr, l.isNew, l.height, l.width⟩

/-- A request with the two offsets swapped, for the transposed entry. -/
def transposePlacement (p : Placement) : Placement := ⟨transposeLaid p.target, p.yo, p.xo⟩

/-- The Flow loop variables with `hoffset` and `voffset` swapped. -/
def transposeVars (v : FlowVars) : FlowVars := ⟨v.voffset, v.hoffset, v.linemax⟩

/-- Flow TopToBottom of height 100 over three items. -/
def flowDownD : Positioner :=
  { type := PositionerType.Both, spacing := 5, addTransition := false,
    moveTransition := false,
    positionedItems := [⟨some 0, true, true⟩, ⟨some 1, false, true⟩, ⟨some 2, false, true⟩],
    width := 300, height := 100, componentComplete := true, queuedPositioning := false,
    watched := [0, 1, 2], implicitWidth := 0, implicitHeight := 0 }

/-- The heap for `flowDownD`: items of sizes 20 by 60, 35 by 50, 4 by 10. -/
def flowDownW : World :=
  { scene := fun a =>
      if a = 0 then ⟨7, 8, 20, 60, 1, true⟩
      else if a = 1 then ⟨7, 8, 35, 50, 1, true⟩ else ⟨7, 8, 4, 10, 1, true⟩,
    addActions := [], moveActions := [] }

/-- A Grid positioner (type Both, immediate mode) over the given registry and spacing. -/
def gridOf (spacing : Int) (items : List PositionedItem) : Positioner :=
  { type := PositionerType.Both, spacing := spacing, addTransition := false,
    moveTransition := false, positionedItems := items,
    width := 0, height := 0, componentComplete := true, queuedPositioning := false,
    watched := [], implicitWidth := 0, implicitHeight := 0 }

/-- A heap with a hidden item 0 (visible flag off), item 1 of size 50 by 10, item 2 of size
10 by 10 and every other item 30 by 10, all at (7, 7). -/
def gridHiddenW : World :=
  { scene := fun a =>
      if a = 0 then ⟨7, 7, 40, 40, 1, false⟩
      else if a = 1 then ⟨7, 7, 50, 10, 1, true⟩
      else if a = 2 then ⟨7, 7, 10, 10, 1, true⟩ else ⟨7, 7, 30, 10, 1, true⟩,
    addActions := [], moveActions := [] }

/-- The registry hidden item 0, then items 1 and 2. -/
def gridHiddenItems : List PositionedItem :=
  [⟨some 0, false, false⟩, ⟨some 1, false, true⟩, ⟨some 2, false, true⟩]

/-- A heap with items 1, 2, 3 of sizes 10 by 10, 20 by 10, 30 by 10 and every other item
hidden (visible flag off), all at (7, 7). -/
def gridCountW : World :=
  { scene := fun a =>
      if a = 1 then ⟨7, 7, 10, 10, 1, true⟩
      else if a = 2 then ⟨7, 7, 20, 10, 1, true⟩
      else if a = 3 then ⟨7, 7, 30, 10, 1, true⟩ else ⟨7, 7, 40, 40, 1, false⟩,
    addActions := [], moveActions := [] }

/-- The registry item 1, hidden items 4 and 5, then items 2 and 3. -/
def gridCountItems : List PositionedItem :=
  [⟨some 1, false, true⟩, ⟨some 4, false, false⟩, ⟨some 5, false, false⟩,
    ⟨some 2, false, true⟩, ⟨some 3, false, true⟩]

/-- A heap with item 0 of opacity 0, item 1 of size 50 by 10 and every other item 10 by 10,
all at (7, 7). -/
def gridOpacityW : World :=
  { scene := fun a =>
      if a = 0 then ⟨7, 7, 40, 40, 0, true⟩
      else if a = 1 then ⟨7, 7, 50, 10, 1, true⟩ else ⟨7, 7, 10, 10, 1, true⟩,
    addActions := [], moveActions := [] }

/-- The x and y of an item after a Grid layout (`none` when the layout is undefined). -/
def gridResult (r : Option World) (a : Nat) : Option (ℚ × ℚ) :=
  r.map (fun w => ((w.scene a).x, (w.scene a).y))

/-- The invariant of the measuring loop before cell `(i, j)`, for `C` columns. -/
def MeasureInv (items : List PositionedItem) (C i j : Nat) (m : GridMeasure) : Prop :=
  m.childIndex ≤ items.length ∧
    m.maxRowHeight.length = (if j = 0 then i else i + 1) ∧
    m.maxColWidth.length = (if i = 0 then j else C)

/-- The registry entry of an item: the entry at the index `find` returns. -/
def entryOf (items : List PositionedItem) (a : Nat) : Option PositionedItem :=
  match find items (PositionedItem.create a) with
  | none => none
  | some i => items[i]?

/-- What lines 222-231 write into the entry of child `c`, given the heap. -/
def touch (s : Nat → QmlGraphicsItem) (c : Nat) (e : PositionedItem) : PositionedItem :=
  if (s c).opacity ≤ 0 ∨ (s c).visible = false then { e with isVisible := false }
  else if e.isVisible = false then { e with isVisible := true, isNew := true }
  else { e with isNew := false }

/-- Find-or-append followed by a write to the entry found: the registry update of one child. -/
def upsert (f : PositionedItem → PositionedItem) (c : Nat) :
    List PositionedItem → List PositionedItem
  | [] => [f (PositionedItem.create c)]
  | e :: rest => if e.item = some c then f e :: rest else e :: upsert f c rest

/-- A sequence of positioning passes on one positioner: every pass comes with its own sorted
children and heap (the tree may change in any way between two passes); the positioner,
registry included, is carried from one pass to the next. -/
def runPasses (k : Layout) : List (List (Option Nat) × World) → Positioner → Option Positioner
  | [], p => some p
  | (children, w) :: rest, p =>
    match QmlGraphicsBasePositioner.prePositioning k children p w with
    | none => none
    | some (p1, _) => runPasses k rest p1

/-- The registry after the loop of lines 208-232 over the sorted children. -/
def trackAll (s : Nat → QmlGraphicsItem) (children : List (Option Nat)) (p : Positioner) :
    Positioner :=
  children.foldl (QmlGraphicsBasePositioner.track s) p

/-- A completed Column with an empty registry. -/
def noveltyP0 : Positioner :=
  { type := PositionerType.Vertical, spacing := 0, addTransition := false,
    moveTransition := false, positionedItems := [],
    width := 0, height := 0, componentComplete := true, queuedPositioning := false,
    watched := [], implicitWidth := 0, implicitHeight := 0 }

/-- A heap of visible items of size 10 by 10. -/
def noveltyW : World :=
  { scene := fun _ => ⟨0, 0, 10, 10, 1, true⟩, addActions := [], moveActions := [] }

/-- The first pass over the children 0 and 1. -/
def noveltyFirst : Option (Positioner × World) :=
  QmlGraphicsBasePositioner.prePositioning Layout.Column [some 0, some 1] noveltyP0 noveltyW

/-- The positioner after the first pass. -/
def noveltyP1 : Positioner := (noveltyFirst.map Prod.fst).getD noveltyP0

/-- The world after the first pass. -/
def noveltyW1 : World := (noveltyFirst.map Prod.snd).getD noveltyW

/-- The positioner after two more passes. -/
def noveltyPn : Positioner :=
  (runPasses Layout.Column [([some 1, some 0], noveltyW), ([some 0, some 1], noveltyW)]
    noveltyP1).getD noveltyP0

/-- A Grid positioner (type Both) with a move transition configured, so that position requests
are appended to the batches. -/
def gridBatchOf (spacing : Int) (items : List PositionedItem) : Positioner :=
  { type := PositionerType.Both, spacing := spacing, addTransition := false,
    moveTransition := true, positionedItems := items,
    width := 0, height := 0, componentComplete := true, queuedPositioning := false,
    watched := [], implicitWidth := 0, implicitHeight := 0 }

/-- A heap with item 1 at (0, 0) and every other item at (7, 7), all 10 by 10 and visible. -/
def gridInPlaceW : World :=
  { scene := fun a => if a = 1 then ⟨0, 0, 10, 10, 1, true⟩ else ⟨7, 7, 10, 10, 1, true⟩,
    addActions := [], moveActions := [] }

/-- The registry of the visible items 1, 2, 3. -/
def gridThreeItems : List PositionedItem :=
  [⟨some 1, false, true⟩, ⟨some 2, false, true⟩, ⟨some 3, false, true⟩]

/-- A positioner of type Both with only the add transition configured. -/
def addOnlyD : Positioner :=
  { type := PositionerType.Both, spacing := 0, addTransition := true,
    moveTransition := false, positionedItems := [⟨some 1, false, true⟩],
    width := 0, height := 0, componentComplete := true, queuedPositioning := false,
    watched := [1], implicitWidth := 0, implicitHeight := 0 }

/-- A heap of visible items of size 10 by 10 at (7, 7), with empty batches. -/
def plainW : World :=
  { scene := fun _ => ⟨7, 7, 10, 10, 1, true⟩, addActions := [], moveActions := [] }

/-- Effective visibility as `prePositioning` tests it (line 222): opacity above 0 and the
visible flag set. -/
def effectivelyVisible (it : QmlGraphicsItem) : Prop := 0 < it.opacity ∧ it.visible = true

instance (it : QmlGraphicsItem) : Decidable (effectivelyVisible it) := by
  unfold effectivelyVisible; infer_instance

/-- Column of spacing 0 over items 0 and 1 in immediate mode. -/
def columnZeroD : Positioner :=
  { type := PositionerType.Vertical, spacing := 0, addTransition := false,
    moveTransition := false,
    positionedItems := [⟨some 0, false, true⟩, ⟨some 1, false, true⟩],
    width := 0, height := 0, componentComplete := true, queuedPositioning := false,
    watched := [0, 1], implicitWidth := 0, implicitHeight := 0 }

/-- The heap for `columnZeroD`: item 0 has width 0 and height 10, every other item is 10 by
10; all are visible, at (3, 7). -/
def columnZeroW : World :=
  { scene := fun a => if a = 0 then ⟨3, 7, 0, 10, 1, true⟩ else ⟨3, 7, 10, 10, 1, true⟩,
    addActions := [], moveActions := [] }

/-- A Flow positioner whose component is not complete yet, with an empty registry. -/
def incompleteD : Positioner :=
  { type := PositionerType.Both, spacing := 0, addTransition := false,
    moveTransition := false, positionedItems := [],
    width := 100, height := 100, componentComplete := false, queuedPositioning := false,
    watched := [], implicitWidth := 0, implicitHeight := 0 }

/-- A Column positioner (type Vertical) in immediate mode over item 1. -/
def verticalD : Positioner :=
  { type := PositionerType.Vertical, spacing := 0, addTransition := false,
    moveTransition := false, positionedItems := [⟨some 1, false, true⟩],
    width := 0, height := 0, componentComplete := true, queuedPositioning := false,
    watched := [1], implicitWidth := 0, implicitHeight := 0 }

/-- A mutation of the tree as the positioner sees it, each with the sorted children and the
heap at that moment: a positioning pass, a child-added notification, a child-removed
notification. -/
inductive TreeEvent where
  | pass (children : List (Option Nat)) (w : World)
  | childAdded (value : Option Nat) (children : List (Option Nat)) (w : World)
  | childRemoved (value : Option Nat) (children : List (Option Nat)) (w : World)

/-- One event on the positioner. -/
def stepEvent (k : Layout) (ev : TreeEvent) (p : Positioner) : Option (Positioner × World) :=
  match ev with
  | TreeEvent.pass children w => QmlGraphicsBasePositioner.prePositioning k children p w
  | TreeEvent.childAdded value children w =>
    QmlGraphicsBasePositioner.itemChange k children GraphicsItemChange.ItemChildAddedChange
      value p w
  | TreeEvent.childRemoved value children w =>
    QmlGraphicsBasePositioner.itemChange k children GraphicsItemChange.ItemChildRemovedChange
      value p w

/-- A sequence of events on one positioner, the positioner carried from one to the next. -/
def runEvents (k : Layout) : List TreeEvent → Positioner → Option Positioner
  | [], p => some p
  | ev :: rest, p =>
    match stepEvent k ev p with
    | none => none
    | some r => runEvents k rest r.1

/-- A completed Column whose registry holds the visible item 0. -/
def keepD : Positioner :=
  { type := PositionerType.Vertical, spacing := 0, addTransition := false,
    moveTransition := false, positionedItems := [⟨some 0, false, true⟩],
    width := 0, height := 0, componentComplete := true, queuedPositioning := false,
    watched := [0], implicitWidth := 0, implicitHeight := 0 }

/-- A heap of items of size 10 by 10 in which item 1 has its visible flag cleared. -/
def keepW : World :=
  { scene := fun a => ⟨0, 0, 10, 10, 1, decide (a ≠ 1)⟩, addActions := [], moveActions := [] }

/-- The pass of `keepD` over the children 0 and 1. -/
def keepPass : Option (Positioner × World) :=
  QmlGraphicsBasePositioner.prePositioning Layout.Column [some 0, some 1] keepD keepW

/-- The positioner after `keepPass`. -/
def keepP1 : Positioner := (keepPass.map Prod.fst).getD keepD

/-- The world after `keepPass`. -/
def keepW1 : World := (keepPass.map Prod.snd).getD keepW

/-- The removal of child 1 from the Column `noveltyP1` (registry 0, 1, both new), with the
remaining child 0. -/
def removalR : Option (Positioner × World) :=
  QmlGraphicsBasePositioner.itemChange Layout.Column [some 0]
    GraphicsItemChange.ItemChildRemovedChange (some 1) noveltyP1 noveltyW1

/-- The positioner after `removalR`. -/
def removalP1 : Positioner := (removalR.map Prod.fst).getD noveltyP1

/-- The world after `removalR`. -/
def removalW1 : World := (removalR.map Prod.snd).getD noveltyW1

/-- The first pass of the Column `noveltyP0` over the children 1 (key 10) and 2 (key 20). -/
def orderFirst : Option (Positioner × World) :=
  QmlGraphicsBasePositioner.prePositioning Layout.Column
    (sortedChildren [(10, some 1), (20, some 2)]) noveltyP0 noveltyW

/-- The positioner after `orderFirst`. -/
def orderP1 : Positioner := (orderFirst.map Prod.fst).getD noveltyP0

/-- The world after `orderFirst`. -/
def orderW1 : World := (orderFirst.map Prod.snd).getD noveltyW

/-- Child 0 is added with key 5, ahead of the tracked children 1 and 2; the notification
runs a pass over the sorted children. -/
def orderSecond : Option (Positioner × World) :=
  QmlGraphicsBasePositioner.itemChange Layout.Column
    (sortedChildren [(10, some 1), (20, some 2), (5, some 0)])
    GraphicsItemChange.ItemChildAddedChange (some 0) orderP1 orderW1

/-- The positioner after `orderSecond`. -/
def orderP2 : Positioner := (orderSecond.map Prod.fst).getD noveltyP0

/-- The world after `orderSecond`. -/
def orderW2 : World := (orderSecond.map Prod.snd).getD noveltyW

/-- The registry items that are effectively visible in the heap `s`, in registry order. -/
def visibleItems (s : Nat → QmlGraphicsItem) (items : List PositionedItem) : List Nat :=
  (items.filterMap (fun e => e.item)).filter (fun a => decide (effectivelyVisible (s a)))

/-- The largest of 0 and the values of `f` on a list of items: the result of the loop of lines
237-245 on one axis. -/
def maxEdge (f : Nat → ℚ) (l : List Nat) : ℚ := (l.map f).foldl max 0

/-- A heap of visible items of width 50 and height 10 at x = -100, y = 0. -/
def leftW : World :=
  { scene := fun _ => ⟨-100, 0, 50, 10, 1, true⟩, addActions := [], moveActions := [] }

/-- The pass of the Column `noveltyP0` over the child 0 on the heap `leftW`. -/
def leftPass : Option (Positioner × World) :=
  QmlGraphicsBasePositioner.prePositioning Layout.Column [some 0] noveltyP0 leftW

/-- The positioner after `leftPass`. -/
def leftP1 : Positioner := (leftPass.map Prod.fst).getD noveltyP0

/-- The world after `leftPass`. -/
def leftW1 : World := (leftPass.map Prod.snd).getD leftW

/-- The `PositionerType` each subclass passes to the base constructor (lines 395, 505, 629,
773). -/
def constructedType : Layout → PositionerType
  | Layout.Column => PositionerType.Vertical
  | Layout.Row => PositionerType.Horizontal
  | Layout.Grid _ _ => PositionerType.Both
  | Layout.Flow _ => PositionerType.Both

/-- The conditional requests of a layout's `doPositioning` on the heap `s`, in order; `none`
where Grid indexes out of range or divides by zero. -/
def planOf (k : Layout) (d : Positioner) (s : Nat → QmlGraphicsItem) : Option (List Placement) :=
  match k with
  | Layout.Column => some (columnPlan d.spacing (laid s d.positionedItems) 0)
  | Layout.Row => some (rowPlan d.spacing (laid s d.positionedItems) 0)
  | Layout.Grid columns rows =>
    match QmlGraphicsGrid.dims columns rows d.positionedItems.length with
    | none => none
    | some (c, r) =>
      match QmlGraphicsGrid.measure s d.positionedItems c r with
      | none => none
      | some m =>
        gridPlan d.spacing c r m.maxColWidth m.maxRowHeight (laid s d.positionedItems) 0 0 0 0
  | Layout.Flow flow =>
    some (flowPlan flow d.spacing d.width d.height (laid s d.positionedItems) ⟨0, 0, 0⟩)

/-- What a request asks for: the item and the two offsets. -/
def requested (p : Placement) : Nat × Option Int × Option Int := (p.target.addr, p.xo, p.yo)

/-- What the loops read of a laid-out entry besides its `isNew` flag. -/
def geometry (l : Laid) : Nat × ℚ × ℚ := (l.addr, l.width, l.height)

/-- A request is idle on a heap: neither requested coordinate differs from the current one, so
the loop body calls neither `positionX` nor `positionY`. -/
def Idle (s : Nat → QmlGraphicsItem) (p : Placement) : Prop :=
  offBy p.xo (s p.target.addr).x = false ∧ offBy p.yo (s p.target.addr).y = false

/-- A completed Column with only the add transition configured and an empty registry. -/
def addColumnD : Positioner :=
  { type := PositionerType.Vertical, spacing := 0, addTransition := true,
    moveTransition := false, positionedItems := [],
    width := 0, height := 0, componentComplete := true, queuedPositioning := false,
    watched := [], implicitWidth := 0, implicitHeight := 0 }

/-- The first pass of `addColumnD` over the child 0 on the heap `plainW` (items at (7, 7)). -/
def addColumnFirst : Option (Positioner × World) :=
  QmlGraphicsBasePositioner.prePositioning Layout.Column [some 0] addColumnD plainW

/-- The positioner after `addColumnFirst`. -/
def addColumnP1 : Positioner := (addColumnFirst.map Prod.fst).getD addColumnD

/-- The world after `addColumnFirst`. -/
def addColumnW1 : World := (addColumnFirst.map Prod.snd).getD plainW

/-- The pass run again on the result of `addColumnFirst`, nothing changed in between. -/
def addColumnSecond : Option (Positioner × World) :=
  QmlGraphicsBasePositioner.prePositioning Layout.Column [some 0] addColumnP1 addColumnW1

/-- The positioner after `addColumnSecond`. -/
def addColumnP2 : Positioner := (addColumnSecond.map Prod.fst).getD addColumnD

/-- The world after `addColumnSecond`. -/
def addColumnW2 : World := (addColumnSecond.map Prod.snd).getD plainW

/-- A heap of visible items of width 10 and height 21/2, all at (0, 0). -/
def fractionW : World :=
  { scene := fun _ => ⟨0, 0, 10, 21 / 2, 1, true⟩, addActions := [], moveActions := [] }

/-- The pass of the Column `noveltyP0` (spacing 0, immediate mode) over the children 0 and 1
on the heap `fractionW`. -/
def fractionPass : Option (Positioner × World) :=
  QmlGraphicsBasePositioner.prePositioning Layout.Column [some 0, some 1] noveltyP0 fractionW

/-- The world after `fractionPass`. -/
def fractionW1 : World := (fractionPass.map Prod.snd).getD fractionW

/-- The positioner after `fractionPass`. -/
def fractionP1 : Positioner := (fractionPass.map Prod.fst).getD noveltyP0

/-- The pass of `noveltyP1` (entries of items 0 and 1, both new and visible) over the children
0 and 1 on the heap `keepW`, in which item 1 has its visible flag cleared. -/
def stalePass : Option (Positioner × World) :=
  QmlGraphicsBasePositioner.prePositioning Layout.Column [some 0, some 1] noveltyP1 keepW

/-- The positioner after `stalePass`. -/
def staleP2 : Positioner := (stalePass.map Prod.fst).getD noveltyP1

/-- The world after `stalePass`. -/
def staleW2 : World := (stalePass.map Prod.snd).getD keepW

/-- The heap `flowWrapW` with every item moved to (3, 4). -/
def flowMovedW : World :=
  { scene := fun a => { flowWrapW.scene a with x := 3, y := 4 },
    addActions := [], moveActions := [] }

/-- A Flow positioner (type Both, immediate mode) of the given width and spacing over the
given registry. -/
def flowOf (width : ℚ) (spacing : Int) (items : List PositionedItem) : Positioner :=
  { type := PositionerType.Both, spacing := spacing, addTransition := false,
    moveTransition := false, positionedItems := items,
    width := width, height := 0, componentComplete := true, queuedPositioning := false,
    watched := [], implicitWidth := 0, implicitHeight := 0 }

/-- The registry of the visible items 0 and 1. -/
def flowTwoItems : List PositionedItem := [⟨some 0, false, true⟩, ⟨some 1, false, true⟩]

/-- The registry of the visible items 0, 1 and 2. -/
def flowThreeItems : List PositionedItem :=
  [⟨some 0, false, true⟩, ⟨some 1, false, true⟩, ⟨some 2, false, true⟩]

/-- A heap with item 0 of width -30 and every other item of width 45, all of height 5, at
(7, 7). -/
def flowNegativeW : World :=
  { scene := fun a => if a = 0 then ⟨7, 7, -30, 5, 1, true⟩ else ⟨7, 7, 45, 5, 1, true⟩,
    addActions := [], moveActions := [] }

/-- The heap of `flowWrapW` (widths 60, 50, 10) with the height of item 0 set to -5. -/
def flowNegativeHeightW : World :=
  { scene := fun a =>
      if a = 0 then ⟨7, 7, 60, -5, 1, true⟩
      else if a = 1 then ⟨7, 7, 50, 30, 1, true⟩ else ⟨7, 7, 10, 4, 1, true⟩,
    addActions := [], moveActions := [] }

/-- A heap with item 0 of width 1 and every other item of width 2^53, all of height 5, at
(7, 7). -/
def flowHugeW : World :=
  { scene := fun a =>
      if a = 0 then ⟨7, 7, 1, 5, 1, true⟩ else ⟨7, 7, 9007199254740992, 5, 1, true⟩,
    addActions := [], moveActions := [] }

/-- A heap with item 0 of width 2147483647 and every other item of width 10, all of height 5,
at (7, 7). -/
def flowOverflowW : World :=
  { scene := fun a =>
      if a = 0 then ⟨7, 7, 2147483647, 5, 1, true⟩ else ⟨7, 7, 10, 5, 1, true⟩,
    addActions := [], moveActions := [] }

/-- A Grid registry of the two visible items 1 and 2. -/
def gridTwoItems : List PositionedItem := [⟨some 1, false, true⟩, ⟨some 2, false, true⟩]

/-! # Theorems -/

theorem SameGeom.refl (s : Nat → QmlGraphicsItem) : SameGeom s s := fun _ => ⟨rfl, rfl, rfl, rfl⟩

theorem SameGeom.trans {s t u : Nat → QmlGraphicsItem} (h1 : SameGeom s t) (h2 : SameGeom t u) :
    SameGeom s u := fun b =>
  ⟨(h2 b).1.trans (h1 b).1, (h2 b).2.1.trans (h1 b).2.1, (h2 b).2.2.1.trans (h1 b).2.2.1,
    (h2 b).2.2.2.trans (h1 b).2.2.2⟩

theorem sameGeom_setX (s : Nat → QmlGraphicsItem) (a : Nat) (x : ℚ) : SameGeom s (setX s a x) := by
  intro b
  unfold setX
  by_cases h : b = a
  · subst h; simp
  · simp [h]

theorem sameGeom_setY (s : Nat → QmlGraphicsItem) (a : Nat) (y : ℚ) : SameGeom s (setY s a y) := by
  intro b
  unfold setY
  by_cases h : b = a
  · subst h; simp
  · simp [h]

theorem sameGeom_positionX (d : Positioner) (x : Int) (t : PositionedItem) (w : World) :
    SameGeom w.scene (positionX d x t w).scene := by
  unfold positionX
  split_ifs
  · split
    · exact sameGeom_setX _ _ _
    · exact SameGeom.refl _
  · exact SameGeom.refl _
  · exact SameGeom.refl _
  · exact SameGeom.refl _

theorem sameGeom_positionY (d : Positioner) (y : Int) (t : PositionedItem) (w : World) :
    SameGeom w.scene (positionY d y t w).scene := by
  unfold positionY
  split_ifs
  · split
    · exact sameGeom_setY _ _ _
    · exact SameGeom.refl _
  · exact SameGeom.refl _
  · exact SameGeom.refl _
  · exact SameGeom.refl _

theorem sameGeom_place (d : Positioner) (p : Placement) (w : World) :
    SameGeom w.scene (place d p w).scene := by
  unfold place
  split_ifs
  · cases hx : p.xo <;> cases hy : p.yo <;> simp only
    · exact SameGeom.refl _
    · exact sameGeom_positionY _ _ _ _
    · exact sameGeom_positionX _ _ _ _
    · exact (sameGeom_positionX _ _ _ _).trans (sameGeom_positionY _ _ _ _)
  · exact SameGeom.refl _

theorem sameGeom_placeAll (d : Positioner) (ps : List Placement) (w : World) :
    SameGeom w.scene (placeAll d ps w).scene := by
  induction ps generalizing w with
  | nil => exact SameGeom.refl _
  | cons p ps ih => exact (sameGeom_place d p w).trans (ih _)

theorem isInvisible_congr {s t : Nat → QmlGraphicsItem} (h : SameGeom s t) (a : Nat) :
    isInvisible (t a) = isInvisible (s a) := by
  obtain ⟨h1, h2, h3, h4⟩ := h a
  simp [isInvisible, h1, h2, h3, h4]

theorem laid_congr {s t : Nat → QmlGraphicsItem} (h : SameGeom s t) (items : List PositionedItem) :
    laid t items = laid s items := by
  induction items with
  | nil => rfl
  | cons child rest ih =>
    unfold laid
    cases hc : child.item with
    | none => simpa using ih
    | some a =>
      simp only [isInvisible_congr h a, ih, (h a).1, (h a).2.1]

/-! ### What a request changes -/

theorem setX_other (s : Nat → QmlGraphicsItem) (a b : Nat) (x : ℚ) (h : b ≠ a) :
    setX s a x b = s b := by simp [setX, h]

theorem setY_other (s : Nat → QmlGraphicsItem) (a b : Nat) (y : ℚ) (h : b ≠ a) :
    setY s a y b = s b := by simp [setY, h]

theorem positionX_other (d : Positioner) (x : Int) (t : PositionedItem) (w : World) (a b : Nat)
    (ht : t.item = some a) (h : b ≠ a) : (positionX d x t w).scene b = w.scene b := by
  unfold positionX
  split_ifs <;> simp [ht, setX_other _ _ _ _ h]

theorem positionY_other (d : Positioner) (y : Int) (t : PositionedItem) (w : World) (a b : Nat)
    (ht : t.item = some a) (h : b ≠ a) : (positionY d y t w).scene b = w.scene b := by
  unfold positionY
  split_ifs <;> simp [ht, setY_other _ _ _ _ h]

theorem place_other (d : Positioner) (p : Placement) (w : World) (b : Nat)
    (h : b ≠ p.target.addr) : (place d p w).scene b = w.scene b := by
  unfold place
  split_ifs
  · cases hx : p.xo <;> cases hy : p.yo <;> simp only
    · exact positionY_other _ _ _ _ _ _ rfl h
    · exact positionX_other _ _ _ _ _ _ rfl h
    · rw [positionY_other _ _ _ _ _ _ rfl h, positionX_other _ _ _ _ _ _ rfl h]
  · rfl

theorem placeAll_other (d : Positioner) (ps : List Placement) (w : World) (b : Nat)
    (h : ∀ p ∈ ps, b ≠ p.target.addr) : (placeAll d ps w).scene b = w.scene b := by
  induction ps generalizing w with
  | nil => rfl
  | cons p ps ih =>
    simp only [placeAll]
    rw [ih _ (fun q hq => h q (List.mem_cons_of_mem _ hq)),
      place_other d p w b (h p (List.mem_cons_self _ _))]

theorem positionX_x (d : Positioner) (x : Int) (t : PositionedItem) (w : World) (a : Nat)
    (ht : t.item = some a) (hi : Immediate d) (hx : AllowsX d) :
    ((positionX d x t w).scene a).x = x := by
  have hx1 : d.type = PositionerType.Horizontal ∨ d.type = PositionerType.Both := hx
  have hi1 : d.addTransition = false ∧ d.moveTransition = false := hi
  unfold positionX
  rw [if_pos hx1, if_pos hi1]
  simp [ht, setX]

theorem positionY_y (d : Positioner) (y : Int) (t : PositionedItem) (w : World) (a : Nat)
    (ht : t.item = some a) (hi : Immediate d) (hy : AllowsY d) :
    ((positionY d y t w).scene a).y = y := by
  have hy1 : d.type = PositionerType.Vertical ∨ d.type = PositionerType.Both := hy
  have hi1 : d.addTransition = false ∧ d.moveTransition = false := hi
  unfold positionY
  rw [if_pos hy1, if_pos hi1]
  simp [ht, setY]

theorem positionX_y (d : Positioner) (x : Int) (t : PositionedItem) (w : World) (b : Nat) :
    ((positionX d x t w).scene b).y = (w.scene b).y := by
  unfold positionX
  split_ifs
  · split
    · rename_i a _
      unfold setX
      by_cases h : b = a
      · subst h; simp
      · simp [h]
    · rfl
  · rfl
  · rfl
  · rfl

theorem positionY_x (d : Positioner) (y : Int) (t : PositionedItem) (w : World) (b : Nat) :
    ((positionY d y t w).scene b).x = (w.scene b).x := by
  unfold positionY
  split_ifs
  · split
    · rename_i a _
      unfold setY
      by_cases h : b = a
      · subst h; simp
      · simp [h]
    · rfl
  · rfl
  · rfl
  · rfl

theorem offBy_false {o : Option Int} {q : ℚ} {v : Int} (h : offBy o q = false) (ho : o = some v) :
    q = v := by
  subst ho
  simpa [offBy] using h

theorem place_x (d : Positioner) (p : Placement) (w : World) (h : Int)
    (hi : Immediate d) (hx : AllowsX d) (hp : p.xo = some h) :
    ((place d p w).scene p.target.addr).x = h := by
  unfold place
  split_ifs with hc
  · cases hy : p.yo <;> simp only [hp]
    · exact positionX_x _ _ _ _ _ rfl hi hx
    · rw [positionY_x]; exact positionX_x _ _ _ _ _ rfl hi hx
  · simp only [Bool.or_eq_true, not_or, Bool.not_eq_true] at hc
    exact offBy_false hc.1 hp

theorem place_y (d : Positioner) (p : Placement) (w : World) (v : Int)
    (hi : Immediate d) (hy : AllowsY d) (hp : p.yo = some v) :
    ((place d p w).scene p.target.addr).y = v := by
  unfold place
  split_ifs with hc
  · cases hx : p.xo <;> simp only [hp]
    · exact positionY_y _ _ _ _ _ rfl hi hy
    · exact positionY_y _ _ _ _ _ rfl hi hy
  · simp only [Bool.or_eq_true, not_or, Bool.not_eq_true] at hc
    exact offBy_false hc.2 hp

theorem placeAll_x (d : Positioner) (ps : List Placement) (w : World)
    (hi : Immediate d) (hx : AllowsX d) (hnd : (ps.map (fun p => p.target.addr)).Nodup)
    (p : Placement) (hp : p ∈ ps) (h : Int) (hxo : p.xo = some h) :
    ((placeAll d ps w).scene p.target.addr).x = h := by
  induction ps generalizing w with
  | nil => cases hp
  | cons q qs ih =>
    simp only [List.map_cons, List.nodup_cons, List.mem_map, not_exists, not_and] at hnd
    simp only [placeAll]
    rcases List.mem_cons.1 hp with rfl | hmem
    · rw [placeAll_other d qs _ _ (fun q hq heq => hnd.1 q hq heq.symm)]
      exact place_x d p w h hi hx hxo
    · exact ih _ hnd.2 hmem

theorem placeAll_y (d : Positioner) (ps : List Placement) (w : World)
    (hi : Immediate d) (hy : AllowsY d) (hnd : (ps.map (fun p => p.target.addr)).Nodup)
    (p : Placement) (hp : p ∈ ps) (v : Int) (hyo : p.yo = some v) :
    ((placeAll d ps w).scene p.target.addr).y = v := by
  induction ps generalizing w with
  | nil => cases hp
  | cons q qs ih =>
    simp only [List.map_cons, List.nodup_cons, List.mem_map, not_exists, not_and] at hnd
    simp only [placeAll]
    rcases List.mem_cons.1 hp with rfl | hmem
    · rw [placeAll_other d qs _ _ (fun q hq heq => hnd.1 q hq heq.symm)]
      exact place_y d p w v hi hy hyo
    · exact ih _ hnd.2 hmem

/-! ### The loops issue the requests of their plans -/

theorem positionX_congr (d : Positioner) (x : Int) (t u : PositionedItem) (w : World)
    (h1 : t.item = u.item) (h2 : t.isNew = u.isNew) : positionX d x t w = positionX d x u w := by
  unfold positionX
  rw [h1, h2]

theorem positionY_congr (d : Positioner) (y : Int) (t u : PositionedItem) (w : World)
    (h1 : t.item = u.item) (h2 : t.isNew = u.isNew) : positionY d y t w = positionY d y u w := by
  unfold positionY
  rw [h1, h2]

theorem place_y_only (d : Positioner) (child : PositionedItem) (a : Nat) (wd ht : ℚ) (v : Int)
    (w : World) (hc : child.item = some a) :
    place d ⟨⟨a, child.isNew, wd, ht⟩, none, some v⟩ w =
      if (w.scene a).y ≠ (v : ℚ) then positionY d v child w else w := by
  unfold place
  simp only [offBy, Bool.false_or, decide_eq_true_eq]
  split_ifs
  · exact positionY_congr _ _ _ _ _ hc.symm rfl
  · rfl

theorem place_x_only (d : Positioner) (child : PositionedItem) (a : Nat) (wd ht : ℚ) (h : Int)
    (w : World) (hc : child.item = some a) :
    place d ⟨⟨a, child.isNew, wd, ht⟩, some h, none⟩ w =
      if (w.scene a).x ≠ (h : ℚ) then positionX d h child w else w := by
  unfold place
  simp only [offBy, Bool.or_false, decide_eq_true_eq]
  split_ifs
  · exact positionX_congr _ _ _ _ _ hc.symm rfl
  · rfl

theorem place_both (d : Positioner) (child : PositionedItem) (a : Nat) (wd ht : ℚ) (h v : Int)
    (w : World) (hc : child.item = some a) :
    place d ⟨⟨a, child.isNew, wd, ht⟩, some h, some v⟩ w =
      if (w.scene a).x ≠ (h : ℚ) ∨ (w.scene a).y ≠ (v : ℚ) then
        positionY d v child (positionX d h child w)
      else w := by
  unfold place
  simp only [offBy, Bool.or_eq_true, decide_eq_true_eq]
  split_ifs
  · rw [positionX_congr d h child ⟨some a, child.isNew, true⟩ w hc rfl]
    exact (positionY_congr d v child ⟨some a, child.isNew, true⟩ _ hc rfl).symm
  · rfl

theorem column_loop_eq (d : Positioner) (items : List PositionedItem) (v : Int) (w : World) :
    QmlGraphicsColumn.loop d items v w =
      placeAll d (columnPlan d.spacing (laid w.scene items) v) w := by
  induction items generalizing v w with
  | nil => rfl
  | cons child rest ih =>
    unfold QmlGraphicsColumn.loop laid
    cases hc : child.item with
    | none => simpa using ih v w
    | some a =>
      by_cases hinv : isInvisible (w.scene a) = true
      · simpa [hinv] using ih v w
      · simp only [hinv, if_false, columnPlan, placeAll, Bool.false_eq_true]
        rw [place_y_only d child a _ _ v w hc]
        have hg : SameGeom w.scene
            (if (w.scene a).y ≠ (v : ℚ) then positionY d v child w else w).scene := by
          split_ifs
          · exact sameGeom_positionY _ _ _ _
          · exact SameGeom.refl _
        rw [ih, laid_congr hg, (hg a).2.1]

theorem row_loop_eq (d : Positioner) (items : List PositionedItem) (h : Int) (w : World) :
    QmlGraphicsRow.loop d items h w = placeAll d (rowPlan d.spacing (laid w.scene items) h) w := by
  induction items generalizing h w with
  | nil => rfl
  | cons child rest ih =>
    unfold QmlGraphicsRow.loop laid
    cases hc : child.item with
    | none => simpa using ih h w
    | some a =>
      by_cases hinv : isInvisible (w.scene a) = true
      · simpa [hinv] using ih h w
      · simp only [hinv, if_false, rowPlan, placeAll, Bool.false_eq_true]
        rw [place_x_only d child a _ _ h w hc]
        have hg : SameGeom w.scene
            (if (w.scene a).x ≠ (h : ℚ) then positionX d h child w else w).scene := by
          split_ifs
          · exact sameGeom_positionX _ _ _ _
          · exact SameGeom.refl _
        rw [ih, laid_congr hg, (hg a).1]

theorem flow_loop_eq (d : Positioner) (flow : Flow) (items : List PositionedItem) (v : FlowVars)
    (w : World) :
    QmlGraphicsFlow.loop d flow items v w =
      placeAll d (flowPlan flow d.spacing d.width d.height (laid w.scene items) v) w := by
  induction items generalizing v w with
  | nil => rfl
  | cons child rest ih =>
    unfold QmlGraphicsFlow.loop laid
    cases hc : child.item with
    | none => simpa using ih v w
    | some a =>
      by_cases hinv : isInvisible (w.scene a) = true
      · simpa [hinv] using ih v w
      · simp only [hinv, if_false, flowPlan, placeAll, Bool.false_eq_true]
        rw [place_both d child a _ _ _ _ w hc]
        generalize hv1 : QmlGraphicsFlow.wrap flow d.spacing d.width d.height (w.scene a).width
          (w.scene a).height v = v1
        have hg : SameGeom w.scene
            (if (w.scene a).x ≠ (v1.hoffset : ℚ) ∨ (w.scene a).y ≠ (v1.voffset : ℚ) then
              positionY d v1.voffset child (positionX d v1.hoffset child w) else w).scene := by
          split_ifs
          · exact (sameGeom_positionX _ _ _ _).trans (sameGeom_positionY _ _ _ _)
          · exact SameGeom.refl _
        rw [ih, laid_congr hg, (hg a).1, (hg a).2.1]

theorem grid_loop_eq (d : Positioner) (c r : Int) (mcw mrh : List Int)
    (items : List PositionedItem) (x y cr cc : Int) (w : World) :
    QmlGraphicsGrid.loop d c r mcw mrh items x y cr cc w =
      (gridPlan d.spacing c r mcw mrh (laid w.scene items) x y cr cc).map
        (fun ps => placeAll d ps w) := by
  induction items generalizing x y cr cc w with
  | nil => rfl
  | cons child rest ih =>
    unfold QmlGraphicsGrid.loop laid
    cases hc : child.item with
    | none => simpa using ih x y cr cc w
    | some a =>
      by_cases hinv : isInvisible (w.scene a) = true
      · simpa [hinv] using ih x y cr cc w
      · simp only [hinv, if_false, gridPlan, Bool.false_eq_true]
        have hpl := place_both d child a (w.scene a).width (w.scene a).height x y w hc
        have hg : SameGeom w.scene
            (if (w.scene a).x ≠ (x : ℚ) ∨ (w.scene a).y ≠ (y : ℚ) then
              positionY d y child (positionX d x child w) else w).scene := by
          split_ifs
          · exact (sameGeom_positionX _ _ _ _).trans (sameGeom_positionY _ _ _ _)
          · exact SameGeom.refl _
        cases hcw : intIndex mcw cc with
        | none => rfl
        | some cw =>
          simp only []
          by_cases hc0 : c = 0
          · simp [hc0]
          · simp only [hc0, if_false]
            by_cases hmod : Int.tmod (cc + 1) c = 0
            · simp only [hmod, if_true]
              cases hrh : intIndex mrh cr with
              | none => rfl
              | some rh =>
                simp only []
                by_cases hlast : cr + 1 ≥ r
                · simp only [hlast, if_true, Option.map_some', placeAll, hpl]
                · simp only [hlast, if_false, Option.map_map]
                  rw [ih, laid_congr hg, ← hpl]
                  rfl
            · simp only [hmod, if_false, Option.map_map]
              rw [ih, laid_congr hg, ← hpl]
              rfl

/-! ### Facts about the plans -/

theorem qrealToInt_intCast (z : Int) : qrealToInt (z : ℚ) = z := by
  unfold qrealToInt
  split_ifs <;> simp

theorem qrealToInt_add_int (a b : Int) : qrealToInt ((a : ℚ) + (b : ℚ)) = a + b := by
  rw [← Int.cast_add, qrealToInt_intCast]

theorem laid_mem (s : Nat → QmlGraphicsItem) (items : List PositionedItem) (l : Laid)
    (h : l ∈ laid s items) :
    l.width = (s l.addr).width ∧ l.height = (s l.addr).height ∧
      isInvisible (s l.addr) = false := by
  induction items with
  | nil => cases h
  | cons child rest ih =>
    unfold laid at h
    cases hc : child.item with
    | none => rw [hc] at h; exact ih h
    | some a =>
      rw [hc] at h
      by_cases hinv : isInvisible (s a) = true
      · simp only [hinv, if_true] at h; exact ih h
      · simp only [hinv, if_false, Bool.false_eq_true] at h
        rcases List.mem_cons.1 h with rfl | h'
        · simpa using hinv
        · exact ih h'

theorem columnPlan_targets (sp : Int) (ls : List Laid) (v : Int) :
    (columnPlan sp ls v).map (fun p => p.target) = ls := by
  induction ls generalizing v with
  | nil => rfl
  | cons l ls ih => simp [columnPlan, ih]

theorem plan_addr_nodup {ps : List Placement} {ls : List Laid}
    (h : ps.map (fun p => p.target) = ls) (hnd : (ls.map (fun l => l.addr)).Nodup) :
    (ps.map (fun p => p.target.addr)).Nodup := by
  subst h
  simpa [List.map_map, Function.comp] using hnd

/-! ### Column and Row with fractional sizes -/

/-- C1. Column with heights 1/2 and 1 and spacing 0, in immediate mode: both items are laid
out; the first is at y = 0 and the running offset 0 + 1/2 is truncated to 0, so the second
lands at y = 0 too, not at y(0) + height(0) + spacing = 1/2, and overlaps the first. -/
theorem column_law_truncates :
    laid columnHalfW.scene columnHalfD.positionedItems
        = [⟨0, false, 10, 1 / 2⟩, ⟨1, false, 10, 1⟩] ∧
      ((QmlGraphicsColumn.doPositioning columnHalfD columnHalfW).scene 0).y = 0 ∧
      ((QmlGraphicsColumn.doPositioning columnHalfD columnHalfW).scene 0).height = 1 / 2 ∧
      ((QmlGraphicsColumn.doPositioning columnHalfD columnHalfW).scene 1).y = 0 ∧
      ((QmlGraphicsColumn.doPositioning columnHalfD columnHalfW).scene 1).y ≠
        ((QmlGraphicsColumn.doPositioning columnHalfD columnHalfW).scene 0).y +
          ((QmlGraphicsColumn.doPositioning columnHalfD columnHalfW).scene 0).height +
          columnHalfD.spacing ∧
      ((QmlGraphicsColumn.doPositioning columnHalfD columnHalfW).scene 1).y <
        ((QmlGraphicsColumn.doPositioning columnHalfD columnHalfW).scene 0).y +
          ((QmlGraphicsColumn.doPositioning columnHalfD columnHalfW).scene 0).height := by
  decide!

theorem rowPlan_targets (sp : Int) (ls : List Laid) (h : Int) :
    (rowPlan sp ls h).map (fun p => p.target) = ls := by
  induction ls generalizing h with
  | nil => rfl
  | cons l ls ih => simp [rowPlan, ih]

/-- C2. Row with widths 1/2 and 1 and spacing 0, in immediate mode: both items are laid out;
the first is at x = 0 and the running offset 0 + 1/2 is truncated to 0, so the second lands at
x = 0 too, not at x(0) + width(0) + spacing = 1/2, and overlaps the first. -/
theorem row_law_truncates :
    laid rowHalfW.scene rowHalfD.positionedItems
        = [⟨0, false, 1 / 2, 10⟩, ⟨1, false, 1, 10⟩] ∧
      ((QmlGraphicsRow.doPositioning rowHalfD rowHalfW).scene 0).x = 0 ∧
      ((QmlGraphicsRow.doPositioning rowHalfD rowHalfW).scene 0).width = 1 / 2 ∧
      ((QmlGraphicsRow.doPositioning rowHalfD rowHalfW).scene 1).x = 0 ∧
      ((QmlGraphicsRow.doPositioning rowHalfD rowHalfW).scene 1).x ≠
        ((QmlGraphicsRow.doPositioning rowHalfD rowHalfW).scene 0).x +
          ((QmlGraphicsRow.doPositioning rowHalfD rowHalfW).scene 0).width +
          rowHalfD.spacing ∧
      ((QmlGraphicsRow.doPositioning rowHalfD rowHalfW).scene 1).x <
        ((QmlGraphicsRow.doPositioning rowHalfD rowHalfW).scene 0).x +
          ((QmlGraphicsRow.doPositioning rowHalfD rowHalfW).scene 0).width := by
  decide!

/-! ### Facts about the Flow plan -/

theorem flowPlan_targets (flow : Flow) (sp : Int) (pw ph : ℚ) (ls : List Laid) (v : FlowVars) :
    (flowPlan flow sp pw ph ls v).map (fun p => p.target) = ls := by
  induction ls generalizing v with
  | nil => rfl
  | cons l ls ih => simp [flowPlan, ih]

/-- Immediate mode with both axes allowed: each request of a plan with distinct targets ends
at its offsets. -/
theorem placeAll_xy (d : Positioner) (ps : List Placement) (w : World)
    (hi : Immediate d) (hty : d.type = PositionerType.Both)
    (hnd : (ps.map (fun p => p.target.addr)).Nodup)
    (p : Placement) (hp : p ∈ ps) (h v : Int) (hxo : p.xo = some h) (hyo : p.yo = some v) :
    (((placeAll d ps w).scene p.target.addr).x, ((placeAll d ps w).scene p.target.addr).y) =
      ((h : ℚ), (v : ℚ)) := by
  rw [placeAll_x d ps w hi (Or.inr hty) hnd p hp h hxo,
    placeAll_y d ps w hi (Or.inr hty) hnd p hp v hyo]

/-! ### The Flow recurrence on non-negative sizes without overflow -/

theorem roundDouble_intCast (z : Int) (h : z.natAbs ≤ 9007199254740992) :
    roundDouble (z : ℚ) = z := by
  unfold roundDouble
  rw [if_pos]
  exact ⟨Rat.den_intCast z, by rw [Rat.num_intCast]; exact h⟩

theorem doubleToInt_intCast (z : Int) (h0 : -2147483648 ≤ z) (h1 : z < 2147483648) :
    doubleToInt (z : ℚ) = z := by
  unfold doubleToInt
  have hr : -2147483649 < (z : ℚ) ∧ (z : ℚ) < 2147483648 := by
    constructor
    · have : (-2147483649 : Int) < z := by omega
      exact_mod_cast this
    · exact_mod_cast h1
  rw [if_pos hr, qrealToInt_intCast]

theorem qCeil_intCast (z : Int) (h0 : -2147483648 ≤ z) (h1 : z < 2147483648) :
    qCeil (z : ℚ) = z := by
  unfold qCeil
  rw [Int.ceil_intCast, doubleToInt_intCast z h0 h1]

theorem wrapInt_small (z : Int) (h0 : 0 ≤ z) (h1 : z < 2147483648) : wrapInt z = z := by
  unfold wrapInt
  omega

theorem wrap_leftToRight_int (sp : Int) (pw ph ht : ℚ) (wd : Int) (v : FlowVars)
    (hv : 0 ≤ v.hoffset) (hwd : 0 ≤ wd) (hsum : v.hoffset + wd < 2147483648)
    (hvo : 0 ≤ v.voffset) (hl : 0 ≤ v.linemax) (hsp : 0 ≤ sp)
    (hline : v.voffset + v.linemax + sp < 2147483648) :
    QmlGraphicsFlow.wrap Flow.LeftToRight sp pw ph (wd : ℚ) ht v =
      if v.hoffset > 0 ∧ ((v.hoffset + wd : Int) : ℚ) > pw then
        ⟨0, v.voffset + v.linemax + sp, 0⟩
      else v := by
  have h0 : v.hoffset ≠ 0 ↔ v.hoffset > 0 :=
    ⟨fun h => lt_of_le_of_ne hv (Ne.symm h), fun h => ne_of_gt h⟩
  have hround : roundDouble ((v.hoffset : ℚ) + (wd : ℚ)) = ((v.hoffset + wd : Int) : ℚ) := by
    rw [← Int.cast_add]
    exact roundDouble_intCast _ (by omega)
  unfold QmlGraphicsFlow.wrap
  rw [if_pos rfl, hround]
  by_cases hc : v.hoffset > 0 ∧ ((v.hoffset + wd : Int) : ℚ) > pw
  · have hc' : v.hoffset ≠ 0 ∧ ((v.hoffset + wd : Int) : ℚ) > pw := ⟨h0.2 hc.1, hc.2⟩
    rw [if_pos hc, if_pos hc', wrapInt_small (v.linemax + sp) (by omega) (by omega),
      wrapInt_small _ (by omega) (by omega), add_assoc]
  · have hc' : ¬ (v.hoffset ≠ 0 ∧ ((v.hoffset + wd : Int) : ℚ) > pw) := by
      rintro ⟨h1, h2⟩
      exact hc ⟨h0.1 h1, h2⟩
    rw [if_neg hc, if_neg hc']

theorem advance_leftToRight_int (sp : Int) (wd ht : Int) (v : FlowVars)
    (hv : 0 ≤ v.hoffset) (hwd : 0 ≤ wd) (hsp : 0 ≤ sp)
    (hsum : v.hoffset + wd + sp < 2147483648) (hht : 0 ≤ ht) (hht1 : ht < 2147483648) :
    QmlGraphicsFlow.advance Flow.LeftToRight sp (wd : ℚ) (ht : ℚ) v =
      ⟨v.hoffset + wd + sp, v.voffset, max v.linemax ht⟩ := by
  unfold QmlGraphicsFlow.advance
  rw [if_pos rfl, ← Int.cast_add, roundDouble_intCast _ (by omega),
    doubleToInt_intCast _ (by omega) (by omega), wrapInt_small _ (by omega) (by omega),
    qCeil_intCast ht (by omega) hht1]

theorem sizes_sum_nonneg (sp : Int) (hsp : 0 ≤ sp) (sizes : List (Int × Int))
    (hpos : ∀ s ∈ sizes, 0 ≤ s.1 ∧ 0 ≤ s.2) :
    0 ≤ (sizes.map (fun s => s.1 + s.2 + 2 * sp)).sum := by
  induction sizes with
  | nil => simp
  | cons s ss ih =>
    have h1 := hpos s (List.mem_cons_self _ _)
    have h2 := ih (fun s hs => hpos s (List.mem_cons_of_mem _ hs))
    simp only [List.map_cons, List.sum_cons]
    omega

theorem flowPlan_rule (sp : Int) (pw ph : ℚ) (hsp : 0 ≤ sp) (ls : List Laid)
    (sizes : List (Int × Int)) (v : FlowVars)
    (hsz : ls.map (fun l => (l.width, l.height)) = sizes.map (fun s => ((s.1 : ℚ), (s.2 : ℚ))))
    (hpos : ∀ s ∈ sizes, 0 ≤ s.1 ∧ 0 ≤ s.2)
    (hv : 0 ≤ v.hoffset) (hvo : 0 ≤ v.voffset) (hl : 0 ≤ v.linemax)
    (hsmall : v.hoffset + v.voffset + v.linemax +
      (sizes.map (fun s => s.1 + s.2 + 2 * sp)).sum < 2147483648) :
    (flowPlan Flow.LeftToRight sp pw ph ls v).map (fun p => (p.xo, p.yo)) =
      (flowRule pw sp sizes v.hoffset v.voffset v.linemax).map
        (fun q => (some q.1, some q.2)) := by
  induction ls generalizing sizes v with
  | nil =>
    cases sizes with
    | nil => rfl
    | cons s ss => simp at hsz
  | cons l ls ih =>
    cases sizes with
    | nil => simp at hsz
    | cons s ss =>
      obtain ⟨wd, ht⟩ := s
      simp only [List.map_cons, List.cons.injEq, Prod.mk.injEq] at hsz
      obtain ⟨⟨hw, hh⟩, hrest⟩ := hsz
      have hwd : 0 ≤ wd := (hpos (wd, ht) (List.mem_cons_self _ _)).1
      have hht : 0 ≤ ht := (hpos (wd, ht) (List.mem_cons_self _ _)).2
      have hpos' : ∀ s ∈ ss, 0 ≤ s.1 ∧ 0 ≤ s.2 :=
        fun s hs => hpos s (List.mem_cons_of_mem _ hs)
      have hrestsum := sizes_sum_nonneg sp hsp ss hpos'
      simp only [List.map_cons, List.sum_cons] at hsmall
      simp only [flowPlan, flowRule, List.map_cons, hw, hh]
      rw [wrap_leftToRight_int sp pw ph _ wd v hv hwd (by omega) hvo hl hsp (by omega)]
      by_cases hwrap : v.hoffset > 0 ∧ ((v.hoffset + wd : Int) : ℚ) > pw
      · simp only [hwrap, and_self, if_true, decide_True]
        rw [advance_leftToRight_int sp wd ht ⟨0, v.voffset + v.linemax + sp, 0⟩ (le_refl _) hwd
          hsp (by show (0 : Int) + wd + sp < 2147483648; omega) hht (by omega)]
        rw [ih ss ⟨_, _, _⟩ hrest hpos' (by show 0 ≤ (0 : Int) + wd + sp; omega)
          (by show 0 ≤ v.voffset + v.linemax + sp; omega)
          (by show 0 ≤ max (0 : Int) ht; omega)
          (by
            show (0 : Int) + wd + sp + (v.voffset + v.linemax + sp) + max (0 : Int) ht +
              (ss.map (fun s => s.1 + s.2 + 2 * sp)).sum < 2147483648
            omega)]
      · simp only [hwrap, if_false, decide_False, Bool.false_eq_true]
        rw [advance_leftToRight_int sp wd ht v hv hwd hsp (by omega) hht (by omega)]
        rw [ih ss ⟨_, _, _⟩ hrest hpos' (by show 0 ≤ v.hoffset + wd + sp; omega)
          (by show 0 ≤ v.voffset; omega)
          (by show 0 ≤ max v.linemax ht; omega)
          (by
            show v.hoffset + wd + sp + v.voffset + max v.linemax ht +
              (ss.map (fun s => s.1 + s.2 + 2 * sp)).sum < 2147483648
            omega)]

/-- C3, amended. Flow LeftToRight wrap rule: in immediate mode, for a registry whose laid-out
entries name distinct items and have non-negative integer widths and heights, with
spacing >= 0, any positioner width W, and the sum of width + height + 2 * spacing over the
items below 2^31 (no `int` of the loop overflows and every double sum is exact),
`QmlGraphicsFlow::doPositioning` leaves the laid-out items, in order, at the positions of the
recurrence `flowRule` of the spec (wrap exactly when hoffset > 0 and hoffset + width > W);
and with W = 100, spacing 0 and widths 60, 50, 10 the items are at (0, 0), (0, height0),
(50, height0). -/
theorem flow_left_to_right_rule (d : Positioner) (w : World) (sizes : List (Int × Int))
    (hty : d.type = PositionerType.Both)
    (hadd : d.addTransition = false) (hmove : d.moveTransition = false)
    (hnd : ((laid w.scene d.positionedItems).map (fun l => l.addr)).Nodup)
    (hsp : 0 ≤ d.spacing)
    (hsz : (laid w.scene d.positionedItems).map (fun l => (l.width, l.height)) =
      sizes.map (fun s => ((s.1 : ℚ), (s.2 : ℚ))))
    (hpos : ∀ s ∈ sizes, 0 ≤ s.1 ∧ 0 ≤ s.2)
    (hsmall : (sizes.map (fun s => s.1 + s.2 + 2 * d.spacing)).sum < 2147483648) :
    (laid w.scene d.positionedItems).map (fun l =>
        (((QmlGraphicsFlow.doPositioning d Flow.LeftToRight w).scene l.addr).x,
          ((QmlGraphicsFlow.doPositioning d Flow.LeftToRight w).scene l.addr).y)) =
      (flowRule d.width d.spacing sizes 0 0 0).map (fun q => ((q.1 : ℚ), (q.2 : ℚ))) ∧
    (∀ h0 h1 h2 : Int, d.width = 100 → d.spacing = 0 →
      sizes = [(60, h0), (50, h1), (10, h2)] →
      (laid w.scene d.positionedItems).map (fun l =>
        (((QmlGraphicsFlow.doPositioning d Flow.LeftToRight w).scene l.addr).x,
          ((QmlGraphicsFlow.doPositioning d Flow.LeftToRight w).scene l.addr).y)) =
      [(0, 0), (0, (h0 : ℚ)), (50, (h0 : ℚ))]) := by
  have hi : Immediate d := ⟨hadd, hmove⟩
  have hw : QmlGraphicsFlow.doPositioning d Flow.LeftToRight w =
      placeAll d (flowPlan Flow.LeftToRight d.spacing d.width d.height
        (laid w.scene d.positionedItems) ⟨0, 0, 0⟩) w :=
    flow_loop_eq d Flow.LeftToRight d.positionedItems ⟨0, 0, 0⟩ w
  have htg := flowPlan_targets Flow.LeftToRight d.spacing d.width d.height
    (laid w.scene d.positionedItems) ⟨0, 0, 0⟩
  have hpn := plan_addr_nodup htg hnd
  have hrule := flowPlan_rule d.spacing d.width d.height hsp (laid w.scene d.positionedItems)
    sizes ⟨0, 0, 0⟩ hsz hpos (le_refl _) (le_refl _) (le_refl _)
    (by show (0 : Int) + 0 + 0 + _ < 2147483648; omega)
  have main : (laid w.scene d.positionedItems).map (fun l =>
        (((QmlGraphicsFlow.doPositioning d Flow.LeftToRight w).scene l.addr).x,
          ((QmlGraphicsFlow.doPositioning d Flow.LeftToRight w).scene l.addr).y)) =
      (flowRule d.width d.spacing sizes 0 0 0).map (fun q => ((q.1 : ℚ), (q.2 : ℚ))) := by
    have e1 : (flowRule d.width d.spacing sizes 0 0 0).map (fun q => ((q.1 : ℚ), (q.2 : ℚ))) =
        ((flowPlan Flow.LeftToRight d.spacing d.width d.height
          (laid w.scene d.positionedItems) ⟨0, 0, 0⟩).map (fun p => (p.xo, p.yo))).map
          (fun o => (((o.1.getD 0 : Int) : ℚ), ((o.2.getD 0 : Int) : ℚ))) := by
      rw [hrule, List.map_map]
      rfl
    rw [e1, List.map_map]
    conv_lhs => rw [← htg]
    rw [List.map_map, hw]
    apply List.map_congr_left
    intro p hp
    have hmem : (p.xo, p.yo) ∈ (flowPlan Flow.LeftToRight d.spacing d.width d.height
        (laid w.scene d.positionedItems) ⟨0, 0, 0⟩).map (fun p => (p.xo, p.yo)) :=
      List.mem_map_of_mem _ hp
    rw [hrule] at hmem
    obtain ⟨q, _, hq⟩ := List.mem_map.1 hmem
    simp only [Prod.mk.injEq] at hq
    simp only [Function.comp]
    rw [placeAll_xy d _ w hi hty hpn p hp q.1 q.2 hq.1.symm hq.2.symm, ← hq.1, ← hq.2]
    rfl
  refine ⟨main, ?_⟩
  intro h0 h1 h2 hW hs hsizes
  have hh0 : 0 ≤ h0 := by
    have := (hpos (60, h0) (by rw [hsizes]; exact List.mem_cons_self _ _)).2
    exact this
  rw [main, hW, hs, hsizes]
  simp [flowRule, hh0]
  norm_num

/-- C3, witness: the example of spec 8.6 with heights 20, 30, 4: the hypotheses hold and the
items end at (0, 0), (0, 20), (50, 20). -/
theorem flow_left_to_right_rule_witness :
    ((laid flowWrapW.scene flowWrapD.positionedItems).map (fun l => l.addr)).Nodup ∧
      (laid flowWrapW.scene flowWrapD.positionedItems).map (fun l => (l.width, l.height)) =
        [((60 : Int), (20 : Int)), (50, 30), (10, 4)].map (fun s => ((s.1 : ℚ), (s.2 : ℚ))) ∧
      (([((60 : Int), (20 : Int)), (50, 30), (10, 4)].map
        (fun s => s.1 + s.2 + 2 * flowWrapD.spacing)).sum < 2147483648) ∧
      (laid flowWrapW.scene flowWrapD.positionedItems).map (fun l =>
        (((QmlGraphicsFlow.doPositioning flowWrapD Flow.LeftToRight flowWrapW).scene l.addr).x,
          ((QmlGraphicsFlow.doPositioning flowWrapD Flow.LeftToRight flowWrapW).scene l.addr).y)) =
        [(0, 0), (0, 20), (50, 20)] :=
  ⟨by decide!, by decide!, by decide,
    (flow_left_to_right_rule flowWrapD flowWrapW [(60, 20), (50, 30), (10, 4)] rfl rfl rfl
      (by decide!) (by decide!) (by decide!) (by decide) (by decide)).2 20 30 4 rfl rfl rfl⟩

/-- C3, counterexample: four Flows, LeftToRight, spacing 0, immediate mode, items of integer
sizes, on which the code does not follow the recurrence of the claim.
(1) W = 10, widths -30 and 45: after item 0 hoffset is -30; the code tests `hoffset != 0`,
wraps, and puts item 1 at (0, 5); the recurrence tests hoffset > 0 and puts it at (-30, 0).
(2) W = 100, widths 60, 50, 10 and height0 = -5: item 1 is at (0, 0), not at (0, height0).
(3) W = 2^53, widths 1 and 2^53: the double sum 1 + 2^53 is rounded to 2^53, not above W, and
item 1 stays at (1, 0); the recurrence wraps it to (0, 5).
(4) W = 2^40, widths 2147483647, 10, 10: the conversion of 2147483657 to `int` leaves
-2147483648, where item 2 is placed; the recurrence has 2147483657. -/
theorem flow_left_to_right_rule_counterexample :
    ((((QmlGraphicsFlow.doPositioning (flowOf 10 0 flowTwoItems) Flow.LeftToRight
          flowNegativeW).scene 1).x,
        ((QmlGraphicsFlow.doPositioning (flowOf 10 0 flowTwoItems) Flow.LeftToRight
          flowNegativeW).scene 1).y) = (0, 5) ∧
      flowRule 10 0 [(-30, 5), (45, 5)] 0 0 0 = [(0, 0), (-30, 0)]) ∧
    ((flowNegativeHeightW.scene 0).height = -5 ∧
      (((QmlGraphicsFlow.doPositioning (flowOf 100 0 flowThreeItems) Flow.LeftToRight
          flowNegativeHeightW).scene 1).x,
        ((QmlGraphicsFlow.doPositioning (flowOf 100 0 flowThreeItems) Flow.LeftToRight
          flowNegativeHeightW).scene 1).y) = (0, 0)) ∧
    ((((QmlGraphicsFlow.doPositioning (flowOf 9007199254740992 0 flowTwoItems) Flow.LeftToRight
          flowHugeW).scene 1).x,
        ((QmlGraphicsFlow.doPositioning (flowOf 9007199254740992 0 flowTwoItems)
          Flow.LeftToRight flowHugeW).scene 1).y) = (1, 0) ∧
      flowRule 9007199254740992 0 [(1, 5), (9007199254740992, 5)] 0 0 0 = [(0, 0), (0, 5)]) ∧
    (((QmlGraphicsFlow.doPositioning (flowOf 1099511627776 0 flowThreeItems) Flow.LeftToRight
          flowOverflowW).scene 2).x = -2147483648 ∧
      flowRule 1099511627776 0 [(2147483647, 5), (10, 5), (10, 5)] 0 0 0 =
        [(0, 0), (2147483647, 0), (2147483657, 0)]) := by
  decide!

/-! ### Transposition of Flow -/

theorem transposeItem_transposeItem (it : QmlGraphicsItem) :
    transposeItem (transposeItem it) = it := rfl

theorem isInvisible_transposeItem (it : QmlGraphicsItem) :
    isInvisible (transposeItem it) = isInvisible it := by
  simp only [isInvisible, transposeItem, Bool.or_assoc]
  rw [Bool.or_comm (it.height == 0) (it.width == 0)]

theorem laid_transposeScene (s : Nat → QmlGraphicsItem) (items : List PositionedItem) :
    laid (transposeScene s) items = (laid s items).map transposeLaid := by
  induction items with
  | nil => rfl
  | cons child rest ih =>
    unfold laid
    cases hc : child.item with
    | none => simpa using ih
    | some a =>
      simp only [transposeScene, isInvisible_transposeItem]
      by_cases hinv : isInvisible (s a) = true
      · simpa [hinv, transposeScene] using ih
      · simp only [hinv, if_false, Bool.false_eq_true, List.map_cons]
        rw [← ih]
        rfl

theorem flow_ne : ¬ Flow.TopToBottom = Flow.LeftToRight := by decide

theorem wrap_transpose (sp : Int) (pw ph wd ht : ℚ) (v : FlowVars) :
    QmlGraphicsFlow.wrap Flow.LeftToRight sp ph pw ht wd (transposeVars v) =
      transposeVars (QmlGraphicsFlow.wrap Flow.TopToBottom sp pw ph wd ht v) := by
  unfold QmlGraphicsFlow.wrap
  rw [if_pos rfl, if_neg flow_ne]
  by_cases hc : v.voffset ≠ 0 ∧ roundDouble ((v.voffset : ℚ) + ht) > ph
  · rw [if_pos hc, if_pos (show (transposeVars v).hoffset ≠ 0 ∧
      roundDouble (((transposeVars v).hoffset : ℚ) + ht) > ph from hc)]
    rfl
  · rw [if_neg hc, if_neg (show ¬ ((transposeVars v).hoffset ≠ 0 ∧
      roundDouble (((transposeVars v).hoffset : ℚ) + ht) > ph) from hc)]

theorem advance_transpose (sp : Int) (wd ht : ℚ) (v : FlowVars) :
    QmlGraphicsFlow.advance Flow.LeftToRight sp ht wd (transposeVars v) =
      transposeVars (QmlGraphicsFlow.advance Flow.TopToBottom sp wd ht v) := by
  unfold QmlGraphicsFlow.advance
  rw [if_pos rfl, if_neg flow_ne]
  rfl

theorem flowPlan_transpose (sp : Int) (pw ph : ℚ) (ls : List Laid) (v : FlowVars) :
    flowPlan Flow.LeftToRight sp ph pw (ls.map transposeLaid) (transposeVars v) =
      (flowPlan Flow.TopToBottom sp pw ph ls v).map transposePlacement := by
  induction ls generalizing v with
  | nil => rfl
  | cons l ls ih =>
    simp only [List.map_cons, flowPlan, transposeLaid, wrap_transpose, advance_transpose, ih]
    rfl

theorem positionX_scene (d : Positioner) (x : Int) (a : Nat) (n : Bool) (w : World) :
    (positionX d x ⟨some a, n, true⟩ w).scene =
      if AllowsX d ∧ Immediate d then setX w.scene a x else w.scene := by
  unfold positionX AllowsX Immediate
  split_ifs <;> simp_all

theorem positionY_scene (d : Positioner) (y : Int) (a : Nat) (n : Bool) (w : World) :
    (positionY d y ⟨some a, n, true⟩ w).scene =
      if AllowsY d ∧ Immediate d then setY w.scene a y else w.scene := by
  unfold positionY AllowsY Immediate
  split_ifs <;> simp_all

theorem setXY_transpose (s : Nat → QmlGraphicsItem) (a : Nat) (h v : ℚ) :
    setY (setX (transposeScene s) a v) a h = transposeScene (setY (setX s a h) a v) := by
  funext b
  by_cases hb : b = a
  · subst hb; simp [setX, setY, transposeScene, transposeItem]
  · simp [setX, setY, transposeScene, hb]

theorem place_transpose (d : Positioner) (hty : d.type = PositionerType.Both) (p : Placement)
    (h v : Int) (hx : p.xo = some h) (hy : p.yo = some v) (w u : World)
    (hu : u.scene = transposeScene w.scene) :
    (place (transposePositioner d) (transposePlacement p) u).scene =
      transposeScene (place d p w).scene := by
  have hX : AllowsX d := Or.inr hty
  have hY : AllowsY d := Or.inr hty
  have hX' : AllowsX (transposePositioner d) := Or.inr hty
  have hY' : AllowsY (transposePositioner d) := Or.inr hty
  have hI : Immediate (transposePositioner d) ↔ Immediate d := Iff.rfl
  unfold place
  simp only [transposePlacement, transposeLaid, hx, hy, offBy, hu, transposeScene, transposeItem,
    Bool.or_comm (decide ((w.scene p.target.addr).y ≠ (v : ℚ)))]
  split_ifs with hc
  · rw [positionY_scene, positionX_scene, positionY_scene, positionX_scene]
    by_cases hi : Immediate d
    · simp only [hX, hY, hX', hY', hI, hi, and_self, if_true, hu]
      exact setXY_transpose _ _ _ _
    · simp only [hI, hi, and_false, if_false, hu]
  · exact hu

theorem placeAll_transpose (d : Positioner) (hty : d.type = PositionerType.Both)
    (ps : List Placement) (hps : ∀ p ∈ ps, ∃ h v, p.xo = some h ∧ p.yo = some v) (w u : World)
    (hu : u.scene = transposeScene w.scene) :
    (placeAll (transposePositioner d) (ps.map transposePlacement) u).scene =
      transposeScene (placeAll d ps w).scene := by
  induction ps generalizing w u with
  | nil => exact hu
  | cons p ps ih =>
    obtain ⟨h, v, hx, hy⟩ := hps p (List.mem_cons_self _ _)
    simp only [List.map_cons, placeAll]
    exact ih (fun q hq => hps q (List.mem_cons_of_mem _ hq)) _ _
      (place_transpose d hty p h v hx hy w u hu)

theorem flowPlan_offsets (flow : Flow) (sp : Int) (pw ph : ℚ) (ls : List Laid) (v : FlowVars) :
    ∀ p ∈ flowPlan flow sp pw ph ls v, ∃ h v, p.xo = some h ∧ p.yo = some v := by
  induction ls generalizing v with
  | nil => intro p hp; cases hp
  | cons l ls ih =>
    intro p hp
    simp only [flowPlan, List.mem_cons] at hp
    rcases hp with rfl | hp
    · exact ⟨_, _, rfl, rfl⟩
    · exact ih _ p hp

/-- C4. Flow TopToBottom is the transpose of LeftToRight: for every registry, heap, spacing
and positioner size, the heap after `QmlGraphicsFlow::doPositioning` with flow = TopToBottom
is, item by item, the transpose (x and y swapped, width and height swapped) of the heap
after the LeftToRight layout of the transposed input (every item transposed, positioner width
and height swapped); and in any mode the offsets requested for the laid-out entries are the
same with x and y swapped. -/
theorem flow_topToBottom_transpose (d : Positioner) (w : World)
    (hty : d.type = PositionerType.Both) :
    (∀ a, (QmlGraphicsFlow.doPositioning d Flow.TopToBottom w).scene a =
      transposeItem ((QmlGraphicsFlow.doPositioning (transposePositioner d) Flow.LeftToRight
        (transposeWorld w)).scene a)) ∧
    (flowPlan Flow.TopToBottom d.spacing d.width d.height
        (laid w.scene d.positionedItems) ⟨0, 0, 0⟩).map (fun p => (p.target.addr, p.xo, p.yo)) =
      (flowPlan Flow.LeftToRight (transposePositioner d).spacing (transposePositioner d).width
        (transposePositioner d).height
        (laid (transposeWorld w).scene (transposePositioner d).positionedItems) ⟨0, 0, 0⟩).map
        (fun p => (p.target.addr, p.yo, p.xo)) := by
  have hplan : flowPlan Flow.LeftToRight (transposePositioner d).spacing
      (transposePositioner d).width (transposePositioner d).height
      (laid (transposeWorld w).scene (transposePositioner d).positionedItems) ⟨0, 0, 0⟩ =
      (flowPlan Flow.TopToBottom d.spacing d.width d.height
        (laid w.scene d.positionedItems) ⟨0, 0, 0⟩).map transposePlacement := by
    have := flowPlan_transpose d.spacing d.width d.height (laid w.scene d.positionedItems)
      ⟨0, 0, 0⟩
    simpa [transposePositioner, transposeWorld, laid_transposeScene, transposeVars] using this
  constructor
  · intro a
    have h1 : QmlGraphicsFlow.doPositioning d Flow.TopToBottom w = _ :=
      flow_loop_eq d Flow.TopToBottom d.positionedItems ⟨0, 0, 0⟩ w
    have h2 : QmlGraphicsFlow.doPositioning (transposePositioner d) Flow.LeftToRight
        (transposeWorld w) = _ :=
      flow_loop_eq (transposePositioner d) Flow.LeftToRight
        (transposePositioner d).positionedItems ⟨0, 0, 0⟩ (transposeWorld w)
    rw [h1, h2, hplan,
      placeAll_transpose d hty _ (flowPlan_offsets _ _ _ _ _ _) w (transposeWorld w) rfl]
    rfl
  · rw [hplan, List.map_map]
    rfl

/-- C4, witness: a TopToBottom Flow of height 100 and spacing 5 over items of heights 60, 50,
10: item 1 wraps to the second column, at (25, 0), as does the transposed layout. -/
theorem flow_topToBottom_transpose_witness :
    flowDownD.type = PositionerType.Both ∧
      (QmlGraphicsFlow.doPositioning flowDownD Flow.TopToBottom flowDownW).scene 1 =
        ⟨25, 0, 35, 50, 1, true⟩ ∧
      (QmlGraphicsFlow.doPositioning flowDownD Flow.TopToBottom flowDownW).scene 1 =
        transposeItem ((QmlGraphicsFlow.doPositioning (transposePositioner flowDownD)
          Flow.LeftToRight (transposeWorld flowDownW)).scene 1) :=
  ⟨rfl, by decide!, (flow_topToBottom_transpose flowDownD flowDownW rfl).1 1⟩

/-! ### Grid with entries that are not visible -/

/-- C5, the code at the failing input: columns = 2, spacing 0, registry [hidden 0, 1, 2].
The laid-out items 1 and 2 are the cells (0, 0) and (0, 1); item 1, alone in column 0, is 50
wide, yet item 2 is placed at x = 10, not at the width 50 of column 0.  The same happens in a
first pass over the children 0, 1, 2 from an empty registry. -/
theorem grid_placement_hidden_entry :
    (laid gridHiddenW.scene gridHiddenItems).map (fun l => (l.addr, l.width)) =
        [(1, 50), (2, 10)] ∧
      gridResult (QmlGraphicsGrid.doPositioning (gridOf 0 gridHiddenItems) 2 (-1) gridHiddenW) 1
        = some (0, 0) ∧
      gridResult (QmlGraphicsGrid.doPositioning (gridOf 0 gridHiddenItems) 2 (-1) gridHiddenW) 2
        = some (10, 0) ∧
      gridResult ((QmlGraphicsBasePositioner.prePositioning (Layout.Grid 2 (-1))
        [some 0, some 1, some 2] (gridOf 0 []) gridHiddenW).map Prod.snd) 2 = some (10, 0) := by
  decide!

/-- C6, the code at the failing input: rows = 2, registry of five entries of which three
are visible.  The code resolves c from the registry count 5, c = 3, not from the visible
count 3 (which gives 2), and so item 3, the third laid-out item, lands in row 0 at (50, 0)
and not at the start of row 1, also in a first pass over these children from an empty
registry. -/
theorem grid_dims_count_hidden :
    gridCountItems.length = 5 ∧ (laid gridCountW.scene gridCountItems).length = 3 ∧
      QmlGraphicsGrid.dims (-1) 2 gridCountItems.length = some (3, 2) ∧
      QmlGraphicsGrid.dims (-1) 2 (laid gridCountW.scene gridCountItems).length = some (2, 2) ∧
      gridResult (QmlGraphicsGrid.doPositioning (gridOf 0 gridCountItems) (-1) 2 gridCountW) 3
        = some (50, 0) ∧
      gridResult ((QmlGraphicsBasePositioner.prePositioning (Layout.Grid (-1) 2)
        [some 1, some 4, some 5, some 2, some 3] (gridOf 0 []) gridCountW).map Prod.snd) 3
        = some (50, 0) := by
  decide!

/-- C8, the code at the failing input: default rows and columns, spacing 0, registry
[hidden 0, 1, 2].  Items 1 (50 by 10) and 2 (10 by 10) are both placed at (0, 0), also in a
first pass over the children 0, 1, 2 from an empty registry. -/
theorem grid_overlap_hidden_entry :
    (laid gridHiddenW.scene gridHiddenItems).map (fun l => (l.addr, l.width, l.height)) =
        [(1, 50, 10), (2, 10, 10)] ∧
      gridResult (QmlGraphicsGrid.doPositioning (gridOf 0 gridHiddenItems) (-1) (-1) gridHiddenW) 1
        = some (0, 0) ∧
      gridResult (QmlGraphicsGrid.doPositioning (gridOf 0 gridHiddenItems) (-1) (-1) gridHiddenW) 2
        = some (0, 0) ∧
      gridResult ((QmlGraphicsBasePositioner.prePositioning (Layout.Grid (-1) (-1))
        [some 0, some 1, some 2] (gridOf 0 []) gridHiddenW).map Prod.snd) 1 = some (0, 0) ∧
      gridResult ((QmlGraphicsBasePositioner.prePositioning (Layout.Grid (-1) (-1))
        [some 0, some 1, some 2] (gridOf 0 []) gridHiddenW).map Prod.snd) 2 = some (0, 0) := by
  decide!

/-- C10, the code at the failing input: Grid with columns = 3 and spacing 5.  With the
opacity-0 item 0 in the registry, item 2 is placed at (5, 0); with item 0 absent from the
registry it is placed at (55, 0); the same in first passes over the children 0, 1, 2 and
1, 2 from an empty registry. -/
theorem grid_hidden_entry_shifts :
    isInvisible (gridOpacityW.scene 0) = true ∧
      gridResult (QmlGraphicsGrid.doPositioning
        (gridOf 5 [⟨some 0, false, false⟩, ⟨some 1, false, true⟩, ⟨some 2, false, true⟩])
        3 (-1) gridOpacityW) 2 = some (5, 0) ∧
      gridResult (QmlGraphicsGrid.doPositioning
        (gridOf 5 [⟨some 1, false, true⟩, ⟨some 2, false, true⟩])
        3 (-1) gridOpacityW) 2 = some (55, 0) ∧
      gridResult ((QmlGraphicsBasePositioner.prePositioning (Layout.Grid 3 (-1))
        [some 0, some 1, some 2] (gridOf 5 []) gridOpacityW).map Prod.snd) 2 = some (5, 0) ∧
      gridResult ((QmlGraphicsBasePositioner.prePositioning (Layout.Grid 3 (-1))
        [some 1, some 2] (gridOf 5 []) gridOpacityW).map Prod.snd) 2 = some (55, 0) := by
  decide!

/-! ### Column, Row and Flow leave out an entry that is not visible -/

theorem laid_append (s : Nat → QmlGraphicsItem) (l1 l2 : List PositionedItem) :
    laid s (l1 ++ l2) = laid s l1 ++ laid s l2 := by
  induction l1 with
  | nil => rfl
  | cons e rest ih =>
    simp only [List.cons_append, laid]
    cases e.item with
    | none => exact ih
    | some a =>
      simp only []
      split_ifs
      · exact ih
      · exact congrArg _ ih

theorem laid_insert_hidden (s : Nat → QmlGraphicsItem) (l1 l2 : List PositionedItem)
    (e : PositionedItem) (a : Nat) (he : e.item = some a) (hinv : isInvisible (s a) = true) :
    laid s (l1 ++ e :: l2) = laid s (l1 ++ l2) := by
  rw [laid_append, laid_append]
  congr 1
  simp only [laid, he, hinv, if_true]

/-- The loops of the three layouts other than Grid do the same with and without a registry
entry whose item has opacity 0, the visible flag off, or a zero width or height. -/
theorem hidden_entry_ignored (d : Positioner) (w : World) (l1 l2 : List PositionedItem)
    (e : PositionedItem) (a : Nat) (he : e.item = some a)
    (hinv : isInvisible (w.scene a) = true) (flow : Flow) :
    QmlGraphicsColumn.loop d (l1 ++ e :: l2) 0 w = QmlGraphicsColumn.loop d (l1 ++ l2) 0 w ∧
      QmlGraphicsRow.loop d (l1 ++ e :: l2) 0 w = QmlGraphicsRow.loop d (l1 ++ l2) 0 w ∧
      QmlGraphicsFlow.loop d flow (l1 ++ e :: l2) ⟨0, 0, 0⟩ w =
        QmlGraphicsFlow.loop d flow (l1 ++ l2) ⟨0, 0, 0⟩ w := by
  have hl := laid_insert_hidden w.scene l1 l2 e a he hinv
  refine ⟨?_, ?_, ?_⟩
  · rw [column_loop_eq, column_loop_eq, hl]
  · rw [row_loop_eq, row_loop_eq, hl]
  · rw [flow_loop_eq, flow_loop_eq, hl]

/-! ### The Grid loops with both counts fixed -/

theorem foldlM_range_inv {σ : Type} (f : σ → Nat → Option σ) (P : Nat → σ → Prop) (n : Nat)
    (hstep : ∀ k, k < n → ∀ s, P k s → ∃ t, f s k = some t ∧ P (k + 1) t)
    (s0 : σ) (h0 : P 0 s0) :
    ∃ t, (List.range n).foldlM f s0 = some t ∧ P n t := by
  induction n with
  | zero => exact ⟨s0, rfl, h0⟩
  | succ n ih =>
    obtain ⟨t, ht, hP⟩ := ih (fun k hk s hs => hstep k (Nat.lt_succ_of_lt hk) s hs)
    obtain ⟨u, hu, hQ⟩ := hstep n (Nat.lt_succ_self n) t hP
    refine ⟨u, ?_, hQ⟩
    rw [List.range_succ, List.foldlM_append, ht]
    simp [hu]

theorem measureCell_inv (s : Nat → QmlGraphicsItem) (items : List PositionedItem)
    (C i j : Nat) (hj : j < C) (m : GridMeasure) (h : MeasureInv items C i j m) :
    ∃ t, QmlGraphicsGrid.measureCell s items i j m = some t ∧ MeasureInv items C i (j + 1) t := by
  obtain ⟨h1, h2, h3⟩ := h
  unfold QmlGraphicsGrid.measureCell
  simp only []
  generalize hm1 : (if j = 0 then ({ m with maxRowHeight := m.maxRowHeight ++ [0] } : GridMeasure)
    else m) = m1
  have a1 : m1.childIndex = m.childIndex := by subst hm1; split_ifs <;> rfl
  have a2 : m1.maxRowHeight.length = i + 1 := by
    subst hm1; split_ifs with hj0
    · simp [h2, hj0]
    · simp [h2, hj0]
  have a3 : m1.maxColWidth.length = (if i = 0 then j else C) := by
    subst hm1; split_ifs <;> simp_all
  generalize hm2 : (if i = 0 then ({ m1 with maxColWidth := m1.maxColWidth ++ [0] } : GridMeasure)
    else m1) = m2
  have b1 : m2.childIndex = m.childIndex := by subst hm2; split_ifs <;> simp [a1]
  have b2 : m2.maxRowHeight.length = i + 1 := by subst hm2; split_ifs <;> simp [a2]
  have b3 : m2.maxColWidth.length = (if i = 0 then j + 1 else C) := by
    subst hm2; split_ifs with hi0
    · simp [a3, hi0]
    · simp [a3, hi0]
  have b3' : j < m2.maxColWidth.length := by rw [b3]; split_ifs <;> omega
  by_cases hend : m2.childIndex = items.length
  · rw [if_pos hend]
    exact ⟨m2, rfl, by rw [b1] ; exact h1, by simpa using b2, b3⟩
  · rw [if_neg hend]
    have hlt : m2.childIndex < items.length := by rw [b1] at hend ⊢; omega
    rw [List.getElem?_eq_getElem hlt]
    simp only []
    have good : ∀ t : GridMeasure, t.childIndex = m2.childIndex + 1 →
        t.maxRowHeight.length = i + 1 → t.maxColWidth.length = (if i = 0 then j + 1 else C) →
        MeasureInv items C i (j + 1) t := by
      intro t t1 t2 t3
      exact ⟨by rw [t1]; omega, by simpa using t2, t3⟩
    cases hitem : (items[m2.childIndex]).item with
    | none => exact ⟨_, rfl, good _ rfl b2 b3⟩
    | some a =>
      simp only []
      by_cases hinv : isInvisible (s a) = true
      · rw [if_pos hinv]; exact ⟨_, rfl, good _ rfl b2 b3⟩
      · rw [if_neg hinv, List.getElem?_eq_getElem b3']
        simp only []
        by_cases hwgt : (s a).width > ((m2.maxColWidth[j] : Int) : ℚ)
        · rw [if_pos hwgt]
          rw [List.getElem?_eq_getElem (show i < m2.maxRowHeight.length by omega)]
          simp only []
          by_cases hhgt : (s a).height > ((m2.maxRowHeight[i] : Int) : ℚ)
          · rw [if_pos hhgt]
            exact ⟨_, rfl, good _ rfl (by simp [b2]) (by simp [b3])⟩
          · rw [if_neg hhgt]
            exact ⟨_, rfl, good _ rfl (by simp [b2]) (by simp [b3])⟩
        · rw [if_neg hwgt]
          rw [List.getElem?_eq_getElem (show i < m2.maxRowHeight.length by omega)]
          simp only []
          by_cases hhgt : (s a).height > ((m2.maxRowHeight[i] : Int) : ℚ)
          · rw [if_pos hhgt]
            exact ⟨_, rfl, good _ rfl (by simp [b2]) (by simp [b3])⟩
          · rw [if_neg hhgt]
            exact ⟨_, rfl, good _ rfl (by simp [b2]) (by simp [b3])⟩

theorem measureRow_inv (s : Nat → QmlGraphicsItem) (items : List PositionedItem)
    (c : Int) (i : Nat) (m : GridMeasure) (h : MeasureInv items c.toNat i 0 m) :
    ∃ t, QmlGraphicsGrid.measureRow s items c i m = some t ∧
      MeasureInv items c.toNat i c.toNat t :=
  foldlM_range_inv (fun m j => QmlGraphicsGrid.measureCell s items i j m)
    (fun j m => MeasureInv items c.toNat i j m) c.toNat
    (fun j hj m hm => measureCell_inv s items c.toNat i j hj m hm) m h

theorem measure_lengths (s : Nat → QmlGraphicsItem) (items : List PositionedItem)
    (c r : Int) (hc : 1 ≤ c) (hr : 1 ≤ r) :
    ∃ m, QmlGraphicsGrid.measure s items c r = some m ∧
      m.maxColWidth.length = c.toNat ∧ m.maxRowHeight.length = r.toNat := by
  have hC : c.toNat ≠ 0 := by omega
  have hR : r.toNat ≠ 0 := by omega
  obtain ⟨m, hm, h1, h2, h3⟩ := foldlM_range_inv
    (fun m i => QmlGraphicsGrid.measureRow s items c i m)
    (fun i m => MeasureInv items c.toNat i 0 m) r.toNat
    (fun i _ m hm => by
      obtain ⟨t, ht, t1, t2, t3⟩ := measureRow_inv s items c i m hm
      refine ⟨t, ht, t1, ?_, ?_⟩
      · simpa [hC] using t2
      · simpa using t3)
    ⟨[], [], 0⟩ ⟨Nat.zero_le _, rfl, rfl⟩
  refine ⟨m, hm, ?_, ?_⟩
  · simpa [hR] using h3
  · simpa using h2

theorem intIndex_some (l : List Int) (i : Int) (h0 : 0 ≤ i) (h1 : i.toNat < l.length) :
    ∃ v, intIndex l i = some v := by
  unfold intIndex
  rw [if_pos h0, List.getElem?_eq_getElem h1]
  exact ⟨_, rfl⟩

theorem gridPlan_take (sp c r : Int) (mcw mrh : List Int) (hc : 1 ≤ c) (hr : 1 ≤ r)
    (hcl : mcw.length = c.toNat) (hrl : mrh.length = r.toNat) (ls : List Laid)
    (x y cr cc : Int) (n : Nat) (hcc : 0 ≤ cc ∧ cc < c) (hcr : 0 ≤ cr ∧ cr < r)
    (hn : (n : Int) = (r - cr) * c - cc) :
    ∃ plan, gridPlan sp c r mcw mrh ls x y cr cc = some plan ∧
      plan.map (fun p => p.target) = ls.take n ∧
      ∀ p ∈ plan, ∃ h v, p.xo = some h ∧ p.yo = some v := by
  induction ls generalizing x y cr cc n with
  | nil => exact ⟨[], rfl, by simp, by simp⟩
  | cons l ls ih =>
    obtain ⟨cw, hcw⟩ := intIndex_some mcw cc hcc.1 (by rw [hcl]; omega)
    obtain ⟨rh, hrh⟩ := intIndex_some mrh cr hcr.1 (by rw [hrl]; omega)
    have hc0 : c ≠ 0 := by omega
    have hmul : (r - cr) * c = (r - (cr + 1)) * c + c := by ring
    have hge : 0 ≤ (r - (cr + 1)) * c := mul_nonneg (by omega) (by omega)
    unfold gridPlan
    simp only [hcw, hrh, hc0, if_false]
    by_cases hlastcol : cc + 1 = c
    · have hmod : Int.tmod (cc + 1) c = 0 := by rw [hlastcol]; exact Int.tmod_self
      simp only [hmod, if_true]
      by_cases hlast : cr + 1 ≥ r
      · have hn1 : n = 1 := by
          have : cr + 1 = r := by omega
          have h0 : (r - (cr + 1)) * c = 0 := by rw [this]; simp
          omega
        rw [if_pos hlast]
        exact ⟨_, rfl, by simp [hn1], by simp⟩
      · rw [if_neg hlast]
        obtain ⟨k, rfl⟩ : ∃ k, n = k + 1 := ⟨n - 1, by omega⟩
        obtain ⟨plan, hp, ht, ho⟩ := ih 0 (y + (rh + sp)) (cr + 1) 0 k ⟨le_refl _, by omega⟩
          ⟨by omega, by omega⟩ (by push_cast at hn; omega)
        refine ⟨_ :: plan, by rw [hp]; rfl, by simp [ht], ?_⟩
        intro p hp'
        rcases List.mem_cons.1 hp' with rfl | hp'
        · exact ⟨_, _, rfl, rfl⟩
        · exact ho p hp'
    · have hmod : Int.tmod (cc + 1) c = cc + 1 := Int.tmod_eq_of_lt (by omega) (by omega)
      have hne : ¬ (cc + 1 = 0) := by omega
      simp only [hmod, hne, if_false]
      obtain ⟨k, rfl⟩ : ∃ k, n = k + 1 := ⟨n - 1, by omega⟩
      obtain ⟨plan, hp, ht, ho⟩ := ih (x + (cw + sp)) y cr (cc + 1) k ⟨by omega, by omega⟩ hcr
        (by push_cast at hn; omega)
      refine ⟨_ :: plan, by rw [hp]; rfl, by simp [ht], ?_⟩
      intro p hp'
      rcases List.mem_cons.1 hp' with rfl | hp'
      · exact ⟨_, _, rfl, rfl⟩
      · exact ho p hp'

/-! ### The batches -/

theorem positionX_actions (d : Positioner) (x : Int) (t : PositionedItem) (w : World) :
    ∃ na nm, (positionX d x t w).addActions = w.addActions ++ na ∧
      (positionX d x t w).moveActions = w.moveActions ++ nm ∧
      (Immediate d → na = [] ∧ nm = []) ∧
      ∀ act ∈ na ++ nm, act.target = t.item := by
  unfold positionX Immediate
  split_ifs with h1 h2 h3
  · refine ⟨[], [], ?_, ?_, by simp, by simp⟩ <;> cases t.item <;> simp
  · exact ⟨[_], [], rfl, by simp, fun h => absurd h h2, by simp⟩
  · exact ⟨[], [_], by simp, rfl, fun h => absurd h h2, by simp⟩
  · exact ⟨[], [], by simp, by simp, by simp, by simp⟩

theorem positionY_actions (d : Positioner) (y : Int) (t : PositionedItem) (w : World) :
    ∃ na nm, (positionY d y t w).addActions = w.addActions ++ na ∧
      (positionY d y t w).moveActions = w.moveActions ++ nm ∧
      (Immediate d → na = [] ∧ nm = []) ∧
      ∀ act ∈ na ++ nm, act.target = t.item := by
  unfold positionY Immediate
  split_ifs with h1 h2 h3
  · refine ⟨[], [], ?_, ?_, by simp, by simp⟩ <;> cases t.item <;> simp
  · exact ⟨[_], [], rfl, by simp, fun h => absurd h h2, by simp⟩
  · exact ⟨[], [_], by simp, rfl, fun h => absurd h h2, by simp⟩
  · exact ⟨[], [], by simp, by simp, by simp, by simp⟩

theorem place_actions (d : Positioner) (p : Placement) (w : World) :
    ∃ na nm, (place d p w).addActions = w.addActions ++ na ∧
      (place d p w).moveActions = w.moveActions ++ nm ∧
      (Immediate d → na = [] ∧ nm = []) ∧
      ∀ act ∈ na ++ nm, act.target = some p.target.addr := by
  have hnil : ∃ na nm, w.addActions = w.addActions ++ na ∧ w.moveActions = w.moveActions ++ nm ∧
      (Immediate d → na = [] ∧ nm = []) ∧
      ∀ act ∈ na ++ nm, act.target = some p.target.addr :=
    ⟨[], [], by simp, by simp, by simp, by simp⟩
  unfold place
  split_ifs
  · cases hx : p.xo <;> cases hy : p.yo <;> simp only
    · exact hnil
    · exact positionY_actions d _ _ w
    · exact positionX_actions d _ _ w
    · obtain ⟨a1, m1, e1, e2, e3, e4⟩ := positionX_actions d (Option.get (p.xo) (by simp [hx]))
        ⟨some p.target.addr, p.target.isNew, true⟩ w
      simp only [hx, Option.get_some] at e1 e2 e4
      rename_i h v
      obtain ⟨a2, m2, f1, f2, f3, f4⟩ := positionY_actions d v
        ⟨some p.target.addr, p.target.isNew, true⟩
        (positionX d h ⟨some p.target.addr, p.target.isNew, true⟩ w)
      refine ⟨a1 ++ a2, m1 ++ m2, by rw [f1, e1, List.append_assoc],
        by rw [f2, e2, List.append_assoc], ?_, ?_⟩
      · intro hi
        simp [(e3 hi).1, (e3 hi).2, (f3 hi).1, (f3 hi).2]
      · intro act hact
        simp only [List.mem_append] at hact e4 f4
        rcases hact with (h1 | h1) | (h1 | h1)
        · exact e4 act (Or.inl h1)
        · exact f4 act (Or.inl h1)
        · exact e4 act (Or.inr h1)
        · exact f4 act (Or.inr h1)
  · exact hnil

theorem placeAll_actions (d : Positioner) (ps : List Placement) (w : World) :
    ∃ na nm, (placeAll d ps w).addActions = w.addActions ++ na ∧
      (placeAll d ps w).moveActions = w.moveActions ++ nm ∧
      (Immediate d → na = [] ∧ nm = []) ∧
      ∀ act ∈ na ++ nm, ∃ p ∈ ps, act.target = some p.target.addr := by
  induction ps generalizing w with
  | nil => exact ⟨[], [], by simp [placeAll], by simp [placeAll], by simp, by simp⟩
  | cons p ps ih =>
    obtain ⟨a1, m1, e1, e2, e3, e4⟩ := place_actions d p w
    obtain ⟨a2, m2, f1, f2, f3, f4⟩ := ih (place d p w)
    refine ⟨a1 ++ a2, m1 ++ m2, by simp only [placeAll]; rw [f1, e1, List.append_assoc],
      by simp only [placeAll]; rw [f2, e2, List.append_assoc], ?_, ?_⟩
    · intro hi
      simp [(e3 hi).1, (e3 hi).2, (f3 hi).1, (f3 hi).2]
    · intro act hact
      simp only [List.mem_append] at hact e4 f4
      rcases hact with (h1 | h1) | (h1 | h1)
      · exact ⟨p, List.mem_cons_self _ _, e4 act (Or.inl h1)⟩
      · obtain ⟨q, hq, hq'⟩ := f4 act (Or.inl h1)
        exact ⟨q, List.mem_cons_of_mem _ hq, hq'⟩
      · exact ⟨p, List.mem_cons_self _ _, e4 act (Or.inr h1)⟩
      · obtain ⟨q, hq, hq'⟩ := f4 act (Or.inr h1)
        exact ⟨q, List.mem_cons_of_mem _ hq, hq'⟩

/-! ### The registry update of a pass -/

theorem entryOf_nil (a : Nat) : entryOf [] a = none := rfl

theorem entryOf_cons (e : PositionedItem) (rest : List PositionedItem) (a : Nat) :
    entryOf (e :: rest) a = if e.item = some a then some e else entryOf rest a := by
  unfold entryOf
  simp only [find, PositionedItem.create]
  split_ifs with h
  · simp
  · cases find rest ⟨some a, false, false⟩ <;> simp

theorem writeEntry_zero (e : PositionedItem) (rest : List PositionedItem)
    (f : PositionedItem → PositionedItem) : writeEntry (e :: rest) 0 f = f e :: rest := by
  simp [writeEntry]

theorem writeEntry_succ (e : PositionedItem) (rest : List PositionedItem) (i : Nat)
    (f : PositionedItem → PositionedItem) :
    writeEntry (e :: rest) (i + 1) f = e :: writeEntry rest i f := by
  unfold writeEntry
  simp only [List.getElem?_cons_succ]
  cases rest[i]? <;> rfl

theorem find_write_eq_upsert (f : PositionedItem → PositionedItem) (c : Nat)
    (items : List PositionedItem) :
    (match find items (PositionedItem.create c) with
      | none => writeEntry (items ++ [PositionedItem.create c])
          ((items ++ [PositionedItem.create c]).length - 1) f
      | some i => writeEntry items i f) = upsert f c items := by
  induction items with
  | nil => rfl
  | cons e rest ih =>
    simp only [find, upsert, PositionedItem.create] at ih ⊢
    split_ifs with h
    · exact writeEntry_zero e rest f
    · cases hf : find rest ⟨some c, false, false⟩ with
      | none =>
        rw [hf] at ih
        simp only [List.cons_append, List.length_cons, List.length_append, List.length_nil,
          Nat.add_sub_cancel] at ih ⊢
        rw [show rest.length + 1 = (rest.length + 0) + 1 from rfl, writeEntry_succ]
        simpa using ih
      | some i =>
        rw [hf] at ih
        simp only [writeEntry_succ]
        simpa using ih

theorem writeEntry_congr (items : List PositionedItem) (idx : Nat)
    (f g : PositionedItem → PositionedItem) (h : ∀ e, items[idx]? = some e → f e = g e) :
    writeEntry items idx f = writeEntry items idx g := by
  unfold writeEntry
  cases hg : items[idx]? with
  | none => rfl
  | some e => simp only []; rw [h e hg]

theorem writeEntry_none (items : List PositionedItem) (idx : Nat)
    (f : PositionedItem → PositionedItem) (h : items[idx]? = none) :
    writeEntry items idx f = items := by
  unfold writeEntry
  rw [h]

/-- The registry after the loop body of lines 208-232 for one child. -/
theorem track_items (s : Nat → QmlGraphicsItem) (p : Positioner) (c : Nat) :
    (QmlGraphicsBasePositioner.track s p (some c)).positionedItems =
      upsert (touch s c) c p.positionedItems := by
  have key := find_write_eq_upsert (touch s c) c p.positionedItems
  unfold QmlGraphicsBasePositioner.track
  simp only []
  cases hf : find p.positionedItems (PositionedItem.create c) with
  | none =>
    rw [hf] at key
    simp only [] at key ⊢
    rw [← key]
    by_cases hv : (s c).opacity ≤ 0 ∨ (s c).visible = false
    · rw [if_pos hv]
      exact writeEntry_congr _ _ _ _ (fun e _ => by simp [touch, hv])
    · rw [if_neg hv]
      cases hg : (p.positionedItems ++ [PositionedItem.create c])[
          (p.positionedItems ++ [PositionedItem.create c]).length - 1]? with
      | none => simp only []; rw [writeEntry_none _ _ _ hg]
      | some e =>
        simp only []
        by_cases hvis : e.isVisible = false
        · rw [if_pos hvis]
          exact writeEntry_congr _ _ _ _ (fun e' he' => by
            rw [hg] at he'; cases he'; simp [touch, hv, hvis])
        · rw [if_neg hvis]
          exact writeEntry_congr _ _ _ _ (fun e' he' => by
            rw [hg] at he'; cases he'; simp [touch, hv, hvis])
  | some i =>
    rw [hf] at key
    simp only [] at key ⊢
    rw [← key]
    by_cases hv : (s c).opacity ≤ 0 ∨ (s c).visible = false
    · rw [if_pos hv]
      exact writeEntry_congr _ _ _ _ (fun e _ => by simp [touch, hv])
    · rw [if_neg hv]
      cases hg : p.positionedItems[i]? with
      | none => simp only []; rw [writeEntry_none _ _ _ hg]
      | some e =>
        simp only []
        by_cases hvis : e.isVisible = false
        · rw [if_pos hvis]
          exact writeEntry_congr _ _ _ _ (fun e' he' => by
            rw [hg] at he'; cases he'; simp [touch, hv, hvis])
        · rw [if_neg hvis]
          exact writeEntry_congr _ _ _ _ (fun e' he' => by
            rw [hg] at he'; cases he'; simp [touch, hv, hvis])

theorem touch_item (s : Nat → QmlGraphicsItem) (c : Nat) (e : PositionedItem) :
    (touch s c e).item = e.item := by
  unfold touch
  split_ifs <;> rfl

theorem entryOf_upsert_same (f : PositionedItem → PositionedItem)
    (hf : ∀ e, (f e).item = e.item) (c : Nat) (items : List PositionedItem) :
    entryOf (upsert f c items) c =
      some (f ((entryOf items c).getD (PositionedItem.create c))) := by
  induction items with
  | nil => simp [upsert, entryOf_cons, entryOf_nil, hf, PositionedItem.create]
  | cons e rest ih =>
    simp only [upsert, entryOf_cons]
    split_ifs with h
    · simp [entryOf_cons, hf, h]
    · simp [entryOf_cons, h, ih]

theorem entryOf_upsert_other (f : PositionedItem → PositionedItem)
    (hf : ∀ e, (f e).item = e.item) (c a : Nat) (hne : a ≠ c) (items : List PositionedItem) :
    entryOf (upsert f c items) a = entryOf items a := by
  induction items with
  | nil =>
    simp [upsert, entryOf_cons, entryOf_nil, hf, PositionedItem.create, Ne.symm hne]
  | cons e rest ih =>
    simp only [upsert, entryOf_cons]
    split_ifs with h h' h'
    · rw [h] at h'; simp at h'; exact absurd h'.symm hne
    · simp [entryOf_cons, hf, h, Ne.symm hne]
    · simp [entryOf_cons, h']
    · simp [entryOf_cons, h', ih]

theorem upsert_items (f : PositionedItem → PositionedItem)
    (hf : ∀ e, (f e).item = e.item) (c : Nat) (items : List PositionedItem) :
    ∃ extra, (upsert f c items).map (fun e => e.item) = items.map (fun e => e.item) ++ extra := by
  induction items with
  | nil => exact ⟨_, rfl⟩
  | cons e rest ih =>
    simp only [upsert]
    split_ifs with h
    · exact ⟨[], by simp [hf]⟩
    · obtain ⟨extra, he⟩ := ih
      exact ⟨extra, by simp [he]⟩

theorem trackAll_keeps_items (s : Nat → QmlGraphicsItem) (children : List (Option Nat))
    (p : Positioner) :
    ∃ extra, (trackAll s children p).positionedItems.map (fun e => e.item) =
      p.positionedItems.map (fun e => e.item) ++ extra := by
  induction children generalizing p with
  | nil => exact ⟨[], by simp [trackAll]⟩
  | cons q rest ih =>
    obtain ⟨x2, h2⟩ := ih (QmlGraphicsBasePositioner.track s p q)
    cases q with
    | none => exact ⟨x2, h2⟩
    | some c =>
      obtain ⟨x1, h1⟩ := upsert_items (touch s c) (touch_item s c) c p.positionedItems
      rw [track_items, h1] at h2
      exact ⟨x1 ++ x2, by simp only [trackAll, List.foldl_cons] at h2 ⊢; rw [h2, List.append_assoc]⟩

theorem trackAll_entry (s : Nat → QmlGraphicsItem) (a : Nat) (children : List (Option Nat))
    (p : Positioner) :
    entryOf (trackAll s children p).positionedItems a =
      if children.count (some a) = 0 then entryOf p.positionedItems a
      else some ((touch s a)^[children.count (some a)]
        ((entryOf p.positionedItems a).getD (PositionedItem.create a))) := by
  induction children generalizing p with
  | nil => simp [trackAll]
  | cons q rest ih =>
    have hstep : trackAll s (q :: rest) p = trackAll s rest (QmlGraphicsBasePositioner.track s p q) :=
      rfl
    rw [hstep, ih]
    cases q with
    | none =>
      have : QmlGraphicsBasePositioner.track s p none = p := rfl
      simp [this]
    | some c =>
      by_cases hca : c = a
      · subst hca
        rw [track_items, entryOf_upsert_same _ (touch_item s c)]
        simp only [List.count_cons_self, Nat.succ_ne_zero, if_false, Option.getD_some]
        split_ifs with h0
        · rw [h0]; rfl
        · rfl
      · have hne : a ≠ c := fun h => hca h.symm
        rw [track_items, entryOf_upsert_other _ (touch_item s c) c a hne]
        have hcount : (some c :: rest).count (some a) = rest.count (some a) := by
          rw [List.count_cons_of_ne]
          simpa using hne
        rw [hcount]

theorem prePositioning_registry (k : Layout) (children : List (Option Nat)) (p p1 : Positioner)
    (w w1 : World) (hc : p.componentComplete = true)
    (h : QmlGraphicsBasePositioner.prePositioning k children p w = some (p1, w1)) :
    p1.positionedItems =
        (trackAll w.scene children { p with queuedPositioning := false }).positionedItems ∧
      p1.componentComplete = (trackAll w.scene children
        { p with queuedPositioning := false }).componentComplete := by
  unfold QmlGraphicsBasePositioner.prePositioning at h
  rw [if_neg (by simp [hc])] at h
  simp only [] at h
  cases hd : doPositioning k
      (List.foldl (QmlGraphicsBasePositioner.track w.scene) { p with queuedPositioning := false }
        children) w with
  | none => rw [hd] at h; cases h
  | some w2 =>
    rw [hd] at h
    simp only [Option.some.injEq, Prod.mk.injEq] at h
    obtain ⟨h1, _⟩ := h
    subst h1
    exact ⟨rfl, rfl⟩

theorem track_complete (s : Nat → QmlGraphicsItem) (p : Positioner) (q : Option Nat) :
    (QmlGraphicsBasePositioner.track s p q).componentComplete = p.componentComplete := by
  cases q with
  | none => rfl
  | some c =>
    unfold QmlGraphicsBasePositioner.track
    simp only []
    cases find p.positionedItems (PositionedItem.create c) <;> simp only [] <;>
      split_ifs <;> (try rfl) <;> split <;> (try rfl) <;> split_ifs <;> rfl

theorem trackAll_complete (s : Nat → QmlGraphicsItem) (children : List (Option Nat))
    (p : Positioner) : (trackAll s children p).componentComplete = p.componentComplete := by
  induction children generalizing p with
  | nil => rfl
  | cons q rest ih =>
    have hstep : trackAll s (q :: rest) p = trackAll s rest (QmlGraphicsBasePositioner.track s p q) :=
      rfl
    rw [hstep, ih, track_complete]

theorem touch_appear (s : Nat → QmlGraphicsItem) (a : Nat) (e : PositionedItem)
    (hvis : 0 < (s a).opacity ∧ (s a).visible = true) (he : e.isVisible = false) :
    (touch s a e).isNew = true ∧ (touch s a e).isVisible = true := by
  have hv : ¬ ((s a).opacity ≤ 0 ∨ (s a).visible = false) := by
    rintro (h | h)
    · exact absurd hvis.1 (not_lt.2 h)
    · rw [hvis.2] at h; cases h
  simp [touch, hv, he]

theorem touch_stay (s : Nat → QmlGraphicsItem) (a : Nat) (e : PositionedItem)
    (hvis : 0 < (s a).opacity ∧ (s a).visible = true) (he : e.isVisible = true) :
    (touch s a e).isNew = false ∧ (touch s a e).isVisible = true := by
  have hv : ¬ ((s a).opacity ≤ 0 ∨ (s a).visible = false) := by
    rintro (h | h)
    · exact absurd hvis.1 (not_lt.2 h)
    · rw [hvis.2] at h; cases h
  simp [touch, hv, he]

theorem touch_iterate_stay (s : Nat → QmlGraphicsItem) (a : Nat) (n : Nat) (e : PositionedItem)
    (hvis : 0 < (s a).opacity ∧ (s a).visible = true) (he : e.isVisible = true) :
    ((touch s a)^[n + 1] e).isNew = false ∧ ((touch s a)^[n + 1] e).isVisible = true := by
  induction n generalizing e with
  | zero => exact touch_stay s a e hvis he
  | succ n ih =>
    rw [Function.iterate_succ_apply]
    exact ih _ (touch_stay s a e hvis he).2

/-- A pass in which an item with a visible entry is a child and effectively visible leaves
its entry with `isNew = false` and `isVisible = true`. -/
theorem pass_stays (k : Layout) (a : Nat) (children : List (Option Nat)) (p p1 : Positioner)
    (w w1 : World) (hc : p.componentComplete = true)
    (hentry : ∃ e, entryOf p.positionedItems a = some e ∧ e.isVisible = true)
    (hmem : some a ∈ children)
    (hvis : 0 < (w.scene a).opacity ∧ (w.scene a).visible = true)
    (h : QmlGraphicsBasePositioner.prePositioning k children p w = some (p1, w1)) :
    p1.componentComplete = true ∧
      ∃ e, entryOf p1.positionedItems a = some e ∧ e.isNew = false ∧ e.isVisible = true := by
  obtain ⟨hreg, hcc⟩ := prePositioning_registry k children p p1 w w1 hc h
  obtain ⟨e, he, hev⟩ := hentry
  have hcount : children.count (some a) ≠ 0 := by
    have := List.count_pos_iff.2 hmem
    omega
  obtain ⟨n, hn⟩ : ∃ n, children.count (some a) = n + 1 :=
    ⟨children.count (some a) - 1, by omega⟩
  refine ⟨by rw [hcc, trackAll_complete]; exact hc, ?_⟩
  rw [hreg, trackAll_entry, if_neg hcount, hn]
  refine ⟨_, rfl, ?_⟩
  have he' : entryOf ({ p with queuedPositioning := false } : Positioner).positionedItems a
      = some e := he
  rw [he']
  exact touch_iterate_stay (w.scene) a n e hvis hev

theorem runPasses_stays (k : Layout) (a : Nat) (later : List (List (Option Nat) × World))
    (p pn : Positioner) (hc : p.componentComplete = true)
    (hentry : ∃ e, entryOf p.positionedItems a = some e ∧ e.isVisible = true)
    (hlater : ∀ q ∈ later, some a ∈ q.1 ∧ 0 < (q.2.scene a).opacity ∧
      (q.2.scene a).visible = true)
    (hne : later ≠ []) (hrun : runPasses k later p = some pn) :
    ∃ e, entryOf pn.positionedItems a = some e ∧ e.isNew = false := by
  induction later generalizing p with
  | nil => exact absurd rfl hne
  | cons q rest ih =>
    obtain ⟨children, w⟩ := q
    simp only [runPasses] at hrun
    cases hp : QmlGraphicsBasePositioner.prePositioning k children p w with
    | none => rw [hp] at hrun; cases hrun
    | some r =>
      obtain ⟨p1, w1⟩ := r
      rw [hp] at hrun
      simp only [] at hrun
      have hq := hlater (children, w) (List.mem_cons_self _ _)
      obtain ⟨hc1, e1, he1, hnew, hv1⟩ := pass_stays k a children p p1 w w1 hc hentry hq.1 hq.2 hp
      cases rest with
      | nil =>
        simp only [runPasses, Option.some.injEq] at hrun
        subst hrun
        exact ⟨e1, he1, hnew⟩
      | cons q2 rest2 =>
        exact ih p1 hc1 ⟨e1, he1, hv1⟩ (fun q hq => hlater q (List.mem_cons_of_mem _ hq))
          (by simp) hrun

/-- The pass completes for Column, Row and Flow, whose `doPositioning` is total. -/
theorem prePositioning_total (k : Layout) (hk : ∀ c r, k ≠ Layout.Grid c r)
    (children : List (Option Nat)) (p : Positioner) (w : World) :
    (QmlGraphicsBasePositioner.prePositioning k children p w).isSome = true := by
  unfold QmlGraphicsBasePositioner.prePositioning
  split_ifs
  · rfl
  · cases k with
    | Column => rfl
    | Row => rfl
    | Grid c r => exact absurd rfl (hk c r)
    | Flow f => rfl

theorem runPasses_total (k : Layout) (hk : ∀ c r, k ≠ Layout.Grid c r)
    (later : List (List (Option Nat) × World)) (p : Positioner) :
    (runPasses k later p).isSome = true := by
  induction later generalizing p with
  | nil => rfl
  | cons q rest ih =>
    obtain ⟨children, w⟩ := q
    have h := prePositioning_total k hk children p w
    simp only [runPasses]
    cases hp : QmlGraphicsBasePositioner.prePositioning k children p w with
    | none => rw [hp] at h; cases h
    | some r => exact ih r.1

/-- C9. Novelty classification: in a sequence of positioning passes on a completed component,
take an item that is a child (once in the children list) and effectively visible
(opacity > 0, visible flag set) in a pass before which its entry was absent or had
`isVisible = false`.  After that pass its entry has `isNew = true`; and after later passes,
the item being a child and effectively visible in each of them, its entry has
`isNew = false`.  The passes do complete for Column, Row and Flow. -/
theorem novelty_classification (k : Layout) (a : Nat) (p : Positioner)
    (children : List (Option Nat)) (w : World)
    (later : List (List (Option Nat) × World))
    (hc : p.componentComplete = true)
    (hbefore : ∀ e, entryOf p.positionedItems a = some e → e.isVisible = false)
    (honce : children.count (some a) = 1)
    (hvis : 0 < (w.scene a).opacity ∧ (w.scene a).visible = true)
    (hlater : ∀ q ∈ later, some a ∈ q.1 ∧ 0 < (q.2.scene a).opacity ∧
      (q.2.scene a).visible = true)
    (hne : later ≠ []) :
    (∀ p1 w1 pn,
      QmlGraphicsBasePositioner.prePositioning k children p w = some (p1, w1) →
      runPasses k later p1 = some pn →
      (∃ e, entryOf p1.positionedItems a = some e ∧ e.isNew = true) ∧
        (∃ e, entryOf pn.positionedItems a = some e ∧ e.isNew = false)) ∧
    ((∀ c r, k ≠ Layout.Grid c r) →
      ∃ p1 w1 pn, QmlGraphicsBasePositioner.prePositioning k children p w = some (p1, w1) ∧
        runPasses k later p1 = some pn) := by
  constructor
  · intro p1 w1 pn hpass hrun
    obtain ⟨hreg, hcc⟩ := prePositioning_registry k children p p1 w w1 hc hpass
    have hc1 : p1.componentComplete = true := by rw [hcc, trackAll_complete]; exact hc
    have hfirst : ∃ e, entryOf p1.positionedItems a = some e ∧ e.isNew = true ∧
        e.isVisible = true := by
      rw [hreg, trackAll_entry, honce, if_neg (by decide)]
      refine ⟨_, rfl, ?_⟩
      apply touch_appear _ _ _ hvis
      cases he : entryOf ({ p with queuedPositioning := false } : Positioner).positionedItems a with
      | none => rfl
      | some e => exact hbefore e he
    obtain ⟨e, he, hnew, hv⟩ := hfirst
    exact ⟨⟨e, he, hnew⟩, runPasses_stays k a later p1 pn hc1 ⟨e, he, hv⟩ hlater hne hrun⟩
  · intro hk
    have h1 := prePositioning_total k hk children p w
    cases hp : QmlGraphicsBasePositioner.prePositioning k children p w with
    | none => rw [hp] at h1; cases h1
    | some r =>
      have h2 := runPasses_total k hk later r.1
      cases hr : runPasses k later r.1 with
      | none => rw [hr] at h2; cases h2
      | some pn => exact ⟨r.1, r.2, pn, rfl, hr⟩

theorem option_pair_eq {α β : Type} (o : Option (α × β)) (a0 : α) (b0 : β)
    (h : o.isSome = true) : o = some ((o.map Prod.fst).getD a0, (o.map Prod.snd).getD b0) := by
  cases o with
  | none => cases h
  | some r => rfl

theorem option_eq_getD {α : Type} (o : Option α) (a0 : α) (h : o.isSome = true) :
    o = some (o.getD a0) := by
  cases o with
  | none => cases h
  | some r => rfl

/-- C9, witness: a Column with an empty registry, passes over the visible children 0 and 1:
the passes complete, item 0 has `isNew = true` after the first pass and `isNew = false`
after two more passes. -/
theorem novelty_classification_witness :
    noveltyP0.componentComplete = true ∧
      QmlGraphicsBasePositioner.prePositioning Layout.Column [some 0, some 1] noveltyP0
        noveltyW = some (noveltyP1, noveltyW1) ∧
      (∃ e, entryOf noveltyP1.positionedItems 0 = some e ∧ e.isNew = true) ∧
      (∃ e, entryOf noveltyPn.positionedItems 0 = some e ∧ e.isNew = false) :=
  ⟨rfl, option_pair_eq _ _ _ (prePositioning_total _ (by intro c r h; cases h) _ _ _),
    (novelty_classification Layout.Column 0 noveltyP0 [some 0, some 1] noveltyW
      [([some 1, some 0], noveltyW), ([some 0, some 1], noveltyW)]
      rfl (fun e h => by simp [noveltyP0, entryOf_nil] at h) (by decide) (by decide!)
      (by
        intro q hq
        simp only [List.mem_cons, List.mem_singleton, List.not_mem_nil, or_false] at hq
        rcases hq with rfl | rfl <;> decide!)
      (by simp)).1 noveltyP1 noveltyW1 noveltyPn
      (option_pair_eq _ _ _ (prePositioning_total _ (by intro c r h; cases h) _ _ _))
      (option_eq_getD _ _ (by decide!))⟩

theorem dims_fixed (columns rows n : Int) (hc : 1 ≤ columns) (hr : 1 ≤ rows) :
    QmlGraphicsGrid.dims columns rows n = some (columns, rows) := by
  unfold QmlGraphicsGrid.dims
  rw [if_neg (by omega), if_neg (by omega), if_neg (by omega)]

theorem prePositioning_keeps_items (k : Layout) (children : List (Option Nat))
    (p p1 : Positioner) (w w1 : World)
    (h : QmlGraphicsBasePositioner.prePositioning k children p w = some (p1, w1)) :
    ∀ e ∈ p.positionedItems, ∃ e1 ∈ p1.positionedItems, e1.item = e.item := by
  intro e he
  by_cases hc : p.componentComplete = true
  · obtain ⟨hreg, _⟩ := prePositioning_registry k children p p1 w w1 hc h
    obtain ⟨extra, hx⟩ := trackAll_keeps_items w.scene children
      { p with queuedPositioning := false }
    have hmem : e.item ∈ p1.positionedItems.map (fun e => e.item) := by
      rw [hreg, hx]
      exact List.mem_append_left _ (List.mem_map_of_mem _ he)
    obtain ⟨e1, h1, h2⟩ := List.mem_map.1 hmem
    exact ⟨e1, h1, h2⟩
  · unfold QmlGraphicsBasePositioner.prePositioning at h
    rw [if_pos (by simpa using hc)] at h
    simp only [Option.some.injEq, Prod.mk.injEq] at h
    rw [← h.1]
    exact ⟨e, he, rfl⟩

/-- C7 (amended). Grid over capacity on the code: with rows = r >= 1 and columns = c >= 1
both fixed, `QmlGraphicsGrid::doPositioning` completes and does exactly the conditional
requests of a plan whose targets are the first r*c laid-out entries, in order, each with an
x and a y offset (`place`: positionX and positionY are called for an entry only if its x or
y differs from its offset).  Hence an item that is not one of the first r*c laid-out items
keeps its state, every action appended to a batch targets one of the first r*c laid-out
items, and a pass keeps an entry for every item the registry held. -/
theorem grid_over_capacity (d : Positioner) (w : World) (columns rows : Int)
    (hr : 1 ≤ rows) (hc : 1 ≤ columns) :
    ∃ plan w1,
      QmlGraphicsGrid.doPositioning d columns rows w = some w1 ∧
      plan.map (fun p => p.target) =
        (laid w.scene d.positionedItems).take (rows * columns).toNat ∧
      (∀ p ∈ plan, ∃ h v, p.xo = some h ∧ p.yo = some v) ∧
      w1 = placeAll d plan w ∧
      (∀ b, b ∉ ((laid w.scene d.positionedItems).take (rows * columns).toNat).map
        (fun l => l.addr) → w1.scene b = w.scene b) ∧
      (∃ na nm, w1.addActions = w.addActions ++ na ∧ w1.moveActions = w.moveActions ++ nm ∧
        ∀ act ∈ na ++ nm, ∃ l ∈ (laid w.scene d.positionedItems).take (rows * columns).toNat,
          act.target = some l.addr) ∧
      (∀ children p w0 p1 w2,
        QmlGraphicsBasePositioner.prePositioning (Layout.Grid columns rows) children p w0 =
          some (p1, w2) →
        ∀ e ∈ p.positionedItems, ∃ e1 ∈ p1.positionedItems, e1.item = e.item) := by
  obtain ⟨m, hm, hcl, hrl⟩ := measure_lengths w.scene d.positionedItems columns rows hc hr
  obtain ⟨plan, hplan, htg, hoff⟩ := gridPlan_take d.spacing columns rows m.maxColWidth
    m.maxRowHeight hc hr hcl hrl (laid w.scene d.positionedItems) 0 0 0 0
    (rows * columns).toNat ⟨le_refl _, by omega⟩ ⟨le_refl _, by omega⟩
    (by
      have : 0 ≤ rows * columns := mul_nonneg (by omega) (by omega)
      rw [Int.toNat_of_nonneg this]; ring)
  have hres : QmlGraphicsGrid.doPositioning d columns rows w = some (placeAll d plan w) := by
    unfold QmlGraphicsGrid.doPositioning
    rw [dims_fixed columns rows _ hc hr]
    simp only [hm, grid_loop_eq, hplan, Option.map_some']
  refine ⟨plan, placeAll d plan w, hres, htg, hoff, rfl, ?_, ?_, ?_⟩
  · intro b hb
    apply placeAll_other
    intro p hp heq
    apply hb
    rw [← htg, List.map_map]
    exact List.mem_map.2 ⟨p, hp, heq.symm⟩
  · obtain ⟨na, nm, h1, h2, _, h4⟩ := placeAll_actions d plan w
    refine ⟨na, nm, h1, h2, ?_⟩
    intro act hact
    obtain ⟨p, hp, hpt⟩ := h4 act hact
    exact ⟨p.target, by rw [← htg]; exact List.mem_map_of_mem _ hp, hpt⟩
  · intro children p w0 p1 w2 h
    exact prePositioning_keeps_items _ children p p1 w0 w2 h

/-- C7, witness: rows = columns = 1 over the three visible items 1, 2, 3 in immediate mode:
the layout completes and item 2, beyond the capacity 1, stays at (7, 7). -/
theorem grid_over_capacity_witness :
    (1 : Int) ≤ 1 ∧ (laid gridInPlaceW.scene gridThreeItems).length = 3 ∧
      gridResult (QmlGraphicsGrid.doPositioning (gridOf 0 gridThreeItems) 1 1 gridInPlaceW) 2
        = some (7, 7) := by
  refine ⟨le_refl _, by decide!, ?_⟩
  obtain ⟨plan, w1, h1, _, _, _, hframe, _⟩ :=
    grid_over_capacity (gridOf 0 gridThreeItems) gridInPlaceW 1 1 (le_refl _) (le_refl _)
  rw [h1]
  have h2 := hframe 2 (by decide!)
  simp only [gridResult, Option.map_some', h2]
  decide!

/-- C7, counterexample: rows = columns = 1, a move transition configured, registry of the
visible items 1, 2, 3 with item 1 already at (0, 0): the layout appends no action at all, so
no position request is issued for item 1, the first laid-out item. -/
theorem grid_over_capacity_counterexample :
    (laid gridInPlaceW.scene gridThreeItems).map (fun l => l.addr) = [1, 2, 3] ∧
      (QmlGraphicsGrid.doPositioning (gridBatchOf 0 gridThreeItems) 1 1 gridInPlaceW).map
        (fun w => (w.addActions, w.moveActions)) = some ([], []) := by
  decide!

/-! ### positionX and positionY -/

/-- C13 (amended). Immediate set versus batching on the code: when the positioner type permits
the coordinate, `positionX` / `positionY` set the coordinate on the item at once exactly when
neither the add nor the move transition is configured; otherwise the request (item, "x" or
"y", value) is appended to the add batch if the child has `isNew` and to the move batch if
not, and nothing else changes. -/
theorem position_immediate_or_batched (d : Positioner) (v : Int) (t : PositionedItem)
    (w : World) (a : Nat) (ht : t.item = some a) :
    (d.type = PositionerType.Horizontal ∨ d.type = PositionerType.Both →
      (d.addTransition = false ∧ d.moveTransition = false →
        positionX d v t w = { w with scene := setX w.scene a v }) ∧
      (¬ (d.addTransition = false ∧ d.moveTransition = false) → t.isNew = true →
        positionX d v t w = { w with addActions := w.addActions ++ [⟨some a, "x", v⟩] }) ∧
      (¬ (d.addTransition = false ∧ d.moveTransition = false) → t.isNew = false →
        positionX d v t w = { w with moveActions := w.moveActions ++ [⟨some a, "x", v⟩] })) ∧
    (d.type = PositionerType.Vertical ∨ d.type = PositionerType.Both →
      (d.addTransition = false ∧ d.moveTransition = false →
        positionY d v t w = { w with scene := setY w.scene a v }) ∧
      (¬ (d.addTransition = false ∧ d.moveTransition = false) → t.isNew = true →
        positionY d v t w = { w with addActions := w.addActions ++ [⟨some a, "y", v⟩] }) ∧
      (¬ (d.addTransition = false ∧ d.moveTransition = false) → t.isNew = false →
        positionY d v t w = { w with moveActions := w.moveActions ++ [⟨some a, "y", v⟩] })) := by
  constructor
  · intro hty
    unfold positionX
    rw [if_pos hty]
    refine ⟨?_, ?_, ?_⟩
    · intro hi; rw [if_pos hi, ht]
    · intro hi hn; rw [if_neg hi, if_pos hn, ht]
    · intro hi hn; rw [if_neg hi, if_neg (by simp [hn]), ht]
  · intro hty
    unfold positionY
    rw [if_pos hty]
    refine ⟨?_, ?_, ?_⟩
    · intro hi; rw [if_pos hi, ht]
    · intro hi hn; rw [if_neg hi, if_pos hn, ht]
    · intro hi hn; rw [if_neg hi, if_neg (by simp [hn]), ht]

/-- C13, witness: type Both, only the add transition configured, a child without `isNew`:
`positionX` appends the request to the move batch. -/
theorem position_immediate_or_batched_witness :
    (⟨some 1, false, true⟩ : PositionedItem).item = some 1 ∧
      positionX addOnlyD 0 ⟨some 1, false, true⟩ plainW =
        { plainW with moveActions := plainW.moveActions ++ [⟨some 1, "x", 0⟩] } :=
  ⟨rfl, ((position_immediate_or_batched addOnlyD 0 ⟨some 1, false, true⟩ plainW 1 rfl).1
    (Or.inr rfl)).2.2 (by decide) rfl⟩

/-- C13, counterexample: only the add transition is configured and the child has no `isNew`,
so no transition is configured for its class; yet `positionX` does not set x (it stays 7) and
appends the request to the move batch. -/
theorem position_immediate_or_batched_counterexample :
    addOnlyD.moveTransition = false ∧
      ((positionX addOnlyD 0 ⟨some 1, false, true⟩ plainW).scene 1).x = 7 ∧
      (positionX addOnlyD 0 ⟨some 1, false, true⟩ plainW).moveActions = [⟨some 1, "x", 0⟩] ∧
      (positionX addOnlyD 0 ⟨some 1, false, true⟩ plainW).addActions = [] := by
  decide!

/-! ### No pass before the component is complete -/

/-- C15. No positioning before construction completes: when the component is not complete,
`prePositioning`, `setSpacing`, `setFlow` and the child-added branch of `itemChange` leave the
positioner (registry and implicit size included; `setSpacing` stores the spacing, `setFlow`
the flow) and the world (every item and both batches) as they are. -/
theorem no_pass_before_complete (k : Layout) (children : List (Option Nat)) (p : Positioner)
    (w : World) (hc : p.componentComplete = false) :
    QmlGraphicsBasePositioner.prePositioning k children p w = some (p, w) ∧
    (∀ s, QmlGraphicsBasePositioner.setSpacing k children s p w =
      some ({ p with spacing := s }, w)) ∧
    (∀ current flow, QmlGraphicsFlow.setFlow children current flow p w = some (flow, p, w)) ∧
    (∀ value, QmlGraphicsBasePositioner.itemChange k children
      GraphicsItemChange.ItemChildAddedChange value p w = some (p, w)) := by
  have hpre : ∀ k' (q : Positioner), q.componentComplete = false →
      QmlGraphicsBasePositioner.prePositioning k' children q w = some (q, w) := by
    intro k' q hq
    unfold QmlGraphicsBasePositioner.prePositioning
    rw [if_pos hq]
  refine ⟨hpre k p hc, ?_, ?_, ?_⟩
  · intro s
    unfold QmlGraphicsBasePositioner.setSpacing
    split_ifs with h
    · subst h; rfl
    · exact hpre k _ hc
  · intro current flow
    unfold QmlGraphicsFlow.setFlow
    split_ifs with h
    · rw [hpre _ p hc]
    · rw [not_not] at h; rw [h]
  · intro value
    unfold QmlGraphicsBasePositioner.itemChange
    cases value with
    | none => rfl
    | some c => exact hpre k p hc

/-- C15, witness: a Flow that is not complete: a pass over the children 0 and 1 changes
nothing, and `setSpacing 5` only stores the spacing. -/
theorem no_pass_before_complete_witness :
    incompleteD.componentComplete = false ∧
      QmlGraphicsBasePositioner.prePositioning (Layout.Flow Flow.LeftToRight) [some 0, some 1]
        incompleteD plainW = some (incompleteD, plainW) ∧
      QmlGraphicsBasePositioner.setSpacing (Layout.Flow Flow.LeftToRight) [some 0, some 1] 5
        incompleteD plainW = some ({ incompleteD with spacing := 5 }, plainW) :=
  ⟨rfl,
    (no_pass_before_complete (Layout.Flow Flow.LeftToRight) [some 0, some 1] incompleteD plainW
      rfl).1,
    (no_pass_before_complete (Layout.Flow Flow.LeftToRight) [some 0, some 1] incompleteD plainW
      rfl).2.1 5⟩

/-! ### Requests on one axis only -/

theorem place_yonly_x (d : Positioner) (p : Placement) (w : World) (b : Nat)
    (h : p.xo = none) : ((place d p w).scene b).x = (w.scene b).x := by
  unfold place
  split_ifs
  · cases hy : p.yo <;> simp only [h]
    exact positionY_x _ _ _ _ _
  · rfl

theorem place_xonly_y (d : Positioner) (p : Placement) (w : World) (b : Nat)
    (h : p.yo = none) : ((place d p w).scene b).y = (w.scene b).y := by
  unfold place
  split_ifs
  · cases hx : p.xo <;> simp only [h]
    exact positionX_y _ _ _ _ _
  · rfl

theorem placeAll_yonly_x (d : Positioner) (ps : List Placement) (w : World) (b : Nat)
    (h : ∀ p ∈ ps, p.xo = none) : ((placeAll d ps w).scene b).x = (w.scene b).x := by
  induction ps generalizing w with
  | nil => rfl
  | cons p ps ih =>
    simp only [placeAll]
    rw [ih _ (fun q hq => h q (List.mem_cons_of_mem _ hq)),
      place_yonly_x d p w b (h p (List.mem_cons_self _ _))]

theorem placeAll_xonly_y (d : Positioner) (ps : List Placement) (w : World) (b : Nat)
    (h : ∀ p ∈ ps, p.yo = none) : ((placeAll d ps w).scene b).y = (w.scene b).y := by
  induction ps generalizing w with
  | nil => rfl
  | cons p ps ih =>
    simp only [placeAll]
    rw [ih _ (fun q hq => h q (List.mem_cons_of_mem _ hq)),
      place_xonly_y d p w b (h p (List.mem_cons_self _ _))]

theorem positionX_props (d : Positioner) (x : Int) (t : PositionedItem) (w : World) :
    ∃ na nm, (positionX d x t w).addActions = w.addActions ++ na ∧
      (positionX d x t w).moveActions = w.moveActions ++ nm ∧
      ∀ act ∈ na ++ nm, act.property = "x" := by
  unfold positionX
  split_ifs with h1 h2 h3
  · refine ⟨[], [], ?_, ?_, by simp⟩ <;> cases t.item <;> simp
  · exact ⟨[_], [], rfl, by simp, by simp⟩
  · exact ⟨[], [_], by simp, rfl, by simp⟩
  · exact ⟨[], [], by simp, by simp, by simp⟩

theorem positionY_props (d : Positioner) (y : Int) (t : PositionedItem) (w : World) :
    ∃ na nm, (positionY d y t w).addActions = w.addActions ++ na ∧
      (positionY d y t w).moveActions = w.moveActions ++ nm ∧
      ∀ act ∈ na ++ nm, act.property = "y" := by
  unfold positionY
  split_ifs with h1 h2 h3
  · refine ⟨[], [], ?_, ?_, by simp⟩ <;> cases t.item <;> simp
  · exact ⟨[_], [], rfl, by simp, by simp⟩
  · exact ⟨[], [_], by simp, rfl, by simp⟩
  · exact ⟨[], [], by simp, by simp, by simp⟩

theorem place_yonly_props (d : Positioner) (p : Placement) (w : World) (h : p.xo = none) :
    ∃ na nm, (place d p w).addActions = w.addActions ++ na ∧
      (place d p w).moveActions = w.moveActions ++ nm ∧
      ∀ act ∈ na ++ nm, act.property = "y" := by
  unfold place
  split_ifs
  · cases hy : p.yo <;> simp only [h]
    · exact ⟨[], [], by simp, by simp, by simp⟩
    · exact positionY_props _ _ _ _
  · exact ⟨[], [], by simp, by simp, by simp⟩

theorem place_xonly_props (d : Positioner) (p : Placement) (w : World) (h : p.yo = none) :
    ∃ na nm, (place d p w).addActions = w.addActions ++ na ∧
      (place d p w).moveActions = w.moveActions ++ nm ∧
      ∀ act ∈ na ++ nm, act.property = "x" := by
  unfold place
  split_ifs
  · cases hx : p.xo <;> simp only [h]
    · exact ⟨[], [], by simp, by simp, by simp⟩
    · exact positionX_props _ _ _ _
  · exact ⟨[], [], by simp, by simp, by simp⟩

/-- Appending to both batches, every new action satisfying `P`, composes. -/
theorem batches_compose (P : QmlAction → Prop) (w0 w1 w2 : World)
    (h1 : ∃ na nm, w1.addActions = w0.addActions ++ na ∧ w1.moveActions = w0.moveActions ++ nm ∧
      ∀ act ∈ na ++ nm, P act)
    (h2 : ∃ na nm, w2.addActions = w1.addActions ++ na ∧ w2.moveActions = w1.moveActions ++ nm ∧
      ∀ act ∈ na ++ nm, P act) :
    ∃ na nm, w2.addActions = w0.addActions ++ na ∧ w2.moveActions = w0.moveActions ++ nm ∧
      ∀ act ∈ na ++ nm, P act := by
  obtain ⟨a1, m1, e1, e2, e3⟩ := h1
  obtain ⟨a2, m2, f1, f2, f3⟩ := h2
  refine ⟨a1 ++ a2, m1 ++ m2, by rw [f1, e1, List.append_assoc],
    by rw [f2, e2, List.append_assoc], ?_⟩
  intro act hact
  simp only [List.mem_append] at hact e3 f3
  rcases hact with (h | h) | (h | h)
  · exact e3 act (Or.inl h)
  · exact f3 act (Or.inl h)
  · exact e3 act (Or.inr h)
  · exact f3 act (Or.inr h)

theorem placeAll_yonly_props (d : Positioner) (ps : List Placement) (w : World)
    (h : ∀ p ∈ ps, p.xo = none) :
    ∃ na nm, (placeAll d ps w).addActions = w.addActions ++ na ∧
      (placeAll d ps w).moveActions = w.moveActions ++ nm ∧
      ∀ act ∈ na ++ nm, act.property = "y" := by
  induction ps generalizing w with
  | nil => exact ⟨[], [], by simp [placeAll], by simp [placeAll], by simp⟩
  | cons p ps ih =>
    exact batches_compose _ w (place d p w) _
      (place_yonly_props d p w (h p (List.mem_cons_self _ _)))
      (ih _ (fun q hq => h q (List.mem_cons_of_mem _ hq)))

theorem placeAll_xonly_props (d : Positioner) (ps : List Placement) (w : World)
    (h : ∀ p ∈ ps, p.yo = none) :
    ∃ na nm, (placeAll d ps w).addActions = w.addActions ++ na ∧
      (placeAll d ps w).moveActions = w.moveActions ++ nm ∧
      ∀ act ∈ na ++ nm, act.property = "x" := by
  induction ps generalizing w with
  | nil => exact ⟨[], [], by simp [placeAll], by simp [placeAll], by simp⟩
  | cons p ps ih =>
    exact batches_compose _ w (place d p w) _
      (place_xonly_props d p w (h p (List.mem_cons_self _ _)))
      (ih _ (fun q hq => h q (List.mem_cons_of_mem _ hq)))

theorem columnPlan_xo (sp : Int) (ls : List Laid) (v : Int) :
    ∀ p ∈ columnPlan sp ls v, p.xo = none := by
  induction ls generalizing v with
  | nil => intro p hp; cases hp
  | cons l ls ih =>
    intro p hp
    simp only [columnPlan, List.mem_cons] at hp
    rcases hp with rfl | hp
    · rfl
    · exact ih _ p hp

theorem rowPlan_yo (sp : Int) (ls : List Laid) (h : Int) :
    ∀ p ∈ rowPlan sp ls h, p.yo = none := by
  induction ls generalizing h with
  | nil => intro p hp; cases hp
  | cons l ls ih =>
    intro p hp
    simp only [rowPlan, List.mem_cons] at hp
    rcases hp with rfl | hp
    · rfl
    · exact ih _ p hp

theorem applyAction_y_x (s : Nat → QmlGraphicsItem) (act : QmlAction) (b : Nat)
    (h : act.property = "y") : (applyAction s act b).x = (s b).x := by
  unfold applyAction
  cases act.target with
  | none => rfl
  | some a =>
    simp only [h]
    rw [if_neg (by decide), if_pos trivial]
    unfold setY
    by_cases hb : b = a
    · subst hb; simp
    · simp [hb]

theorem applyAction_x_y (s : Nat → QmlGraphicsItem) (act : QmlAction) (b : Nat)
    (h : act.property = "x") : (applyAction s act b).y = (s b).y := by
  unfold applyAction
  cases act.target with
  | none => rfl
  | some a =>
    simp only [h]
    rw [if_pos trivial]
    unfold setX
    by_cases hb : b = a
    · subst hb; simp
    · simp [hb]

theorem transition_y_x (actions : List QmlAction) (tr : Bool) (s : Nat → QmlGraphicsItem)
    (b : Nat) (h : ∀ act ∈ actions, act.property = "y") :
    (transition actions tr s b).x = (s b).x := by
  unfold transition
  split_ifs
  · rfl
  · induction actions generalizing s with
    | nil => rfl
    | cons act rest ih =>
      simp only [List.foldl_cons]
      rw [ih _ (fun q hq => h q (List.mem_cons_of_mem _ hq)),
        applyAction_y_x s act b (h act (List.mem_cons_self _ _))]

theorem transition_x_y (actions : List QmlAction) (tr : Bool) (s : Nat → QmlGraphicsItem)
    (b : Nat) (h : ∀ act ∈ actions, act.property = "x") :
    (transition actions tr s b).y = (s b).y := by
  unfold transition
  split_ifs
  · rfl
  · induction actions generalizing s with
    | nil => rfl
    | cons act rest ih =>
      simp only [List.foldl_cons]
      rw [ih _ (fun q hq => h q (List.mem_cons_of_mem _ hq)),
        applyAction_x_y s act b (h act (List.mem_cons_self _ _))]

theorem column_doPositioning_x (d : Positioner) (w : World) :
    (∀ b, ((QmlGraphicsColumn.doPositioning d w).scene b).x = (w.scene b).x) ∧
      ∃ na nm, (QmlGraphicsColumn.doPositioning d w).addActions = w.addActions ++ na ∧
        (QmlGraphicsColumn.doPositioning d w).moveActions = w.moveActions ++ nm ∧
        ∀ act ∈ na ++ nm, act.property = "y" := by
  have hw : QmlGraphicsColumn.doPositioning d w = _ := column_loop_eq d d.positionedItems 0 w
  rw [hw]
  exact ⟨fun b => placeAll_yonly_x d _ w b (columnPlan_xo _ _ _),
    placeAll_yonly_props d _ w (columnPlan_xo _ _ _)⟩

theorem row_doPositioning_y (d : Positioner) (w : World) :
    (∀ b, ((QmlGraphicsRow.doPositioning d w).scene b).y = (w.scene b).y) ∧
      ∃ na nm, (QmlGraphicsRow.doPositioning d w).addActions = w.addActions ++ na ∧
        (QmlGraphicsRow.doPositioning d w).moveActions = w.moveActions ++ nm ∧
        ∀ act ∈ na ++ nm, act.property = "x" := by
  have hw : QmlGraphicsRow.doPositioning d w = _ := row_loop_eq d d.positionedItems 0 w
  rw [hw]
  exact ⟨fun b => placeAll_xonly_y d _ w b (rowPlan_yo _ _ _),
    placeAll_xonly_props d _ w (rowPlan_yo _ _ _)⟩

theorem finish_y_x (d : Positioner) (w : World) (b : Nat)
    (h : ∀ act ∈ w.addActions ++ w.moveActions, act.property = "y") :
    ((finishApplyTransitions d w).scene b).x = (w.scene b).x := by
  unfold finishApplyTransitions
  simp only []
  rw [transition_y_x _ _ _ _ (fun act ha => h act (List.mem_append_right _ ha)),
    transition_y_x _ _ _ _ (fun act ha => h act (List.mem_append_left _ ha))]

theorem finish_x_y (d : Positioner) (w : World) (b : Nat)
    (h : ∀ act ∈ w.addActions ++ w.moveActions, act.property = "x") :
    ((finishApplyTransitions d w).scene b).y = (w.scene b).y := by
  unfold finishApplyTransitions
  simp only []
  rw [transition_x_y _ _ _ _ (fun act ha => h act (List.mem_append_right _ ha)),
    transition_x_y _ _ _ _ (fun act ha => h act (List.mem_append_left _ ha))]

theorem column_pass_x (children : List (Option Nat)) (p p1 : Positioner) (w w1 : World)
    (ha : w.addActions = []) (hm : w.moveActions = [])
    (h : QmlGraphicsBasePositioner.prePositioning Layout.Column children p w = some (p1, w1))
    (b : Nat) : (w1.scene b).x = (w.scene b).x := by
  unfold QmlGraphicsBasePositioner.prePositioning at h
  split_ifs at h with hc
  · simp only [Option.some.injEq, Prod.mk.injEq] at h
    rw [← h.2]
  · simp only [doPositioning, Option.some.injEq, Prod.mk.injEq] at h
    obtain ⟨_, h2⟩ := h
    obtain ⟨hx, na, nm, e1, e2, e3⟩ := column_doPositioning_x
      (List.foldl (QmlGraphicsBasePositioner.track w.scene) { p with queuedPositioning := false }
        children) w
    rw [← h2]
    split_ifs
    · rw [finish_y_x _ _ _ (by
        rw [e1, e2, ha, hm]
        simpa using e3), hx]
    · exact hx b

theorem row_pass_y (children : List (Option Nat)) (p p1 : Positioner) (w w1 : World)
    (ha : w.addActions = []) (hm : w.moveActions = [])
    (h : QmlGraphicsBasePositioner.prePositioning Layout.Row children p w = some (p1, w1))
    (b : Nat) : (w1.scene b).y = (w.scene b).y := by
  unfold QmlGraphicsBasePositioner.prePositioning at h
  split_ifs at h with hc
  · simp only [Option.some.injEq, Prod.mk.injEq] at h
    rw [← h.2]
  · simp only [doPositioning, Option.some.injEq, Prod.mk.injEq] at h
    obtain ⟨_, h2⟩ := h
    obtain ⟨hy, na, nm, e1, e2, e3⟩ := row_doPositioning_y
      (List.foldl (QmlGraphicsBasePositioner.track w.scene) { p with queuedPositioning := false }
        children) w
    rw [← h2]
    split_ifs
    · rw [finish_x_y _ _ _ (by
        rw [e1, e2, ha, hm]
        simpa using e3), hy]
    · exact hy b

/-- C14. Axis gating: `positionX` changes nothing when the positioner type is Vertical and
`positionY` changes nothing when it is Horizontal.  `QmlGraphicsColumn::doPositioning` leaves
the x of every item as it is and appends only "y" actions, and a Column pass started with
empty batches leaves the x of every item as it is; likewise Row with y and "x" actions. -/
theorem axis_gating (d : Positioner) (v : Int) (t : PositionedItem) (w : World) :
    (d.type = PositionerType.Vertical → positionX d v t w = w) ∧
    (d.type = PositionerType.Horizontal → positionY d v t w = w) ∧
    ((∀ b, ((QmlGraphicsColumn.doPositioning d w).scene b).x = (w.scene b).x) ∧
      ∃ na nm, (QmlGraphicsColumn.doPositioning d w).addActions = w.addActions ++ na ∧
        (QmlGraphicsColumn.doPositioning d w).moveActions = w.moveActions ++ nm ∧
        ∀ act ∈ na ++ nm, act.property = "y") ∧
    ((∀ b, ((QmlGraphicsRow.doPositioning d w).scene b).y = (w.scene b).y) ∧
      ∃ na nm, (QmlGraphicsRow.doPositioning d w).addActions = w.addActions ++ na ∧
        (QmlGraphicsRow.doPositioning d w).moveActions = w.moveActions ++ nm ∧
        ∀ act ∈ na ++ nm, act.property = "x") ∧
    (∀ children p1 w1, w.addActions = [] → w.moveActions = [] →
      QmlGraphicsBasePositioner.prePositioning Layout.Column children d w = some (p1, w1) →
      ∀ b, (w1.scene b).x = (w.scene b).x) ∧
    (∀ children p1 w1, w.addActions = [] → w.moveActions = [] →
      QmlGraphicsBasePositioner.prePositioning Layout.Row children d w = some (p1, w1) →
      ∀ b, (w1.scene b).y = (w.scene b).y) := by
  refine ⟨?_, ?_, column_doPositioning_x d w, row_doPositioning_y d w, ?_, ?_⟩
  · intro h
    unfold positionX
    rw [if_neg (by rw [h]; decide)]
  · intro h
    unfold positionY
    rw [if_neg (by rw [h]; decide)]
  · intro children p1 w1 ha hm h b
    exact column_pass_x children d p1 w w1 ha hm h b
  · intro children p1 w1 ha hm h b
    exact row_pass_y children d p1 w w1 ha hm h b

/-- C14, witness: a positioner of type Vertical: `positionX` returns the world as it is. -/
theorem axis_gating_witness :
    verticalD.type = PositionerType.Vertical ∧
      positionX verticalD 0 ⟨some 1, false, true⟩ plainW = plainW :=
  ⟨rfl, (axis_gating verticalD 0 ⟨some 1, false, true⟩ plainW).1 rfl⟩

/-! ### Which visible items are skipped -/

/-- C20 (amended). Zero extent on the code: an effectively-visible item is left out of the
placement exactly when its width or its height is zero, whatever the axis being packed.
The Column and Row loops do the same with and without an entry for such an item; an
effectively-visible item with non-zero width and height gets its request in the Column loop
and advances the offset by its height (in the Row loop, by its width). -/
theorem zero_extent_skips (d : Positioner) (w : World) (e : PositionedItem) (a : Nat)
    (he : e.item = some a) (hvis : effectivelyVisible (w.scene a)) :
    (isInvisible (w.scene a) = true ↔ (w.scene a).width = 0 ∨ (w.scene a).height = 0) ∧
    ((w.scene a).width = 0 ∨ (w.scene a).height = 0 →
      ∀ l1 l2,
        QmlGraphicsColumn.loop d (l1 ++ e :: l2) 0 w = QmlGraphicsColumn.loop d (l1 ++ l2) 0 w ∧
        QmlGraphicsRow.loop d (l1 ++ e :: l2) 0 w = QmlGraphicsRow.loop d (l1 ++ l2) 0 w) ∧
    ((w.scene a).width ≠ 0 ∧ (w.scene a).height ≠ 0 →
      ∀ rest v,
        QmlGraphicsColumn.loop d (e :: rest) v w =
          QmlGraphicsColumn.loop d rest (qrealToInt ((v : ℚ) + (w.scene a).height) + d.spacing)
            (if (w.scene a).y ≠ (v : ℚ) then positionY d v e w else w) ∧
        QmlGraphicsRow.loop d (e :: rest) v w =
          QmlGraphicsRow.loop d rest (qrealToInt ((v : ℚ) + (w.scene a).width) + d.spacing)
            (if (w.scene a).x ≠ (v : ℚ) then positionX d v e w else w)) := by
  have hiff : isInvisible (w.scene a) = true ↔
      (w.scene a).width = 0 ∨ (w.scene a).height = 0 := by
    obtain ⟨ho, hv⟩ := hvis
    have ho' : (w.scene a).opacity ≠ 0 := ne_of_gt ho
    simp [isInvisible, ho', hv]
  refine ⟨hiff, ?_, ?_⟩
  · intro hz l1 l2
    have h := hidden_entry_ignored d w l1 l2 e a he (hiff.2 hz) Flow.LeftToRight
    exact ⟨h.1, h.2.1⟩
  · intro hnz rest v
    have hinv : ¬ isInvisible (w.scene a) = true := by
      rw [hiff]; rintro (h | h)
      · exact hnz.1 h
      · exact hnz.2 h
    constructor
    · rw [QmlGraphicsColumn.loop]
      simp only [he, hinv, if_false, Bool.false_eq_true]
      have hg : SameGeom w.scene
          (if (w.scene a).y ≠ (v : ℚ) then positionY d v e w else w).scene := by
        split_ifs
        · exact sameGeom_positionY _ _ _ _
        · exact SameGeom.refl _
      rw [(hg a).2.1]
    · rw [QmlGraphicsRow.loop]
      simp only [he, hinv, if_false, Bool.false_eq_true]
      have hg : SameGeom w.scene
          (if (w.scene a).x ≠ (v : ℚ) then positionX d v e w else w).scene := by
        split_ifs
        · exact sameGeom_positionX _ _ _ _
        · exact SameGeom.refl _
      rw [(hg a).1]

/-- C20, witness: in the Column of `columnZeroD`, item 0 (width 0, height 10) is effectively
visible and `isInvisible`. -/
theorem zero_extent_skips_witness :
    effectivelyVisible (columnZeroW.scene 0) ∧ isInvisible (columnZeroW.scene 0) = true :=
  ⟨by decide!,
    (zero_extent_skips columnZeroD columnZeroW ⟨some 0, false, true⟩ 0 rfl (by decide!)).1.2
      (Or.inl (by decide!))⟩

/-- C20, counterexample: a Column over item 0 (effectively visible, width 0, height 10) and
item 1: item 0 is skipped although its height is not 0: it stays at y = 7 and item 1 is
placed at y = 0, the offset not advanced. -/
theorem zero_extent_skips_counterexample :
    effectivelyVisible (columnZeroW.scene 0) ∧ (columnZeroW.scene 0).height = 10 ∧
      ((QmlGraphicsColumn.doPositioning columnZeroD columnZeroW).scene 0).y = 7 ∧
      ((QmlGraphicsColumn.doPositioning columnZeroD columnZeroW).scene 1).y = 0 := by
  decide!

/-! ### Registry uniqueness -/

theorem mem_upsert_items (f : PositionedItem → PositionedItem)
    (hf : ∀ e, (f e).item = e.item) (c : Nat) (items : List PositionedItem) (x : Option Nat)
    (hx : x ∈ (upsert f c items).map (fun e => e.item)) :
    x ∈ items.map (fun e => e.item) ∨ x = some c := by
  induction items with
  | nil =>
    simp only [upsert, List.map_cons, List.map_nil, List.mem_singleton, hf] at hx
    exact Or.inr hx
  | cons e rest ih =>
    simp only [upsert] at hx
    split_ifs at hx with h
    · left
      simpa [hf] using hx
    · simp only [List.map_cons, List.mem_cons] at hx ⊢
      rcases hx with hx | hx
      · exact Or.inl (Or.inl hx)
      · rcases ih hx with h1 | h1
        · exact Or.inl (Or.inr h1)
        · exact Or.inr h1

theorem upsert_nodup (f : PositionedItem → PositionedItem)
    (hf : ∀ e, (f e).item = e.item) (c : Nat) (items : List PositionedItem)
    (hnd : (items.map (fun e => e.item)).Nodup) :
    ((upsert f c items).map (fun e => e.item)).Nodup := by
  induction items with
  | nil => simp [upsert]
  | cons e rest ih =>
    simp only [List.map_cons, List.nodup_cons] at hnd
    simp only [upsert]
    split_ifs with h
    · simpa [hf] using hnd
    · simp only [List.map_cons, List.nodup_cons]
      refine ⟨?_, ih hnd.2⟩
      intro hmem
      rcases mem_upsert_items f hf c rest _ hmem with h1 | h1
      · exact hnd.1 h1
      · exact h h1

theorem track_nodup (s : Nat → QmlGraphicsItem) (p : Positioner) (q : Option Nat)
    (hnd : (p.positionedItems.map (fun e => e.item)).Nodup) :
    ((QmlGraphicsBasePositioner.track s p q).positionedItems.map (fun e => e.item)).Nodup := by
  cases q with
  | none => exact hnd
  | some c =>
    rw [track_items]
    exact upsert_nodup _ (touch_item s c) c _ hnd

theorem trackAll_nodup (s : Nat → QmlGraphicsItem) (children : List (Option Nat))
    (p : Positioner) (hnd : (p.positionedItems.map (fun e => e.item)).Nodup) :
    ((trackAll s children p).positionedItems.map (fun e => e.item)).Nodup := by
  induction children generalizing p with
  | nil => exact hnd
  | cons q rest ih => exact ih _ (track_nodup s p q hnd)

theorem prePositioning_nodup (k : Layout) (children : List (Option Nat)) (p p1 : Positioner)
    (w w1 : World) (hnd : (p.positionedItems.map (fun e => e.item)).Nodup)
    (h : QmlGraphicsBasePositioner.prePositioning k children p w = some (p1, w1)) :
    (p1.positionedItems.map (fun e => e.item)).Nodup := by
  by_cases hc : p.componentComplete = true
  · rw [(prePositioning_registry k children p p1 w w1 hc h).1]
    exact trackAll_nodup _ _ _ hnd
  · unfold QmlGraphicsBasePositioner.prePositioning at h
    rw [if_pos (by simpa using hc)] at h
    simp only [Option.some.injEq, Prod.mk.injEq] at h
    rw [← h.1]
    exact hnd

theorem itemChange_nodup (k : Layout) (children : List (Option Nat))
    (change : GraphicsItemChange) (value : Option Nat) (p p1 : Positioner) (w w1 : World)
    (hnd : (p.positionedItems.map (fun e => e.item)).Nodup)
    (h : QmlGraphicsBasePositioner.itemChange k children change value p w = some (p1, w1)) :
    (p1.positionedItems.map (fun e => e.item)).Nodup := by
  unfold QmlGraphicsBasePositioner.itemChange at h
  cases change with
  | ItemChildAddedChange =>
    cases value with
    | none =>
      simp only [Option.some.injEq, Prod.mk.injEq] at h
      rw [← h.1]; exact hnd
    | some c => exact prePositioning_nodup k children p p1 w w1 hnd h
  | ItemChildRemovedChange =>
    cases value with
    | none =>
      simp only [Option.some.injEq, Prod.mk.injEq] at h
      rw [← h.1]; exact hnd
    | some c =>
      simp only [] at h
      refine prePositioning_nodup k children _ p1 w w1 ?_ h
      cases find p.positionedItems (PositionedItem.create c) with
      | none => exact hnd
      | some idx =>
        simp only []
        exact hnd.sublist ((List.eraseIdx_sublist _ _).map _)
  | OtherChange =>
    simp only [Option.some.injEq, Prod.mk.injEq] at h
    rw [← h.1]; exact hnd

theorem itemChange_total (k : Layout) (hk : ∀ c r, k ≠ Layout.Grid c r)
    (children : List (Option Nat)) (change : GraphicsItemChange) (value : Option Nat)
    (p : Positioner) (w : World) :
    (QmlGraphicsBasePositioner.itemChange k children change value p w).isSome = true := by
  unfold QmlGraphicsBasePositioner.itemChange
  cases change <;> cases value <;> first | rfl | exact prePositioning_total k hk _ _ _

theorem stepEvent_total (k : Layout) (hk : ∀ c r, k ≠ Layout.Grid c r) (ev : TreeEvent)
    (p : Positioner) : (stepEvent k ev p).isSome = true := by
  cases ev with
  | pass children w => exact prePositioning_total k hk _ _ _
  | childAdded value children w =>
    exact itemChange_total k hk children GraphicsItemChange.ItemChildAddedChange value p w
  | childRemoved value children w =>
    exact itemChange_total k hk children GraphicsItemChange.ItemChildRemovedChange value p w

/-- C16. Registry uniqueness: starting from an empty registry, after any sequence of
positioning passes, child-added and child-removed notifications (each with any children
list, repeated children included, and any heap) that complete, no two registry entries name
the same item; and the events do complete for Column, Row and Flow. -/
theorem registry_unique (k : Layout) (events : List TreeEvent) (p : Positioner)
    (hempty : p.positionedItems = []) :
    (∀ pn, runEvents k events p = some pn →
      (pn.positionedItems.map (fun e => e.item)).Nodup) ∧
    ((∀ c r, k ≠ Layout.Grid c r) → (runEvents k events p).isSome = true) := by
  have hnd0 : (p.positionedItems.map (fun e => e.item)).Nodup := by rw [hempty]; simp
  clear hempty
  constructor
  · intro pn
    induction events generalizing p with
    | nil =>
      intro h
      simp only [runEvents, Option.some.injEq] at h
      rw [← h]; exact hnd0
    | cons ev rest ih =>
      intro h
      simp only [runEvents] at h
      cases hs : stepEvent k ev p with
      | none => rw [hs] at h; cases h
      | some r =>
        rw [hs] at h
        refine ih r.1 ?_ h
        cases ev with
        | pass children w => exact prePositioning_nodup k children p r.1 w r.2 hnd0 hs
        | childAdded value children w =>
          exact itemChange_nodup k children GraphicsItemChange.ItemChildAddedChange value p
            r.1 w r.2 hnd0 hs
        | childRemoved value children w =>
          exact itemChange_nodup k children GraphicsItemChange.ItemChildRemovedChange value p
            r.1 w r.2 hnd0 hs
  · intro hk
    clear hnd0
    induction events generalizing p with
    | nil => rfl
    | cons ev rest ih =>
      have h := stepEvent_total k hk ev p
      simp only [runEvents]
      cases hs : stepEvent k ev p with
      | none => rw [hs] at h; cases h
      | some r => exact ih r.1

/-- C16, witness: a Column with an empty registry; a pass whose children list names item 0
twice, a removal of item 0, and its re-addition: the registry has no duplicate. -/
theorem registry_unique_witness :
    noveltyP0.positionedItems = [] ∧
      (((runEvents Layout.Column
        [TreeEvent.pass [some 0, some 0, some 1] noveltyW,
          TreeEvent.childRemoved (some 0) [some 1] noveltyW,
          TreeEvent.childAdded (some 0) [some 0, some 1] noveltyW] noveltyP0).getD
        noveltyP0).positionedItems.map (fun e => e.item)).Nodup :=
  ⟨rfl, (registry_unique Layout.Column _ noveltyP0 rfl).1 _
    (option_eq_getD _ _ (by decide!))⟩

/-! ### Entries, flags and subscriptions after a pass -/

theorem entryOf_mem (items : List PositionedItem) (a : Nat) (e : PositionedItem)
    (h : entryOf items a = some e) : e ∈ items ∧ e.item = some a := by
  induction items with
  | nil => simp [entryOf_nil] at h
  | cons e0 rest ih =>
    rw [entryOf_cons] at h
    split_ifs at h with h0
    · simp only [Option.some.injEq] at h
      subst h
      exact ⟨List.mem_cons_self _ _, h0⟩
    · exact ⟨List.mem_cons_of_mem _ (ih h).1, (ih h).2⟩

theorem entryOf_none_iff (items : List PositionedItem) (a : Nat) :
    entryOf items a = none ↔ some a ∉ items.map (fun e => e.item) := by
  induction items with
  | nil => simp [entryOf_nil]
  | cons e0 rest ih =>
    rw [entryOf_cons]
    split_ifs with h0
    · simp [h0]
    · simp only [List.map_cons, List.mem_cons, not_or]
      rw [ih]
      exact ⟨fun h => ⟨fun h' => h0 h'.symm, h⟩, fun h => h.2⟩

theorem entryOf_of_mem_nodup (items : List PositionedItem) (a : Nat) (e : PositionedItem)
    (hnd : (items.map (fun e => e.item)).Nodup) (he : e ∈ items) (ha : e.item = some a) :
    entryOf items a = some e := by
  induction items with
  | nil => cases he
  | cons e0 rest ih =>
    simp only [List.map_cons, List.nodup_cons] at hnd
    rw [entryOf_cons]
    rcases List.mem_cons.1 he with rfl | he'
    · rw [if_pos ha]
    · have hne : ¬ e0.item = some a := by
        intro h0
        apply hnd.1
        rw [h0, ← ha]
        exact List.mem_map_of_mem _ he'
      rw [if_neg hne]
      exact ih hnd.2 he'

theorem find_none_iff (items : List PositionedItem) (c : Nat) :
    find items (PositionedItem.create c) = none ↔ entryOf items c = none := by
  induction items with
  | nil => simp [find, entryOf_nil]
  | cons e0 rest ih =>
    rw [entryOf_cons]
    simp only [find, PositionedItem.create] at ih ⊢
    split_ifs with h0
    · simp
    · rw [← ih]
      cases find rest ⟨some c, false, false⟩ <;> simp

theorem track_watched (s : Nat → QmlGraphicsItem) (p : Positioner) (c : Nat) :
    (QmlGraphicsBasePositioner.track s p (some c)).watched =
      if entryOf p.positionedItems c = none then p.watched ++ [c] else p.watched := by
  have hiff := find_none_iff p.positionedItems c
  unfold QmlGraphicsBasePositioner.track
  simp only []
  cases hf : find p.positionedItems (PositionedItem.create c) with
  | none =>
    rw [if_pos (hiff.1 hf)]
    simp only []
    split_ifs <;> (try rfl) <;> split <;> (try rfl) <;> split_ifs <;> rfl
  | some i =>
    have hne : ¬ entryOf p.positionedItems c = none := by
      intro h0
      rw [hiff.2 h0] at hf
      cases hf
    rw [if_neg hne]
    simp only []
    split_ifs <;> (try rfl) <;> split <;> (try rfl) <;> split_ifs <;> rfl

theorem trackAll_watched_count (s : Nat → QmlGraphicsItem) (children : List (Option Nat))
    (p : Positioner) (a : Nat) :
    (trackAll s children p).watched.count a =
      p.watched.count a +
        (if some a ∈ children ∧ entryOf p.positionedItems a = none then 1 else 0) := by
  induction children generalizing p with
  | nil => simp [trackAll]
  | cons q rest ih =>
    have hstep : trackAll s (q :: rest) p = trackAll s rest (QmlGraphicsBasePositioner.track s p q) :=
      rfl
    rw [hstep, ih]
    cases q with
    | none =>
      have : QmlGraphicsBasePositioner.track s p none = p := rfl
      simp [this]
    | some c =>
      rw [track_watched, track_items]
      by_cases hca : c = a
      · subst hca
        rw [entryOf_upsert_same _ (touch_item s c)]
        by_cases hent : entryOf p.positionedItems c = none
        · simp [hent]
        · simp [hent]
      · have hne : a ≠ c := fun h => hca h.symm
        rw [entryOf_upsert_other _ (touch_item s c) c a hne]
        have hmem : (some a ∈ some c :: rest) ↔ some a ∈ rest := by
          simp [hne]
        have hcount : ∀ l : List Nat, (l ++ [c]).count a = l.count a := by
          intro l
          rw [List.count_append]
          simp [List.count_cons, hca]
        simp only [hmem]
        split_ifs <;> simp_all

theorem prePositioning_watched (k : Layout) (children : List (Option Nat)) (p p1 : Positioner)
    (w w1 : World) (hc : p.componentComplete = true)
    (h : QmlGraphicsBasePositioner.prePositioning k children p w = some (p1, w1)) :
    p1.watched = (trackAll w.scene children { p with queuedPositioning := false }).watched := by
  unfold QmlGraphicsBasePositioner.prePositioning at h
  rw [if_neg (by simp [hc])] at h
  simp only [] at h
  cases hd : doPositioning k
      (List.foldl (QmlGraphicsBasePositioner.track w.scene) { p with queuedPositioning := false }
        children) w with
  | none => rw [hd] at h; cases h
  | some w2 =>
    rw [hd] at h
    simp only [Option.some.injEq, Prod.mk.injEq] at h
    obtain ⟨h1, _⟩ := h
    subst h1
    rfl

theorem touch_hidden (s : Nat → QmlGraphicsItem) (a : Nat) (e : PositionedItem)
    (hvis : ¬ effectivelyVisible (s a)) : (touch s a e).isVisible = false := by
  have hv : (s a).opacity ≤ 0 ∨ (s a).visible = false := by
    unfold effectivelyVisible at hvis
    by_cases ho : (s a).opacity ≤ 0
    · exact Or.inl ho
    · right
      have : ¬ (s a).visible = true := fun hv => hvis ⟨not_le.1 ho, hv⟩
      simpa using this
  simp [touch, hv]

theorem touch_iterate_hidden (s : Nat → QmlGraphicsItem) (a : Nat) (n : Nat)
    (e : PositionedItem) (hvis : ¬ effectivelyVisible (s a)) :
    ((touch s a)^[n + 1] e).isVisible = false := by
  rw [Function.iterate_succ_apply']
  exact touch_hidden s a _ hvis

theorem count_item_zero (l : List (Option Nat)) (x : Option Nat) (hx : x ∉ l) :
    l.count x = 0 := by
  induction l with
  | nil => rfl
  | cons y rest ih =>
    simp only [List.mem_cons, not_or] at hx
    rw [List.count_cons, ih hx.2]
    have : (y == x) = false := by
      cases hyx : y == x
      · rfl
      · exact absurd (eq_of_beq hyx).symm hx.1
    simp [this]

theorem count_item_one (l : List (Option Nat)) (x : Option Nat) (hnd : l.Nodup) (hx : x ∈ l) :
    l.count x = 1 := by
  induction l with
  | nil => cases hx
  | cons y rest ih =>
    simp only [List.nodup_cons] at hnd
    rw [List.count_cons]
    by_cases hyx : y = x
    · subst hyx
      rw [count_item_zero _ _ hnd.1]
      simp
    · have hx2 : x ∈ rest := by
        rcases List.mem_cons.1 hx with h | h
        · exact absurd h.symm hyx
        · exact h
      rw [ih hnd.2 hx2]
      have : (y == x) = false := by
        cases hb : y == x
        · rfl
        · exact absurd (eq_of_beq hb) hyx
      simp [this]

/-- C19. Hidden items keep their entry: a pass keeps an entry for every item the registry
held; after a completed pass on a registry without duplicates every current child item has
exactly one entry, the entry of a child that is not effectively visible has
`isVisible = false`, and the positioner gains one subscription to an item exactly when the
item is a child without an entry before the pass, and none otherwise. -/
theorem hidden_items_keep_entry (k : Layout) (children : List (Option Nat)) (p p1 : Positioner)
    (w w1 : World) (hc : p.componentComplete = true)
    (hnd : (p.positionedItems.map (fun e => e.item)).Nodup)
    (h : QmlGraphicsBasePositioner.prePositioning k children p w = some (p1, w1)) :
    (∀ e ∈ p.positionedItems, ∃ e1 ∈ p1.positionedItems, e1.item = e.item) ∧
    (∀ a, some a ∈ children → (p1.positionedItems.map (fun e => e.item)).count (some a) = 1) ∧
    (∀ a, some a ∈ children → ¬ effectivelyVisible (w.scene a) →
      ∀ e ∈ p1.positionedItems, e.item = some a → e.isVisible = false) ∧
    (∀ a, p1.watched.count a = p.watched.count a +
      (if some a ∈ children ∧ entryOf p.positionedItems a = none then 1 else 0)) := by
  obtain ⟨hreg, _⟩ := prePositioning_registry k children p p1 w w1 hc h
  have hnd1 : (p1.positionedItems.map (fun e => e.item)).Nodup :=
    prePositioning_nodup k children p p1 w w1 hnd h
  have hentry : ∀ a, some a ∈ children → ∃ n, entryOf p1.positionedItems a =
      some ((touch w.scene a)^[n + 1]
        ((entryOf p.positionedItems a).getD (PositionedItem.create a))) := by
    intro a ha
    have hcount : children.count (some a) ≠ 0 := by
      have := List.count_pos_iff.2 ha
      omega
    refine ⟨children.count (some a) - 1, ?_⟩
    rw [hreg, trackAll_entry, if_neg hcount]
    have : children.count (some a) - 1 + 1 = children.count (some a) := by omega
    rw [this]
  refine ⟨prePositioning_keeps_items k children p p1 w w1 h, ?_, ?_, ?_⟩
  · intro a ha
    obtain ⟨n, hn⟩ := hentry a ha
    obtain ⟨hmem, hitem⟩ := entryOf_mem _ _ _ hn
    have hin : some a ∈ p1.positionedItems.map (fun e => e.item) := by
      rw [← hitem]
      exact List.mem_map_of_mem _ hmem
    exact count_item_one _ _ hnd1 hin
  · intro a ha hvis e he hitem
    obtain ⟨n, hn⟩ := hentry a ha
    have := entryOf_of_mem_nodup _ a e hnd1 he hitem
    rw [hn] at this
    simp only [Option.some.injEq] at this
    rw [← this]
    exact touch_iterate_hidden _ _ _ _ hvis
  · intro a
    rw [prePositioning_watched k children p p1 w w1 hc h, trackAll_watched_count]

/-- C19, witness: a completed Column tracking item 0, pass over the children 0 and 1 of which
item 1 is hidden. -/
theorem hidden_items_keep_entry_witness :
    keepD.componentComplete = true ∧
    (keepD.positionedItems.map (fun e => e.item)).Nodup ∧
    QmlGraphicsBasePositioner.prePositioning Layout.Column [some 0, some 1] keepD keepW =
      some (keepP1, keepW1) ∧
    ((∀ e ∈ keepD.positionedItems, ∃ e1 ∈ keepP1.positionedItems, e1.item = e.item) ∧
    (∀ a, some a ∈ [some 0, some 1] →
      (keepP1.positionedItems.map (fun e => e.item)).count (some a) = 1) ∧
    (∀ a, some a ∈ [some 0, some 1] → ¬ effectivelyVisible (keepW.scene a) →
      ∀ e ∈ keepP1.positionedItems, e.item = some a → e.isVisible = false) ∧
    (∀ a, keepP1.watched.count a = keepD.watched.count a +
      (if some a ∈ [some 0, some 1] ∧ entryOf keepD.positionedItems a = none then 1 else 0))) :=
  ⟨rfl, by decide,
    option_pair_eq _ _ _ (prePositioning_total _ (by intro c r h; cases h) _ _ _),
    hidden_items_keep_entry Layout.Column [some 0, some 1] keepD keepP1 keepW keepW1 rfl
      (by decide)
      (option_pair_eq _ _ _ (prePositioning_total _ (by intro c r h; cases h) _ _ _))⟩

/-! ### Removal of a child -/

theorem filter_absent (items : List PositionedItem) (c : Nat)
    (h : some c ∉ items.map (fun e => e.item)) :
    items.filter (fun e => decide (e.item ≠ some c)) = items := by
  rw [List.filter_eq_self]
  intro e he
  have : e.item ≠ some c := by
    intro h0
    apply h
    rw [← h0]
    exact List.mem_map_of_mem _ he
  simpa using this

theorem find_eraseIdx (items : List PositionedItem) (c idx : Nat)
    (hnd : (items.map (fun e => e.item)).Nodup)
    (h : find items (PositionedItem.create c) = some idx) :
    items.eraseIdx idx = items.filter (fun e => decide (e.item ≠ some c)) := by
  induction items generalizing idx with
  | nil => simp [find] at h
  | cons e0 rest ih =>
    simp only [List.map_cons, List.nodup_cons] at hnd
    simp only [find, PositionedItem.create] at h
    by_cases h0 : e0.item = some c
    · rw [if_pos h0] at h
      simp only [Option.some.injEq] at h
      subst h
      rw [List.eraseIdx_cons_zero, List.filter_cons_of_neg (by simp [h0])]
      rw [filter_absent]
      rw [← h0]
      exact hnd.1
    · rw [if_neg h0] at h
      cases hf : find rest ⟨some c, false, false⟩ with
      | none => rw [hf] at h; cases h
      | some i =>
        rw [hf] at h
        simp only [Option.some.injEq] at h
        subst h
        rw [List.eraseIdx_cons_succ, List.filter_cons_of_pos (by simp [h0])]
        rw [ih i hnd.2 hf]

theorem entryOf_filter_self (items : List PositionedItem) (c : Nat) :
    entryOf (items.filter (fun e => decide (e.item ≠ some c))) c = none := by
  rw [entryOf_none_iff]
  intro h
  obtain ⟨e, he, hitem⟩ := List.mem_map.1 h
  have := (List.mem_filter.1 he).2
  simp [hitem] at this

theorem entryOf_filter_other (items : List PositionedItem) (c a : Nat) (hne : a ≠ c) :
    entryOf (items.filter (fun e => decide (e.item ≠ some c))) a = entryOf items a := by
  induction items with
  | nil => rfl
  | cons e0 rest ih =>
    by_cases h0 : e0.item = some c
    · rw [List.filter_cons_of_neg (by simp [h0]), ih, entryOf_cons, if_neg]
      rw [h0]
      intro h
      exact hne (Option.some.inj h).symm
    · rw [List.filter_cons_of_pos (by simp [h0]), entryOf_cons, entryOf_cons, ih]

theorem prePositioning_incomplete (k : Layout) (children : List (Option Nat)) (p : Positioner)
    (w : World) (hc : p.componentComplete = false) :
    QmlGraphicsBasePositioner.prePositioning k children p w = some (p, w) := by
  unfold QmlGraphicsBasePositioner.prePositioning
  rw [if_pos hc]

theorem prePositioning_entry (k : Layout) (children : List (Option Nat)) (p p1 : Positioner)
    (w w1 : World) (a : Nat) (ha : some a ∉ children)
    (h : QmlGraphicsBasePositioner.prePositioning k children p w = some (p1, w1)) :
    entryOf p1.positionedItems a = entryOf p.positionedItems a := by
  by_cases hc : p.componentComplete = true
  · obtain ⟨hreg, _⟩ := prePositioning_registry k children p p1 w w1 hc h
    rw [hreg, trackAll_entry, if_pos (List.count_eq_zero_of_not_mem ha)]
  · have hc2 : p.componentComplete = false := by simpa using hc
    rw [prePositioning_incomplete k children p w hc2] at h
    simp only [Option.some.injEq, Prod.mk.injEq] at h
    rw [← h.1]

theorem prePositioning_watched_absent (k : Layout) (children : List (Option Nat))
    (p p1 : Positioner) (w w1 : World) (a : Nat) (ha : some a ∉ children)
    (h : QmlGraphicsBasePositioner.prePositioning k children p w = some (p1, w1)) :
    p1.watched.count a = p.watched.count a := by
  by_cases hc : p.componentComplete = true
  · rw [prePositioning_watched k children p p1 w w1 hc h, trackAll_watched_count]
    simp [ha]
  · have hc2 : p.componentComplete = false := by simpa using hc
    rw [prePositioning_incomplete k children p w hc2] at h
    simp only [Option.some.injEq, Prod.mk.injEq] at h
    rw [← h.1]

theorem prePositioning_order (k : Layout) (children : List (Option Nat))
    (p p1 : Positioner) (w w1 : World)
    (h : QmlGraphicsBasePositioner.prePositioning k children p w = some (p1, w1)) :
    ∃ extra, p1.positionedItems.map (fun e => e.item) =
      p.positionedItems.map (fun e => e.item) ++ extra := by
  by_cases hc : p.componentComplete = true
  · obtain ⟨hreg, _⟩ := prePositioning_registry k children p p1 w w1 hc h
    rw [hreg]
    exact trackAll_keeps_items w.scene children { p with queuedPositioning := false }
  · have hc2 : p.componentComplete = false := by simpa using hc
    rw [prePositioning_incomplete k children p w hc2] at h
    simp only [Option.some.injEq, Prod.mk.injEq] at h
    rw [← h.1]
    exact ⟨[], by simp⟩

/-- C18, amended. Removal of a tracked child `c` (registry without duplicates, `c` no longer
among the children): `itemChange` is the pass of the positioner with the entry of `c` dropped
and one subscription to `c` removed.  Hence the registry has no entry for `c`, the number of
subscriptions to `c` went down by one, the other entries keep their relative order (entries
the pass creates come after them), an entry whose item is not among the children keeps its
flags, an entry whose item is among the children has the flags the pass gives it (they may
differ from the flags before the removal), nothing else changes when the component is not
complete, and a following pass over children without `c` does not re-create the entry. -/
theorem removal_consistency (k : Layout) (children : List (Option Nat)) (c : Nat)
    (p p1 : Positioner) (w w1 : World)
    (hnd : (p.positionedItems.map (fun e => e.item)).Nodup)
    (htracked : entryOf p.positionedItems c ≠ none) (hgone : some c ∉ children)
    (h : QmlGraphicsBasePositioner.itemChange k children
      GraphicsItemChange.ItemChildRemovedChange (some c) p w = some (p1, w1)) :
    QmlGraphicsBasePositioner.prePositioning k children
      { p with watched := p.watched.erase c,
               positionedItems := p.positionedItems.filter (fun e => decide (e.item ≠ some c)) }
      w = some (p1, w1) ∧
    entryOf p1.positionedItems c = none ∧
    p1.watched.count c = p.watched.count c - 1 ∧
    (∃ extra, p1.positionedItems.map (fun e => e.item) =
      (p.positionedItems.filter (fun e => decide (e.item ≠ some c))).map (fun e => e.item) ++
        extra) ∧
    (∀ a, a ≠ c → some a ∉ children →
      entryOf p1.positionedItems a = entryOf p.positionedItems a) ∧
    (p.componentComplete = true → ∀ a, some a ∈ children →
      entryOf p1.positionedItems a = some ((touch w.scene a)^[children.count (some a)]
        ((entryOf p.positionedItems a).getD (PositionedItem.create a)))) ∧
    (p.componentComplete = false →
      p1.positionedItems = p.positionedItems.filter (fun e => decide (e.item ≠ some c))) ∧
    (∀ children2 w2 p2 w3, some c ∉ children2 →
      QmlGraphicsBasePositioner.prePositioning k children2 p1 w2 = some (p2, w3) →
      entryOf p2.positionedItems c = none) := by
  have hpass : QmlGraphicsBasePositioner.prePositioning k children
      { p with watched := p.watched.erase c,
               positionedItems := p.positionedItems.filter (fun e => decide (e.item ≠ some c)) }
      w = some (p1, w1) := by
    unfold QmlGraphicsBasePositioner.itemChange at h
    simp only [] at h
    cases hf : find p.positionedItems (PositionedItem.create c) with
    | none => exact absurd ((find_none_iff _ _).1 hf) htracked
    | some idx =>
      rw [hf] at h
      simp only [] at h
      rw [find_eraseIdx _ _ _ hnd hf] at h
      exact h
  have hnone : entryOf p1.positionedItems c = none := by
    rw [prePositioning_entry k children _ p1 w w1 c hgone hpass]
    exact entryOf_filter_self _ _
  refine ⟨hpass, hnone, ?_, ?_, ?_, ?_, ?_, ?_⟩
  · rw [prePositioning_watched_absent k children _ p1 w w1 c hgone hpass]
    exact List.count_erase_self _ _
  · exact prePositioning_order k children _ p1 w w1 hpass
  · intro a hne ha
    rw [prePositioning_entry k children _ p1 w w1 a ha hpass]
    exact entryOf_filter_other _ _ _ hne
  · intro hc a ha
    have hne : a ≠ c := by
      intro hac
      rw [hac] at ha
      exact hgone ha
    obtain ⟨hreg, _⟩ := prePositioning_registry k children
      { p with watched := p.watched.erase c,
               positionedItems := p.positionedItems.filter (fun e => decide (e.item ≠ some c)) }
      p1 w w1 hc hpass
    have hcount : children.count (some a) ≠ 0 := by
      have := List.count_pos_iff.2 ha
      omega
    rw [hreg, trackAll_entry, if_neg hcount]
    rw [entryOf_filter_other _ _ _ hne]
  · intro hc
    rw [prePositioning_incomplete k children
      { p with watched := p.watched.erase c,
               positionedItems := p.positionedItems.filter (fun e => decide (e.item ≠ some c)) }
      w hc] at hpass
    simp only [Option.some.injEq, Prod.mk.injEq] at hpass
    rw [← hpass.1]
  · intro children2 w2 p2 w3 hgone2 h2
    rw [prePositioning_entry k children2 p1 p2 w2 w3 c hgone2 h2]
    exact hnone

/-- C18, counterexample: in the Column `noveltyP1` the entries of items 0 and 1 are new and
visible; item 1 is tracked and is removed, item 0 remains the only child.  After `itemChange`
the entry of item 0 has `isNew = false`: the flags of another entry changed. -/
theorem removal_consistency_counterexample :
    (noveltyP1.positionedItems.map (fun e => e.item)).Nodup ∧
    entryOf noveltyP1.positionedItems 1 ≠ none ∧
    QmlGraphicsBasePositioner.itemChange Layout.Column [some 0]
      GraphicsItemChange.ItemChildRemovedChange (some 1) noveltyP1 noveltyW1 =
      some (removalP1, removalW1) ∧
    entryOf noveltyP1.positionedItems 0 = some ⟨some 0, true, true⟩ ∧
    entryOf removalP1.positionedItems 0 = some ⟨some 0, false, true⟩ :=
  ⟨by decide!, by decide!,
    option_pair_eq _ _ _ (itemChange_total _ (by intro c r h; cases h) _ _ _ _ _),
    by decide!, by decide!⟩

/-- C18, witness: the removal of the tracked child 1 from the Column `noveltyP1`. -/
theorem removal_consistency_witness :
    (noveltyP1.positionedItems.map (fun e => e.item)).Nodup ∧
    entryOf noveltyP1.positionedItems 1 ≠ none ∧ some 1 ∉ [some 0] ∧
    QmlGraphicsBasePositioner.itemChange Layout.Column [some 0]
      GraphicsItemChange.ItemChildRemovedChange (some 1) noveltyP1 noveltyW1 =
      some (removalP1, removalW1) ∧
    entryOf removalP1.positionedItems 1 = none ∧
    removalP1.watched.count 1 = noveltyP1.watched.count 1 - 1 :=
  ⟨by decide!, by decide!, by decide,
    option_pair_eq _ _ _ (itemChange_total _ (by intro c r h; cases h) _ _ _ _ _),
    (removal_consistency Layout.Column [some 0] 1 noveltyP1 removalP1 noveltyW1 removalW1
      (by decide!) (by decide!) (by decide)
      (option_pair_eq _ _ _ (itemChange_total _ (by intro c r h; cases h) _ _ _ _ _))).2.1,
    (removal_consistency Layout.Column [some 0] 1 noveltyP1 removalP1 noveltyW1 removalW1
      (by decide!) (by decide!) (by decide)
      (option_pair_eq _ _ _ (itemChange_total _ (by intro c r h; cases h) _ _ _ _ _))).2.2.1⟩

/-! ### Layout order and sorted order -/

/-- C17. A Column with an empty registry runs a pass over the children 1 and 2 (keys 10 and
20); then child 0 is added with key 5 and `itemChange` runs a pass.  The sorted children of
that pass are 0, 1, 2, but the registry is 1, 2, 0: `doPositioning` visits item 0 last and
places it at y = 20, below items 1 (y = 0) and 2 (y = 10). -/
theorem layout_order_is_registry_order :
    orderFirst.isSome = true ∧ orderSecond.isSome = true ∧
    sortedChildren [(10, some 1), (20, some 2), (5, some 0)] = [some 0, some 1, some 2] ∧
    orderP2.positionedItems.map (fun e => e.item) = [some 1, some 2, some 0] ∧
    (laid orderW2.scene orderP2.positionedItems).map (fun l => l.addr) = [1, 2, 0] ∧
    (orderW2.scene 0).y = 20 ∧ (orderW2.scene 1).y = 0 ∧ (orderW2.scene 2).y = 10 := by
  decide!

/-! ### The pass changes x and y only -/

theorem doPositioning_sameGeom (k : Layout) (d : Positioner) (w w1 : World)
    (h : doPositioning k d w = some w1) : SameGeom w.scene w1.scene := by
  cases k with
  | Column =>
    simp only [doPositioning, QmlGraphicsColumn.doPositioning, Option.some.injEq] at h
    rw [← h, column_loop_eq]
    exact sameGeom_placeAll _ _ _
  | Row =>
    simp only [doPositioning, QmlGraphicsRow.doPositioning, Option.some.injEq] at h
    rw [← h, row_loop_eq]
    exact sameGeom_placeAll _ _ _
  | Flow f =>
    simp only [doPositioning, QmlGraphicsFlow.doPositioning, Option.some.injEq] at h
    rw [← h, flow_loop_eq]
    exact sameGeom_placeAll _ _ _
  | Grid c r =>
    simp only [doPositioning, QmlGraphicsGrid.doPositioning] at h
    cases hd : QmlGraphicsGrid.dims c r d.positionedItems.length with
    | none => rw [hd] at h; cases h
    | some cr =>
      obtain ⟨c1, r1⟩ := cr
      rw [hd] at h
      simp only [] at h
      cases hm : QmlGraphicsGrid.measure w.scene d.positionedItems c1 r1 with
      | none => rw [hm] at h; cases h
      | some m =>
        rw [hm] at h
        simp only [] at h
        rw [grid_loop_eq] at h
        cases hp : gridPlan d.spacing c1 r1 m.maxColWidth m.maxRowHeight
            (laid w.scene d.positionedItems) 0 0 0 0 with
        | none => rw [hp] at h; cases h
        | some ps =>
          rw [hp] at h
          simp only [Option.map_some', Option.some.injEq] at h
          rw [← h]
          exact sameGeom_placeAll _ _ _

theorem applyAction_sameGeom (s : Nat → QmlGraphicsItem) (act : QmlAction) :
    SameGeom s (applyAction s act) := by
  unfold applyAction
  cases act.target with
  | none => exact SameGeom.refl _
  | some a =>
    simp only []
    split_ifs
    · exact sameGeom_setX _ _ _
    · exact sameGeom_setY _ _ _
    · exact SameGeom.refl _

theorem transition_sameGeom (actions : List QmlAction) (tr : Bool) (s : Nat → QmlGraphicsItem) :
    SameGeom s (transition actions tr s) := by
  unfold transition
  split_ifs
  · exact SameGeom.refl _
  · induction actions generalizing s with
    | nil => exact SameGeom.refl _
    | cons a rest ih => exact (applyAction_sameGeom s a).trans (ih _)

theorem finish_sameGeom (d : Positioner) (w : World) :
    SameGeom w.scene (finishApplyTransitions d w).scene := by
  unfold finishApplyTransitions
  exact (transition_sameGeom _ _ _).trans (transition_sameGeom _ _ _)

/-- The parts of a completed pass: the registry update, the layout, the transitions, the
implicit size. -/
theorem prePositioning_parts (k : Layout) (children : List (Option Nat)) (p p1 : Positioner)
    (w w1 : World) (hc : p.componentComplete = true)
    (h : QmlGraphicsBasePositioner.prePositioning k children p w = some (p1, w1)) :
    ∃ w0, doPositioning k (trackAll w.scene children { p with queuedPositioning := false }) w =
        some w0 ∧
      w1 = (if (trackAll w.scene children { p with queuedPositioning := false }).addTransition ∨
          (trackAll w.scene children { p with queuedPositioning := false }).moveTransition
        then finishApplyTransitions
          (trackAll w.scene children { p with queuedPositioning := false }) w0 else w0) ∧
      p1 = { trackAll w.scene children { p with queuedPositioning := false } with
        implicitHeight := (implicitSize w1.scene
          (trackAll w.scene children { p with queuedPositioning := false }).positionedItems
          (0, 0)).1,
        implicitWidth := (implicitSize w1.scene
          (trackAll w.scene children { p with queuedPositioning := false }).positionedItems
          (0, 0)).2 } := by
  unfold QmlGraphicsBasePositioner.prePositioning at h
  rw [if_neg (by simp [hc])] at h
  simp only [] at h
  cases hd : doPositioning k
      (List.foldl (QmlGraphicsBasePositioner.track w.scene) { p with queuedPositioning := false }
        children) w with
  | none => rw [hd] at h; cases h
  | some w0 =>
    rw [hd] at h
    simp only [Option.some.injEq, Prod.mk.injEq] at h
    obtain ⟨h1, h2⟩ := h
    refine ⟨w0, hd, h2.symm, ?_⟩
    rw [← h1, ← h2]
    rfl

theorem pass_sameGeom (k : Layout) (children : List (Option Nat)) (p p1 : Positioner)
    (w w1 : World)
    (h : QmlGraphicsBasePositioner.prePositioning k children p w = some (p1, w1)) :
    SameGeom w.scene w1.scene := by
  by_cases hc : p.componentComplete = true
  · obtain ⟨w0, hd, hw, _⟩ := prePositioning_parts k children p p1 w w1 hc h
    have h0 := doPositioning_sameGeom k _ w w0 hd
    rw [hw]
    split_ifs
    · exact h0.trans (finish_sameGeom _ _)
    · exact h0
  · have hc2 : p.componentComplete = false := by simpa using hc
    rw [prePositioning_incomplete k children p w hc2] at h
    simp only [Option.some.injEq, Prod.mk.injEq] at h
    rw [← h.2]
    exact SameGeom.refl _

/-! ### Implicit size -/

theorem trackAll_items_mem (s : Nat → QmlGraphicsItem) (children : List (Option Nat))
    (p : Positioner) (x : Option Nat)
    (hx : x ∈ (trackAll s children p).positionedItems.map (fun e => e.item)) :
    x ∈ p.positionedItems.map (fun e => e.item) ∨ (x ∈ children ∧ x ≠ none) := by
  induction children generalizing p with
  | nil => exact Or.inl hx
  | cons q rest ih =>
    have hstep : trackAll s (q :: rest) p = trackAll s rest (QmlGraphicsBasePositioner.track s p q) :=
      rfl
    rw [hstep] at hx
    rcases ih _ hx with h1 | h1
    · cases q with
      | none => exact Or.inl h1
      | some c =>
        rw [track_items] at h1
        rcases mem_upsert_items _ (touch_item s c) c _ x h1 with h2 | h2
        · exact Or.inl h2
        · right
          rw [h2]
          exact ⟨List.mem_cons_self _ _, by simp⟩
    · exact Or.inr ⟨List.mem_cons_of_mem _ h1.1, h1.2⟩

theorem touch_flag (s : Nat → QmlGraphicsItem) (a : Nat) (e : PositionedItem) :
    (touch s a e).isVisible = decide (effectivelyVisible (s a)) := by
  by_cases hvis : effectivelyVisible (s a)
  · have hv : ¬ ((s a).opacity ≤ 0 ∨ (s a).visible = false) := by
      unfold effectivelyVisible at hvis
      intro h
      rcases h with h | h
      · exact absurd hvis.1 (not_lt.2 h)
      · rw [hvis.2] at h
        cases h
    unfold touch
    rw [if_neg hv]
    by_cases he : e.isVisible = false
    · rw [if_pos he]
      simp [hvis]
    · rw [if_neg he]
      have : e.isVisible = true := by simpa using he
      simp [hvis, this]
  · rw [touch_hidden s a e hvis]
    simp [hvis]

theorem touch_iterate_flag (s : Nat → QmlGraphicsItem) (a : Nat) (n : Nat) (e : PositionedItem) :
    ((touch s a)^[n + 1] e).isVisible = decide (effectivelyVisible (s a)) := by
  rw [Function.iterate_succ_apply']
  exact touch_flag s a _

theorem effectivelyVisible_congr {s t : Nat → QmlGraphicsItem} (h : SameGeom s t) (a : Nat) :
    effectivelyVisible (t a) ↔ effectivelyVisible (s a) := by
  unfold effectivelyVisible
  rw [(h a).2.2.1, (h a).2.2.2]

theorem implicitSize_eq (s : Nat → QmlGraphicsItem) (items : List PositionedItem) (hw : ℚ × ℚ) :
    implicitSize s items hw =
      (((items.filterMap (fun e => if e.isVisible then e.item else none)).map
          (fun a => (s a).y + (s a).height)).foldl max hw.1,
        ((items.filterMap (fun e => if e.isVisible then e.item else none)).map
          (fun a => (s a).x + (s a).width)).foldl max hw.2) := by
  induction items generalizing hw with
  | nil => rfl
  | cons e rest ih =>
    unfold implicitSize
    by_cases hv : e.isVisible = true
    · cases hi : e.item with
      | none => simp only [hv, if_true, ih, List.filterMap_cons, hi]
      | some a =>
        simp only [hv, if_true, ih, List.filterMap_cons, hi, List.map_cons, List.foldl_cons]
    · have hv2 : e.isVisible = false := by simpa using hv
      simp only [hv2, Bool.false_eq_true, if_false, ih, List.filterMap_cons]

theorem flagged_eq_visible (s : Nat → QmlGraphicsItem) (items : List PositionedItem)
    (h : ∀ e ∈ items, ∀ a, e.item = some a → e.isVisible = decide (effectivelyVisible (s a))) :
    items.filterMap (fun e => if e.isVisible then e.item else none) = visibleItems s items := by
  unfold visibleItems
  induction items with
  | nil => rfl
  | cons e rest ih =>
    have ih2 := ih (fun e he => h e (List.mem_cons_of_mem _ he))
    cases hi : e.item with
    | none =>
      simp only [List.filterMap_cons, hi, ite_self]
      exact ih2
    | some a =>
      have hflag := h e (List.mem_cons_self _ _) a hi
      by_cases hvis : effectivelyVisible (s a)
      · have hd : decide (effectivelyVisible (s a)) = true := by simp [hvis]
        simp only [List.filterMap_cons, hi, hflag, hd, if_true, List.filter_cons_of_pos]
        rw [← ih2]
      · have hd : decide (effectivelyVisible (s a)) = false := by simp [hvis]
        simp only [List.filterMap_cons, hi, hflag, hd, Bool.false_eq_true, if_false]
        rw [List.filter_cons_of_neg (by simp [hvis]), ← ih2]

theorem foldl_max_ge (l : List ℚ) (z : ℚ) : z ≤ l.foldl max z ∧ ∀ q ∈ l, q ≤ l.foldl max z := by
  induction l generalizing z with
  | nil => exact ⟨le_refl _, by simp⟩
  | cons q rest ih =>
    obtain ⟨h1, h2⟩ := ih (max z q)
    refine ⟨le_trans (le_max_left _ _) h1, ?_⟩
    intro x hx
    rcases List.mem_cons.1 hx with rfl | hx
    · exact le_trans (le_max_right _ _) h1
    · exact h2 x hx

theorem foldl_max_attained (l : List ℚ) (z : ℚ) : l.foldl max z = z ∨ l.foldl max z ∈ l := by
  induction l generalizing z with
  | nil => exact Or.inl rfl
  | cons q rest ih =>
    rcases ih (max z q) with h | h
    · rcases max_choice z q with hm | hm
      · left
        rw [List.foldl_cons, h, hm]
      · right
        rw [List.foldl_cons, h, hm]
        exact List.mem_cons_self _ _
    · exact Or.inr (List.mem_cons_of_mem _ h)

theorem pass_flags (k : Layout) (children : List (Option Nat)) (p p1 : Positioner)
    (w w1 : World) (hc : p.componentComplete = true)
    (hnd : (p.positionedItems.map (fun e => e.item)).Nodup)
    (hsub : ∀ e ∈ p.positionedItems, e.item ∈ children)
    (h : QmlGraphicsBasePositioner.prePositioning k children p w = some (p1, w1)) :
    ∀ e ∈ p1.positionedItems, ∀ a, e.item = some a →
      e.isVisible = decide (effectivelyVisible (w1.scene a)) := by
  intro e he a hitem
  obtain ⟨hreg, _⟩ := prePositioning_registry k children p p1 w w1 hc h
  have hnd1 := prePositioning_nodup k children p p1 w w1 hnd h
  have hchild : some a ∈ children := by
    have hmem : e.item ∈ p1.positionedItems.map (fun e => e.item) := List.mem_map_of_mem _ he
    rw [hreg] at hmem
    rcases trackAll_items_mem _ _ _ _ hmem with h1 | h1
    · obtain ⟨e0, he0, h0⟩ := List.mem_map.1 h1
      have := hsub e0 he0
      rw [h0, hitem] at this
      exact this
    · rw [← hitem]
      exact h1.1
  have hcount : children.count (some a) ≠ 0 := by
    have := List.count_pos_iff.2 hchild
    omega
  have hent := entryOf_of_mem_nodup _ a e hnd1 he hitem
  rw [hreg, trackAll_entry, if_neg hcount] at hent
  have hsucc : children.count (some a) = (children.count (some a) - 1) + 1 := by omega
  rw [hsucc] at hent
  simp only [Option.some.injEq] at hent
  rw [← hent, touch_iterate_flag]
  have := effectivelyVisible_congr (pass_sameGeom k children p p1 w w1 h) a
  exact decide_eq_decide.2 this.symm

/-- C12, amended. After a completed pass on a registry without duplicates whose entries all
belong to current children, the implicit height is the largest of 0 and the values
`y + height` of the registry items that are effectively visible, and the implicit width the
largest of 0 and their values `x + width`: it is at least 0, at least every such value, and
it is 0 or one of these values.  Entries that are not effectively visible do not
contribute. -/
theorem implicit_size_bounding_box (k : Layout) (children : List (Option Nat))
    (p p1 : Positioner) (w w1 : World) (hc : p.componentComplete = true)
    (hnd : (p.positionedItems.map (fun e => e.item)).Nodup)
    (hsub : ∀ e ∈ p.positionedItems, e.item ∈ children)
    (h : QmlGraphicsBasePositioner.prePositioning k children p w = some (p1, w1)) :
    (p1.implicitHeight = maxEdge (fun a => (w1.scene a).y + (w1.scene a).height)
        (visibleItems w1.scene p1.positionedItems) ∧
      p1.implicitWidth = maxEdge (fun a => (w1.scene a).x + (w1.scene a).width)
        (visibleItems w1.scene p1.positionedItems)) ∧
    (0 ≤ p1.implicitHeight ∧ 0 ≤ p1.implicitWidth) ∧
    (∀ a ∈ visibleItems w1.scene p1.positionedItems,
      (w1.scene a).y + (w1.scene a).height ≤ p1.implicitHeight ∧
      (w1.scene a).x + (w1.scene a).width ≤ p1.implicitWidth) ∧
    (p1.implicitHeight = 0 ∨ ∃ a ∈ visibleItems w1.scene p1.positionedItems,
      p1.implicitHeight = (w1.scene a).y + (w1.scene a).height) ∧
    (p1.implicitWidth = 0 ∨ ∃ a ∈ visibleItems w1.scene p1.positionedItems,
      p1.implicitWidth = (w1.scene a).x + (w1.scene a).width) := by
  have hflags := pass_flags k children p p1 w w1 hc hnd hsub h
  obtain ⟨w0, _, _, hp1⟩ := prePositioning_parts k children p p1 w w1 hc h
  have hitems : p1.positionedItems =
      (trackAll w.scene children { p with queuedPositioning := false }).positionedItems := by
    rw [hp1]
  have hH : p1.implicitHeight = maxEdge (fun a => (w1.scene a).y + (w1.scene a).height)
      (visibleItems w1.scene p1.positionedItems) := by
    rw [← flagged_eq_visible w1.scene p1.positionedItems hflags, hitems]
    rw [hp1, implicitSize_eq]
    rfl
  have hW : p1.implicitWidth = maxEdge (fun a => (w1.scene a).x + (w1.scene a).width)
      (visibleItems w1.scene p1.positionedItems) := by
    rw [← flagged_eq_visible w1.scene p1.positionedItems hflags, hitems]
    rw [hp1, implicitSize_eq]
    rfl
  refine ⟨⟨hH, hW⟩, ?_, ?_, ?_, ?_⟩
  · rw [hH, hW]
    exact ⟨(foldl_max_ge _ 0).1, (foldl_max_ge _ 0).1⟩
  · intro a ha
    rw [hH, hW]
    exact ⟨(foldl_max_ge _ 0).2 _ (List.mem_map_of_mem _ ha),
      (foldl_max_ge _ 0).2 _ (List.mem_map_of_mem _ ha)⟩
  · rw [hH]
    rcases foldl_max_attained ((visibleItems w1.scene p1.positionedItems).map
      (fun a => (w1.scene a).y + (w1.scene a).height)) 0 with h0 | h0
    · exact Or.inl h0
    · obtain ⟨a, ha, hv⟩ := List.mem_map.1 h0
      exact Or.inr ⟨a, ha, hv.symm⟩
  · rw [hW]
    rcases foldl_max_attained ((visibleItems w1.scene p1.positionedItems).map
      (fun a => (w1.scene a).x + (w1.scene a).width)) 0 with h0 | h0
    · exact Or.inl h0
    · obtain ⟨a, ha, hv⟩ := List.mem_map.1 h0
      exact Or.inr ⟨a, ha, hv.symm⟩

/-- C12, counterexample: a completed Column whose only child, item 0, is visible, 50 wide and
at x = -100.  After the pass item 0 is the only effectively visible registry item and its
`x + width` is -50, so the maximum over these entries is -50; the implicit width is 0. -/
theorem implicit_size_bounding_box_counterexample :
    noveltyP0.componentComplete = true ∧
    QmlGraphicsBasePositioner.prePositioning Layout.Column [some 0] noveltyP0 leftW =
      some (leftP1, leftW1) ∧
    visibleItems leftW1.scene leftP1.positionedItems = [0] ∧
    (leftW1.scene 0).x + (leftW1.scene 0).width = -50 ∧
    leftP1.implicitWidth = 0 :=
  ⟨rfl, option_pair_eq _ _ _ (prePositioning_total _ (by intro c r h; cases h) _ _ _),
    by decide!, by decide!, by decide!⟩

/-- C12, witness: the pass of the completed Column `noveltyP0` over the child 0 on the heap
`leftW`. -/
theorem implicit_size_bounding_box_witness :
    noveltyP0.componentComplete = true ∧
    (noveltyP0.positionedItems.map (fun e => e.item)).Nodup ∧
    (∀ e ∈ noveltyP0.positionedItems, e.item ∈ [some 0]) ∧
    QmlGraphicsBasePositioner.prePositioning Layout.Column [some 0] noveltyP0 leftW =
      some (leftP1, leftW1) ∧
    (leftP1.implicitHeight = maxEdge (fun a => (leftW1.scene a).y + (leftW1.scene a).height)
        (visibleItems leftW1.scene leftP1.positionedItems) ∧
      leftP1.implicitWidth = maxEdge (fun a => (leftW1.scene a).x + (leftW1.scene a).width)
        (visibleItems leftW1.scene leftP1.positionedItems)) :=
  ⟨rfl, List.nodup_nil, (fun e he => by cases he),
    option_pair_eq _ _ _ (prePositioning_total _ (by intro c r h; cases h) _ _ _),
    (implicit_size_bounding_box Layout.Column [some 0] noveltyP0 leftP1 leftW leftW1 rfl
      List.nodup_nil (fun e he => by cases he)
      (option_pair_eq _ _ _ (prePositioning_total _ (by intro c r h; cases h) _ _ _))).1⟩

/-! ### The pass as a plan -/

theorem doPositioning_eq_plan (k : Layout) (d : Positioner) (w : World) :
    doPositioning k d w = (planOf k d w.scene).map (fun ps => placeAll d ps w) := by
  cases k with
  | Column =>
    simp only [doPositioning, planOf, QmlGraphicsColumn.doPositioning, Option.map_some']
    rw [column_loop_eq]
  | Row =>
    simp only [doPositioning, planOf, QmlGraphicsRow.doPositioning, Option.map_some']
    rw [row_loop_eq]
  | Flow f =>
    simp only [doPositioning, planOf, QmlGraphicsFlow.doPositioning, Option.map_some']
    rw [flow_loop_eq]
  | Grid c r =>
    simp only [doPositioning, planOf, QmlGraphicsGrid.doPositioning]
    cases hd : QmlGraphicsGrid.dims c r d.positionedItems.length with
    | none => rfl
    | some cr =>
      obtain ⟨c1, r1⟩ := cr
      simp only []
      cases hm : QmlGraphicsGrid.measure w.scene d.positionedItems c1 r1 with
      | none => rfl
      | some m =>
        simp only []
        rw [grid_loop_eq]

theorem laid_geometry_congr {s t : Nat → QmlGraphicsItem} (h : SameGeom s t)
    (items1 items2 : List PositionedItem)
    (hitems : items2.map (fun e => e.item) = items1.map (fun e => e.item)) :
    (laid t items2).map geometry = (laid s items1).map geometry := by
  induction items1 generalizing items2 with
  | nil =>
    cases items2 with
    | nil => rfl
    | cons e2 r2 => simp at hitems
  | cons e1 r1 ih =>
    cases items2 with
    | nil => simp at hitems
    | cons e2 r2 =>
      simp only [List.map_cons, List.cons.injEq] at hitems
      have ih2 := ih r2 hitems.2
      unfold laid
      rw [hitems.1]
      cases hc : e1.item with
      | none => simpa using ih2
      | some a =>
        simp only [isInvisible_congr h a]
        by_cases hinv : isInvisible (s a) = true
        · simpa [hinv] using ih2
        · simp only [hinv, Bool.false_eq_true, if_false, List.map_cons, ih2, geometry,
            (h a).1, (h a).2.1]

theorem columnPlan_requested (sp : Int) (ls1 ls2 : List Laid) (v : Int)
    (h : ls2.map geometry = ls1.map geometry) :
    (columnPlan sp ls2 v).map requested = (columnPlan sp ls1 v).map requested := by
  induction ls1 generalizing ls2 v with
  | nil =>
    cases ls2 with
    | nil => rfl
    | cons l2 r2 => simp at h
  | cons l1 r1 ih =>
    cases ls2 with
    | nil => simp at h
    | cons l2 r2 =>
      simp only [List.map_cons, List.cons.injEq, geometry, Prod.mk.injEq] at h
      obtain ⟨⟨ha, hw, hh⟩, hr⟩ := h
      simp only [columnPlan, List.map_cons, requested, ha, hh]
      rw [ih r2 _ hr]

theorem rowPlan_requested (sp : Int) (ls1 ls2 : List Laid) (v : Int)
    (h : ls2.map geometry = ls1.map geometry) :
    (rowPlan sp ls2 v).map requested = (rowPlan sp ls1 v).map requested := by
  induction ls1 generalizing ls2 v with
  | nil =>
    cases ls2 with
    | nil => rfl
    | cons l2 r2 => simp at h
  | cons l1 r1 ih =>
    cases ls2 with
    | nil => simp at h
    | cons l2 r2 =>
      simp only [List.map_cons, List.cons.injEq, geometry, Prod.mk.injEq] at h
      obtain ⟨⟨ha, hw, hh⟩, hr⟩ := h
      simp only [rowPlan, List.map_cons, requested, ha, hw]
      rw [ih r2 _ hr]

theorem flowPlan_requested (flow : Flow) (sp : Int) (pw ph : ℚ) (ls1 ls2 : List Laid)
    (v : FlowVars) (h : ls2.map geometry = ls1.map geometry) :
    (flowPlan flow sp pw ph ls2 v).map requested =
      (flowPlan flow sp pw ph ls1 v).map requested := by
  induction ls1 generalizing ls2 v with
  | nil =>
    cases ls2 with
    | nil => rfl
    | cons l2 r2 => simp at h
  | cons l1 r1 ih =>
    cases ls2 with
    | nil => simp at h
    | cons l2 r2 =>
      simp only [List.map_cons, List.cons.injEq, geometry, Prod.mk.injEq] at h
      obtain ⟨⟨ha, hw, hh⟩, hr⟩ := h
      simp only [flowPlan, List.map_cons, requested, ha, hw, hh]
      rw [ih r2 _ hr]

theorem gridPlan_requested (sp c r : Int) (mcw mrh : List Int) (ls1 ls2 : List Laid)
    (x y cr cc : Int) (h : ls2.map geometry = ls1.map geometry) :
    (gridPlan sp c r mcw mrh ls2 x y cr cc).map (List.map requested) =
      (gridPlan sp c r mcw mrh ls1 x y cr cc).map (List.map requested) := by
  induction ls1 generalizing ls2 x y cr cc with
  | nil =>
    cases ls2 with
    | nil => rfl
    | cons l2 r2 => simp at h
  | cons l1 r1 ih =>
    cases ls2 with
    | nil => simp at h
    | cons l2 r2 =>
      simp only [List.map_cons, List.cons.injEq, geometry, Prod.mk.injEq] at h
      obtain ⟨⟨ha, hw, hh⟩, hr⟩ := h
      unfold gridPlan
      cases intIndex mcw cc with
      | none => rfl
      | some cw =>
        simp only []
        by_cases hc0 : c = 0
        · simp [hc0]
        · simp only [hc0, if_false]
          by_cases hmod : Int.tmod (cc + 1) c = 0
          · simp only [hmod, if_true]
            cases intIndex mrh cr with
            | none => rfl
            | some rh =>
              simp only []
              by_cases hr1 : cr + 1 ≥ r
              · simp only [hr1, if_true, Option.map_some', List.map_cons, List.map_nil,
                  requested, ha]
              · simp only [hr1, if_false, Option.map_map]
                have := ih r2 0 (y + (rh + sp)) (cr + 1) 0 hr
                cases h2 : gridPlan sp c r mcw mrh r2 0 (y + (rh + sp)) (cr + 1) 0 <;>
                  cases h1 : gridPlan sp c r mcw mrh r1 0 (y + (rh + sp)) (cr + 1) 0 <;>
                  rw [h1, h2] at this <;> simp_all [requested]
          · simp only [hmod, if_false, Option.map_map]
            have := ih r2 (x + (cw + sp)) y cr (Int.tmod (cc + 1) c) hr
            cases h2 : gridPlan sp c r mcw mrh r2 (x + (cw + sp)) y cr (Int.tmod (cc + 1) c) <;>
              cases h1 : gridPlan sp c r mcw mrh r1 (x + (cw + sp)) y cr
                (Int.tmod (cc + 1) c) <;>
              rw [h1, h2] at this <;> simp_all [requested]

theorem measureCell_congr {s t : Nat → QmlGraphicsItem} (h : SameGeom s t)
    (items1 items2 : List PositionedItem)
    (hitems : items2.map (fun e => e.item) = items1.map (fun e => e.item))
    (i j : Nat) (m : GridMeasure) :
    QmlGraphicsGrid.measureCell t items2 i j m = QmlGraphicsGrid.measureCell s items1 i j m := by
  have hlen : items2.length = items1.length := by
    have := congrArg List.length hitems
    simpa using this
  have hidx : ∀ n : Nat, Option.map (fun e : PositionedItem => e.item) items2[n]? =
      Option.map (fun e : PositionedItem => e.item) items1[n]? := by
    intro n
    rw [← List.getElem?_map, ← List.getElem?_map, hitems]
  unfold QmlGraphicsGrid.measureCell
  simp only []
  generalize (if i = 0 then
    ({ (if j = 0 then ({ m with maxRowHeight := m.maxRowHeight ++ [0] } : GridMeasure) else m) with
      maxColWidth := (if j = 0 then ({ m with maxRowHeight := m.maxRowHeight ++ [0] } :
        GridMeasure) else m).maxColWidth ++ [0] } : GridMeasure)
    else (if j = 0 then ({ m with maxRowHeight := m.maxRowHeight ++ [0] } : GridMeasure)
      else m)) = m2
  rw [hlen]
  by_cases hend : m2.childIndex = items1.length
  · rw [if_pos hend, if_pos hend]
  · rw [if_neg hend, if_neg hend]
    have hn := hidx m2.childIndex
    cases h1 : items1[m2.childIndex]? with
    | none =>
      rw [h1] at hn
      cases h2 : items2[m2.childIndex]? with
      | none => rfl
      | some e2 => rw [h2] at hn; simp at hn
    | some e1 =>
      rw [h1] at hn
      cases h2 : items2[m2.childIndex]? with
      | none => rw [h2] at hn; simp at hn
      | some e2 =>
        rw [h2] at hn
        simp only [Option.map_some', Option.some.injEq] at hn
        simp only [hn]
        cases e1.item with
        | none => rfl
        | some a =>
          simp only [isInvisible_congr h a, (h a).1, (h a).2.1]

theorem measure_congr {s t : Nat → QmlGraphicsItem} (h : SameGeom s t)
    (items1 items2 : List PositionedItem)
    (hitems : items2.map (fun e => e.item) = items1.map (fun e => e.item)) (c r : Int) :
    QmlGraphicsGrid.measure t items2 c r = QmlGraphicsGrid.measure s items1 c r := by
  have hcell : QmlGraphicsGrid.measureCell t items2 = QmlGraphicsGrid.measureCell s items1 := by
    funext i j m
    exact measureCell_congr h items1 items2 hitems i j m
  unfold QmlGraphicsGrid.measure QmlGraphicsGrid.measureRow
  rw [hcell]

theorem planOf_requested {s t : Nat → QmlGraphicsItem} (h : SameGeom s t) (k : Layout)
    (d1 d2 : Positioner)
    (hitems : d2.positionedItems.map (fun e => e.item) = d1.positionedItems.map (fun e => e.item))
    (hsp : d2.spacing = d1.spacing) (hw : d2.width = d1.width) (hh : d2.height = d1.height) :
    (planOf k d2 t).map (List.map requested) = (planOf k d1 s).map (List.map requested) := by
  have hl := laid_geometry_congr h d1.positionedItems d2.positionedItems hitems
  cases k with
  | Column =>
    simp only [planOf, Option.map_some', hsp]
    rw [columnPlan_requested _ _ _ _ hl]
  | Row =>
    simp only [planOf, Option.map_some', hsp]
    rw [rowPlan_requested _ _ _ _ hl]
  | Flow f =>
    simp only [planOf, Option.map_some', hsp, hw, hh]
    rw [flowPlan_requested _ _ _ _ _ _ _ hl]
  | Grid c r =>
    have hlen : d2.positionedItems.length = d1.positionedItems.length := by
      have := congrArg List.length hitems
      simpa using this
    simp only [planOf, hlen]
    cases QmlGraphicsGrid.dims c r d1.positionedItems.length with
    | none => rfl
    | some cr =>
      obtain ⟨c1, r1⟩ := cr
      simp only []
      rw [measure_congr h d1.positionedItems d2.positionedItems hitems]
      cases QmlGraphicsGrid.measure s d1.positionedItems c1 r1 with
      | none => rfl
      | some m =>
        simp only [hsp]
        exact gridPlan_requested _ _ _ _ _ _ _ _ _ _ _ hl

/-! ### A second pass finds every item in place -/

theorem laid_addr_sublist (s : Nat → QmlGraphicsItem) (items : List PositionedItem) :
    ((laid s items).map (fun l => some l.addr)).Sublist (items.map (fun e => e.item)) := by
  induction items with
  | nil => exact List.Sublist.slnil
  | cons e rest ih =>
    unfold laid
    cases hc : e.item with
    | none =>
      simp only [List.map_cons, hc]
      exact List.Sublist.cons _ ih
    | some a =>
      by_cases hinv : isInvisible (s a) = true
      · simp only [hinv, if_true, List.map_cons, hc]
        exact List.Sublist.cons _ ih
      · simp only [hinv, Bool.false_eq_true, if_false, List.map_cons, hc]
        exact List.Sublist.cons₂ _ ih

theorem laid_addr_nodup (s : Nat → QmlGraphicsItem) (items : List PositionedItem)
    (hnd : (items.map (fun e => e.item)).Nodup) :
    ((laid s items).map (fun l => l.addr)).Nodup := by
  have h1 := (laid_addr_sublist s items).nodup hnd
  have h2 : (laid s items).map (fun l => some l.addr) =
      ((laid s items).map (fun l => l.addr)).map some := by
    rw [List.map_map]
    rfl
  rw [h2] at h1
  exact List.Nodup.of_map _ h1

theorem gridPlan_targets (sp c r : Int) (mcw mrh : List Int) (ls : List Laid)
    (x y cr cc : Int) (plan : List Placement)
    (h : gridPlan sp c r mcw mrh ls x y cr cc = some plan) :
    (plan.map (fun p => p.target)).Sublist ls ∧
      ∀ p ∈ plan, p.xo ≠ none ∧ p.yo ≠ none := by
  induction ls generalizing x y cr cc plan with
  | nil =>
    simp only [gridPlan, Option.some.injEq] at h
    subst h
    exact ⟨List.Sublist.slnil, by simp⟩
  | cons l ls ih =>
    unfold gridPlan at h
    cases hcw : intIndex mcw cc with
    | none => rw [hcw] at h; cases h
    | some cw =>
      rw [hcw] at h
      simp only [] at h
      by_cases hc0 : c = 0
      · simp [hc0] at h
      · simp only [hc0, if_false] at h
        by_cases hmod : Int.tmod (cc + 1) c = 0
        · simp only [hmod, if_true] at h
          cases hrh : intIndex mrh cr with
          | none => rw [hrh] at h; cases h
          | some rh =>
            rw [hrh] at h
            simp only [] at h
            by_cases hr1 : cr + 1 ≥ r
            · simp only [hr1, if_true, Option.some.injEq] at h
              subst h
              refine ⟨?_, by simp⟩
              simp only [List.map_cons, List.map_nil]
              exact List.Sublist.cons₂ _ (List.nil_sublist _)
            · simp only [hr1, if_false] at h
              cases h2 : gridPlan sp c r mcw mrh ls 0 (y + (rh + sp)) (cr + 1) 0 with
              | none => rw [h2] at h; cases h
              | some ps =>
                rw [h2] at h
                simp only [Option.map_some', Option.some.injEq] at h
                subst h
                obtain ⟨i1, i2⟩ := ih _ _ _ _ _ h2
                refine ⟨List.Sublist.cons₂ _ i1, ?_⟩
                intro p hp
                rcases List.mem_cons.1 hp with rfl | hp
                · simp
                · exact i2 p hp
        · simp only [hmod, if_false] at h
          cases h2 : gridPlan sp c r mcw mrh ls (x + (cw + sp)) y cr (Int.tmod (cc + 1) c) with
          | none => rw [h2] at h; cases h
          | some ps =>
            rw [h2] at h
            simp only [Option.map_some', Option.some.injEq] at h
            subst h
            obtain ⟨i1, i2⟩ := ih _ _ _ _ _ h2
            refine ⟨List.Sublist.cons₂ _ i1, ?_⟩
            intro p hp
            rcases List.mem_cons.1 hp with rfl | hp
            · simp
            · exact i2 p hp

theorem planOf_targets (k : Layout) (d : Positioner) (s : Nat → QmlGraphicsItem)
    (ps : List Placement) (h : planOf k d s = some ps) :
    (ps.map (fun p => p.target)).Sublist (laid s d.positionedItems) := by
  cases k with
  | Column =>
    simp only [planOf, Option.some.injEq] at h
    rw [← h, columnPlan_targets]
  | Row =>
    simp only [planOf, Option.some.injEq] at h
    rw [← h, rowPlan_targets]
  | Flow f =>
    simp only [planOf, Option.some.injEq] at h
    rw [← h, flowPlan_targets]
  | Grid c r =>
    simp only [planOf] at h
    cases hd : QmlGraphicsGrid.dims c r d.positionedItems.length with
    | none => rw [hd] at h; cases h
    | some cr =>
      obtain ⟨c1, r1⟩ := cr
      rw [hd] at h
      simp only [] at h
      cases hm : QmlGraphicsGrid.measure s d.positionedItems c1 r1 with
      | none => rw [hm] at h; cases h
      | some m =>
        rw [hm] at h
        exact (gridPlan_targets _ _ _ _ _ _ _ _ _ _ _ h).1

theorem planOf_nodup (k : Layout) (d : Positioner) (s : Nat → QmlGraphicsItem)
    (ps : List Placement) (h : planOf k d s = some ps)
    (hnd : (d.positionedItems.map (fun e => e.item)).Nodup) :
    (ps.map (fun p => p.target.addr)).Nodup := by
  have h1 := (planOf_targets k d s ps h).map (fun l => l.addr)
  have h2 := h1.nodup (laid_addr_nodup s d.positionedItems hnd)
  simpa [List.map_map, Function.comp] using h2

theorem planOf_axes (k : Layout) (d : Positioner) (s : Nat → QmlGraphicsItem)
    (ps : List Placement) (h : planOf k d s = some ps) (hty : d.type = constructedType k) :
    ∀ q ∈ ps, (q.xo = none ∨ AllowsX d) ∧ (q.yo = none ∨ AllowsY d) := by
  intro q hq
  cases k with
  | Column =>
    simp only [planOf, Option.some.injEq] at h
    rw [← h] at hq
    exact ⟨Or.inl (columnPlan_xo _ _ _ q hq), Or.inr (Or.inl hty)⟩
  | Row =>
    simp only [planOf, Option.some.injEq] at h
    rw [← h] at hq
    exact ⟨Or.inr (Or.inl hty), Or.inl (rowPlan_yo _ _ _ q hq)⟩
  | Flow f => exact ⟨Or.inr (Or.inr hty), Or.inr (Or.inr hty)⟩
  | Grid c r => exact ⟨Or.inr (Or.inr hty), Or.inr (Or.inr hty)⟩

theorem placeAll_settles (d : Positioner) (ps : List Placement) (w : World)
    (hi : Immediate d) (hnd : (ps.map (fun p => p.target.addr)).Nodup)
    (hax : ∀ q ∈ ps, (q.xo = none ∨ AllowsX d) ∧ (q.yo = none ∨ AllowsY d)) :
    ∀ q ∈ ps, Idle (placeAll d ps w).scene q := by
  intro q hq
  obtain ⟨hx, hy⟩ := hax q hq
  constructor
  · cases hxo : q.xo with
    | none => rfl
    | some v =>
      rcases hx with hx | hx
      · rw [hxo] at hx; cases hx
      · rw [placeAll_x d ps w hi hx hnd q hq v hxo]
        simp [offBy]
  · cases hyo : q.yo with
    | none => rfl
    | some v =>
      rcases hy with hy | hy
      · rw [hyo] at hy; cases hy
      · rw [placeAll_y d ps w hi hy hnd q hq v hyo]
        simp [offBy]

theorem place_idle (d : Positioner) (q : Placement) (w : World) (h : Idle w.scene q) :
    place d q w = w := by
  unfold place
  rw [if_neg (by simp [h.1, h.2])]

theorem placeAll_idle (d : Positioner) (ps : List Placement) (w : World)
    (h : ∀ q ∈ ps, Idle w.scene q) : placeAll d ps w = w := by
  induction ps with
  | nil => rfl
  | cons q rest ih =>
    simp only [placeAll]
    rw [place_idle d q w (h q (List.mem_cons_self _ _))]
    exact ih (fun q hq => h q (List.mem_cons_of_mem _ hq))

theorem idle_of_requested (s : Nat → QmlGraphicsItem) (q1 q2 : Placement)
    (h : requested q2 = requested q1) (hi : Idle s q1) : Idle s q2 := by
  simp only [requested, Prod.mk.injEq] at h
  obtain ⟨ha, hx, hy⟩ := h
  unfold Idle at hi ⊢
  rw [ha, hx, hy]
  exact hi

theorem track_config (s : Nat → QmlGraphicsItem) (p : Positioner) (q : Option Nat) :
    ∃ items watched, QmlGraphicsBasePositioner.track s p q =
      { p with positionedItems := items, watched := watched } := by
  cases q with
  | none => exact ⟨_, _, rfl⟩
  | some c =>
    unfold QmlGraphicsBasePositioner.track
    simp only []
    cases find p.positionedItems (PositionedItem.create c) <;> simp only [] <;>
      split_ifs <;> (try exact ⟨_, _, rfl⟩) <;> split <;> (try exact ⟨_, _, rfl⟩) <;>
      split_ifs <;> exact ⟨_, _, rfl⟩

theorem trackAll_config (s : Nat → QmlGraphicsItem) (children : List (Option Nat))
    (p : Positioner) :
    ∃ items watched, trackAll s children p =
      { p with positionedItems := items, watched := watched } := by
  induction children generalizing p with
  | nil => exact ⟨_, _, rfl⟩
  | cons q rest ih =>
    have hstep : trackAll s (q :: rest) p = trackAll s rest (QmlGraphicsBasePositioner.track s p q) :=
      rfl
    obtain ⟨i1, w1, h1⟩ := track_config s p q
    obtain ⟨i2, w2, h2⟩ := ih (QmlGraphicsBasePositioner.track s p q)
    rw [hstep, h2, h1]
    exact ⟨_, _, rfl⟩

theorem upsert_items_present (f : PositionedItem → PositionedItem)
    (hf : ∀ e, (f e).item = e.item) (c : Nat) (items : List PositionedItem)
    (h : entryOf items c ≠ none) :
    (upsert f c items).map (fun e => e.item) = items.map (fun e => e.item) := by
  induction items with
  | nil => exact absurd (entryOf_nil c) h
  | cons e rest ih =>
    rw [entryOf_cons] at h
    simp only [upsert]
    by_cases h0 : e.item = some c
    · rw [if_pos h0]
      simp [hf]
    · rw [if_neg h0] at h ⊢
      simp only [List.map_cons, ih h]

theorem trackAll_items_same (s : Nat → QmlGraphicsItem) (children : List (Option Nat))
    (p : Positioner) (h : ∀ a, some a ∈ children → entryOf p.positionedItems a ≠ none) :
    (trackAll s children p).positionedItems.map (fun e => e.item) =
      p.positionedItems.map (fun e => e.item) := by
  induction children generalizing p with
  | nil => rfl
  | cons q rest ih =>
    have hstep : trackAll s (q :: rest) p = trackAll s rest (QmlGraphicsBasePositioner.track s p q) :=
      rfl
    rw [hstep]
    cases q with
    | none =>
      exact ih p (fun a ha => h a (List.mem_cons_of_mem _ ha))
    | some c =>
      have hc := h c (List.mem_cons_self _ _)
      rw [ih, track_items, upsert_items_present _ (touch_item s c) c _ hc]
      intro a ha
      rw [track_items]
      by_cases hac : a = c
      · subst hac
        rw [entryOf_upsert_same _ (touch_item s a)]
        simp
      · rw [entryOf_upsert_other _ (touch_item s c) c a hac]
        exact h a (List.mem_cons_of_mem _ ha)

theorem planOf_fields (k : Layout) (d1 d2 : Positioner) (s : Nat → QmlGraphicsItem)
    (hitems : d2.positionedItems = d1.positionedItems) (hsp : d2.spacing = d1.spacing)
    (hw : d2.width = d1.width) (hh : d2.height = d1.height) :
    planOf k d2 s = planOf k d1 s := by
  cases k <;> simp only [planOf, hitems, hsp, hw, hh]

theorem prePositioning_immediate (k : Layout) (children : List (Option Nat)) (p : Positioner)
    (w w0 : World) (hc : p.componentComplete = true)
    (hi : Immediate (trackAll w.scene children { p with queuedPositioning := false }))
    (hd : doPositioning k (trackAll w.scene children { p with queuedPositioning := false }) w =
      some w0) :
    QmlGraphicsBasePositioner.prePositioning k children p w =
      some ({ trackAll w.scene children { p with queuedPositioning := false } with
        implicitHeight := (implicitSize w0.scene
          (trackAll w.scene children { p with queuedPositioning := false }).positionedItems
          (0, 0)).1,
        implicitWidth := (implicitSize w0.scene
          (trackAll w.scene children { p with queuedPositioning := false }).positionedItems
          (0, 0)).2 }, w0) := by
  unfold QmlGraphicsBasePositioner.prePositioning
  rw [if_neg (by simp [hc])]
  simp only []
  unfold trackAll at hd hi
  rw [hd]
  simp only []
  have hno : ¬ ((List.foldl (QmlGraphicsBasePositioner.track w.scene)
      { p with queuedPositioning := false } children).addTransition = true ∨
      (List.foldl (QmlGraphicsBasePositioner.track w.scene)
      { p with queuedPositioning := false } children).moveTransition = true) := by
    rw [hi.1, hi.2]
    simp
  rw [if_neg hno]
  rfl

theorem second_pass_idle (k : Layout) (children : List (Option Nat)) (pm : Positioner)
    (w : World) (ps1 : List Placement) (ih iw : ℚ)
    (hcm : pm.componentComplete = true) (him : Immediate pm)
    (htm : pm.type = constructedType k)
    (hndm : (pm.positionedItems.map (fun e => e.item)).Nodup)
    (hent : ∀ a, some a ∈ children → entryOf pm.positionedItems a ≠ none)
    (hplan : planOf k pm w.scene = some ps1) :
    ∃ p2, QmlGraphicsBasePositioner.prePositioning k children
        { pm with implicitHeight := ih, implicitWidth := iw } (placeAll pm ps1 w) =
        some (p2, placeAll pm ps1 w) ∧
      ∃ ps, planOf k p2 (placeAll pm ps1 w).scene = some ps ∧
        ∀ q ∈ ps, Idle (placeAll pm ps1 w).scene q := by
  have hgeo : SameGeom w.scene (placeAll pm ps1 w).scene := sameGeom_placeAll _ _ _
  have hsettled := placeAll_settles pm ps1 w him (planOf_nodup k pm w.scene ps1 hplan hndm)
    (planOf_axes k pm w.scene ps1 hplan htm)
  obtain ⟨items2, watched2, hpm2⟩ := trackAll_config (placeAll pm ps1 w).scene children
    { pm with implicitHeight := ih, implicitWidth := iw, queuedPositioning := false }
  have hitems2 := trackAll_items_same (placeAll pm ps1 w).scene children
    { pm with implicitHeight := ih, implicitWidth := iw, queuedPositioning := false } hent
  generalize hpm2def : trackAll (placeAll pm ps1 w).scene children
    { pm with implicitHeight := ih, implicitWidth := iw, queuedPositioning := false } = pm2
    at hpm2 hitems2
  have hsp : pm2.spacing = pm.spacing := by rw [hpm2]
  have hwd : pm2.width = pm.width := by rw [hpm2]
  have hht : pm2.height = pm.height := by rw [hpm2]
  have hi2 : Immediate pm2 := by
    unfold Immediate
    rw [hpm2]
    exact him
  have hreq := planOf_requested hgeo k pm pm2 hitems2 hsp hwd hht
  rw [hplan] at hreq
  cases hp2 : planOf k pm2 (placeAll pm ps1 w).scene with
  | none => rw [hp2] at hreq; cases hreq
  | some ps2 =>
    rw [hp2] at hreq
    simp only [Option.map_some', Option.some.injEq] at hreq
    have hidle : ∀ q ∈ ps2, Idle (placeAll pm ps1 w).scene q := by
      intro q hq
      have hmem : requested q ∈ ps1.map requested := by
        rw [← hreq]
        exact List.mem_map_of_mem _ hq
      obtain ⟨q1, hq1, heq⟩ := List.mem_map.1 hmem
      exact idle_of_requested _ q1 q heq.symm (hsettled q1 hq1)
    have hdo : doPositioning k pm2 (placeAll pm ps1 w) = some (placeAll pm ps1 w) := by
      rw [doPositioning_eq_plan, hp2]
      simp only [Option.map_some', Option.some.injEq]
      exact placeAll_idle pm2 ps2 _ hidle
    have hpre := prePositioning_immediate k children
      { pm with implicitHeight := ih, implicitWidth := iw } (placeAll pm ps1 w)
      (placeAll pm ps1 w) hcm (by rw [hpm2def]; exact hi2) (by rw [hpm2def]; exact hdo)
    rw [hpm2def] at hpre
    refine ⟨_, hpre, ps2, ?_, hidle⟩
    rw [← hp2]
    exact planOf_fields k pm2 _ _ rfl rfl rfl rfl

/-- C11, amended. Pass idempotence in immediate mode: for each of Column, Row, Grid and Flow
with the type its constructor sets, no transition configured, a completed component and a
registry without duplicates, when a pass returns, the pass run again on its result with no
mutation in between returns too, with the same world: every item has the same x and y and
both batches are as they were.  Every conditional request of the second pass finds its item
at the requested offsets, so `positionX` and `positionY` are not called. -/
theorem pass_idempotent (k : Layout) (children : List (Option Nat)) (p p1 : Positioner)
    (w w1 : World) (hc : p.componentComplete = true) (hi : Immediate p)
    (hty : p.type = constructedType k)
    (hnd : (p.positionedItems.map (fun e => e.item)).Nodup)
    (h : QmlGraphicsBasePositioner.prePositioning k children p w = some (p1, w1)) :
    ∃ p2, QmlGraphicsBasePositioner.prePositioning k children p1 w1 = some (p2, w1) ∧
      ∃ ps, planOf k p2 w1.scene = some ps ∧ ∀ q ∈ ps, Idle w1.scene q := by
  obtain ⟨w0, hd, hw, hp1⟩ := prePositioning_parts k children p p1 w w1 hc h
  obtain ⟨items, watched, hpm⟩ := trackAll_config w.scene children
    { p with queuedPositioning := false }
  have hndm := trackAll_nodup w.scene children { p with queuedPositioning := false } hnd
  have hent : ∀ a, some a ∈ children →
      entryOf (trackAll w.scene children { p with queuedPositioning := false }).positionedItems
        a ≠ none := by
    intro a ha
    have hcount : children.count (some a) ≠ 0 := by
      have := List.count_pos_iff.2 ha
      omega
    rw [trackAll_entry, if_neg hcount]
    simp
  generalize hpmdef : trackAll w.scene children { p with queuedPositioning := false } = pm
    at hd hw hp1 hpm hndm hent
  have hcm : pm.componentComplete = true := by rw [hpm]; exact hc
  have him : Immediate pm := by
    unfold Immediate
    rw [hpm]
    exact hi
  have htm : pm.type = constructedType k := by rw [hpm]; exact hty
  have hno : ¬ (pm.addTransition = true ∨ pm.moveTransition = true) := by
    rw [him.1, him.2]
    simp
  rw [if_neg hno] at hw
  subst hw
  rw [doPositioning_eq_plan] at hd
  cases hplan : planOf k pm w.scene with
  | none => rw [hplan] at hd; cases hd
  | some ps1 =>
    rw [hplan] at hd
    simp only [Option.map_some', Option.some.injEq] at hd
    subst hd
    rw [hp1]
    exact second_pass_idle k children pm w ps1 _ _ hcm him htm hndm hent hplan

/-- C11, counterexample: a completed Column with only the add transition configured and the
visible child 0 at y = 7.  The first pass sees item 0 appear and hands its request to the add
transition, which animates it (the heap is as before when the call returns, spec 6): item 0 is
at y = 7.  The pass run again finds item 0 no longer new and not at y = 0, appends the request
to the move batch (the loop run on the registry of the second pass shows it), and applies it:
item 0 is at y = 0. -/
theorem pass_idempotent_counterexample :
    addColumnD.componentComplete = true ∧
    addColumnFirst.isSome = true ∧ addColumnSecond.isSome = true ∧
    (addColumnW1.scene 0).y = 7 ∧
    (QmlGraphicsColumn.doPositioning addColumnP2 addColumnW1).moveActions =
      [⟨some 0, "y", 0⟩] ∧
    (addColumnW2.scene 0).y = 0 := by
  decide!

/-- C11, witness: the Column `noveltyP0` (immediate mode, empty registry), pass over the
children 0 and 1, then the same pass again. -/
theorem pass_idempotent_witness :
    noveltyP0.componentComplete = true ∧ Immediate noveltyP0 ∧
    noveltyP0.type = constructedType Layout.Column ∧
    (noveltyP0.positionedItems.map (fun e => e.item)).Nodup ∧
    QmlGraphicsBasePositioner.prePositioning Layout.Column [some 0, some 1] noveltyP0
      noveltyW = some (noveltyP1, noveltyW1) ∧
    ∃ p2, QmlGraphicsBasePositioner.prePositioning Layout.Column [some 0, some 1] noveltyP1
        noveltyW1 = some (p2, noveltyW1) ∧
      ∃ ps, planOf Layout.Column p2 noveltyW1.scene = some ps ∧
        ∀ q ∈ ps, Idle noveltyW1.scene q :=
  ⟨rfl, by decide, rfl, List.nodup_nil,
    option_pair_eq _ _ _ (prePositioning_total _ (by intro c r h; cases h) _ _ _),
    pass_idempotent Layout.Column [some 0, some 1] noveltyP0 noveltyP1 noveltyW noveltyW1 rfl
      (by decide) rfl List.nodup_nil
      (option_pair_eq _ _ _ (prePositioning_total _ (by intro c r h; cases h) _ _ _))⟩

/-! ### Grid and the bounds of its lists -/

theorem wrapInt_of_range (z : Int) (h0 : -2147483648 ≤ z) (h1 : z < 2147483648) :
    wrapInt z = z := by
  unfold wrapInt
  omega

theorem tdiv_ge_one (n c : Int) (hn : 1 ≤ n) (hc : 1 ≤ c) : 1 ≤ Int.tdiv (n + (c - 1)) c := by
  rw [Int.tdiv_eq_ediv (by omega) (by omega)]
  exact Int.le_ediv_of_mul_le (by omega) (by omega)

theorem dims_some (columns rows n : Int) (hr : rows = -1 ∨ 1 ≤ rows)
    (hc : columns = -1 ∨ 1 ≤ columns) :
    ∃ cr, QmlGraphicsGrid.dims columns rows n = some cr := by
  unfold QmlGraphicsGrid.dims
  split_ifs with h1 h2 h3 h4 h5
  · exact ⟨_, rfl⟩
  · omega
  · exact ⟨_, rfl⟩
  · omega
  · exact ⟨_, rfl⟩
  · exact ⟨_, rfl⟩

theorem dims_positive (columns rows n : Int) (hn : 1 ≤ n) (hn3 : n + 3 < 2147483648)
    (hr : rows = -1 ∨ (1 ≤ rows ∧ n + rows ≤ 2147483648))
    (hc : columns = -1 ∨ (1 ≤ columns ∧ n + columns ≤ 2147483648)) :
    ∃ c r, QmlGraphicsGrid.dims columns rows n = some (c, r) ∧ 1 ≤ c ∧ 1 ≤ r := by
  unfold QmlGraphicsGrid.dims
  split_ifs with h1 h2 h3 h4 h5
  · refine ⟨4, _, rfl, by omega, ?_⟩
    rw [wrapInt_of_range _ (by omega) (by omega)]
    exact tdiv_ge_one n 4 hn (by omega)
  · omega
  · refine ⟨columns, _, rfl, by omega, ?_⟩
    rw [wrapInt_of_range (columns - 1) (by omega) (by omega),
      wrapInt_of_range _ (by omega) (by omega)]
    exact tdiv_ge_one n columns hn (by omega)
  · omega
  · refine ⟨_, rows, rfl, ?_, by omega⟩
    rw [wrapInt_of_range (rows - 1) (by omega) (by omega),
      wrapInt_of_range _ (by omega) (by omega)]
    exact tdiv_ge_one n rows hn (by omega)
  · exact ⟨columns, rows, rfl, by omega, by omega⟩

theorem measureCell_nil (s : Nat → QmlGraphicsItem) (i j : Nat) (m : GridMeasure)
    (h : m.childIndex = 0) :
    ∃ t, QmlGraphicsGrid.measureCell s [] i j m = some t ∧ t.childIndex = 0 := by
  unfold QmlGraphicsGrid.measureCell
  simp only []
  have h2 : (if i = 0 then
      ({ (if j = 0 then ({ m with maxRowHeight := m.maxRowHeight ++ [0] } : GridMeasure)
          else m) with
        maxColWidth := (if j = 0 then ({ m with maxRowHeight := m.maxRowHeight ++ [0] } :
          GridMeasure) else m).maxColWidth ++ [0] } : GridMeasure)
      else (if j = 0 then ({ m with maxRowHeight := m.maxRowHeight ++ [0] } : GridMeasure)
        else m)).childIndex = 0 := by
    split_ifs <;> exact h
  rw [if_pos (by rw [h2]; rfl)]
  exact ⟨_, rfl, h2⟩

theorem measure_nil (s : Nat → QmlGraphicsItem) (c r : Int) :
    ∃ m, QmlGraphicsGrid.measure s [] c r = some m := by
  obtain ⟨m, hm, _⟩ := foldlM_range_inv
    (fun m i => QmlGraphicsGrid.measureRow s [] c i m)
    (fun _ m => m.childIndex = 0) r.toNat
    (fun i _ m hm =>
      foldlM_range_inv (fun m j => QmlGraphicsGrid.measureCell s [] i j m)
        (fun _ m => m.childIndex = 0) c.toNat
        (fun j _ m hm => measureCell_nil s i j m hm) m hm)
    ⟨[], [], 0⟩ rfl
  exact ⟨m, hm⟩

/-- Where the sums of lines 655-664 do not overflow, Grid stays within bounds: for every
registry of `n` entries with `n + 3 < 2^31`, rows = -1 or 1 <= rows <= 2^31 - n, and columns = -1
or 1 <= columns <= 2^31 - n, `QmlGraphicsGrid::doPositioning` returns a world. -/
theorem grid_in_bounds_without_overflow (d : Positioner) (w : World) (columns rows : Int)
    (hn3 : (d.positionedItems.length : Int) + 3 < 2147483648)
    (hr : rows = -1 ∨ (1 ≤ rows ∧ (d.positionedItems.length : Int) + rows ≤ 2147483648))
    (hc : columns = -1 ∨
      (1 ≤ columns ∧ (d.positionedItems.length : Int) + columns ≤ 2147483648)) :
    (QmlGraphicsGrid.doPositioning d columns rows w).isSome = true := by
  unfold QmlGraphicsGrid.doPositioning
  cases hitems : d.positionedItems with
  | nil =>
    obtain ⟨cr, hcr⟩ := dims_some columns rows ((([] : List PositionedItem).length : Nat) : Int)
      (by omega) (by omega)
    obtain ⟨c1, r1⟩ := cr
    rw [hcr]
    simp only []
    obtain ⟨m, hm⟩ := measure_nil w.scene c1 r1
    rw [hm]
    rfl
  | cons e rest =>
    rw [hitems] at hn3 hr hc
    obtain ⟨c1, r1, hcr, hc1, hr1⟩ := dims_positive columns rows
      (((e :: rest).length : Nat) : Int) (by simp) hn3 hr hc
    rw [hcr]
    simp only []
    obtain ⟨m, hm, hcl, hrl⟩ := measure_lengths w.scene (e :: rest) c1 r1 hc1 hr1
    rw [hm]
    simp only []
    obtain ⟨plan, hplan, _, _⟩ := gridPlan_take d.spacing c1 r1 m.maxColWidth
      m.maxRowHeight hc1 hr1 hcl hrl (laid w.scene (e :: rest)) 0 0 0 0
      (r1 * c1).toNat ⟨le_refl _, by omega⟩ ⟨le_refl _, by omega⟩
      (by
        have : 0 ≤ r1 * c1 := mul_nonneg (by omega) (by omega)
        rw [Int.toNat_of_nonneg this]; ring)
    rw [grid_loop_eq, hplan]
    rfl

/-- C24. Grid with columns = 2147483647 and rows = -1 over a registry of two visible items:
the configuration is one the claim covers, the `int` sum numVisible + (columns - 1) overflows
to -2147483648, so r = -1; the measuring loop does not run and leaves `maxColWidth` empty;
the placing loop then reads `maxColWidth[0]` for the first item: the layout indexes out of
range (the embedding returns `none`), and so does a Grid pass over the two children. -/
theorem grid_overflow_out_of_range :
    ((-1 : Int) = -1 ∨ 1 ≤ (-1 : Int)) ∧ ((2147483647 : Int) = -1 ∨ 1 ≤ (2147483647 : Int)) ∧
    wrapInt (2 + wrapInt (2147483647 - 1)) = -2147483648 ∧
    QmlGraphicsGrid.dims 2147483647 (-1) (gridTwoItems.length : Int) =
      some (2147483647, -1) ∧
    (QmlGraphicsGrid.measure plainW.scene gridTwoItems 2147483647 (-1)).map
      (fun m => (m.maxColWidth, m.maxRowHeight)) = some ([], []) ∧
    (laid plainW.scene gridTwoItems).map (fun l => l.addr) = [1, 2] ∧
    (QmlGraphicsGrid.doPositioning (gridOf 0 gridTwoItems) 2147483647 (-1) plainW).isSome =
      false ∧
    (QmlGraphicsBasePositioner.prePositioning (Layout.Grid 2147483647 (-1)) [some 1, some 2]
      (gridOf 0 []) plainW).isSome = false := by
  decide!

/-! ### Flow keeps fitting items inside the width -/

theorem wrap_leftToRight_fits (sp : Int) (pw ph ht : ℚ) (wd : Int) (v : FlowVars)
    (hv : 0 ≤ v.hoffset) (hwd : 0 ≤ wd) (hsum : v.hoffset + wd < 2147483648) :
    0 ≤ (QmlGraphicsFlow.wrap Flow.LeftToRight sp pw ph (wd : ℚ) ht v).hoffset ∧
      (QmlGraphicsFlow.wrap Flow.LeftToRight sp pw ph (wd : ℚ) ht v).hoffset ≤ v.hoffset ∧
      ((QmlGraphicsFlow.wrap Flow.LeftToRight sp pw ph (wd : ℚ) ht v).hoffset = 0 ∨
        (((QmlGraphicsFlow.wrap Flow.LeftToRight sp pw ph (wd : ℚ) ht v).hoffset : Int) : ℚ) +
          (wd : ℚ) ≤ pw) := by
  have hround : roundDouble ((v.hoffset : ℚ) + (wd : ℚ)) = (v.hoffset : ℚ) + (wd : ℚ) := by
    rw [← Int.cast_add]
    exact roundDouble_intCast _ (by omega)
  unfold QmlGraphicsFlow.wrap
  rw [if_pos rfl, hround]
  by_cases hc : v.hoffset ≠ 0 ∧ (v.hoffset : ℚ) + (wd : ℚ) > pw
  · rw [if_pos hc]
    exact ⟨le_refl _, hv, Or.inl rfl⟩
  · rw [if_neg hc]
    refine ⟨hv, le_refl _, ?_⟩
    by_cases h0 : v.hoffset = 0
    · exact Or.inl h0
    · right
      have : ¬ (v.hoffset : ℚ) + (wd : ℚ) > pw := fun h => hc ⟨h0, h⟩
      exact not_lt.1 this

theorem advance_leftToRight_hoffset (sp : Int) (ht : ℚ) (wd : Int) (v : FlowVars)
    (hv : 0 ≤ v.hoffset) (hwd : 0 ≤ wd) (hsp : 0 ≤ sp)
    (hsum : v.hoffset + wd + sp < 2147483648) :
    (QmlGraphicsFlow.advance Flow.LeftToRight sp (wd : ℚ) ht v).hoffset =
      v.hoffset + wd + sp := by
  unfold QmlGraphicsFlow.advance
  rw [if_pos rfl]
  show wrapInt (doubleToInt (roundDouble ((v.hoffset : ℚ) + (wd : ℚ))) + sp) = _
  rw [← Int.cast_add, roundDouble_intCast _ (by omega),
    doubleToInt_intCast _ (by omega) (by omega), wrapInt_small _ (by omega) (by omega)]

theorem widths_sum_nonneg (sp : Int) (hsp : 0 ≤ sp) (ls : List Laid)
    (hint : ∀ l ∈ ls, ∃ z : Int, 0 ≤ z ∧ l.width = z) :
    (0 : ℚ) ≤ (ls.map (fun l => l.width + (sp : ℚ))).sum := by
  induction ls with
  | nil => simp
  | cons l ls ih =>
    obtain ⟨z, hz, hw⟩ := hint l (List.mem_cons_self _ _)
    have h2 := ih (fun l hl => hint l (List.mem_cons_of_mem _ hl))
    simp only [List.map_cons, List.sum_cons, hw]
    have hz' : (0 : ℚ) ≤ (z : ℚ) := by exact_mod_cast hz
    have hsp' : (0 : ℚ) ≤ (sp : ℚ) := by exact_mod_cast hsp
    linarith

theorem flowPlan_fits (sp : Int) (pw ph : ℚ) (hsp : 0 ≤ sp) (ls : List Laid) (v : FlowVars)
    (hv : 0 ≤ v.hoffset) (hint : ∀ l ∈ ls, ∃ z : Int, 0 ≤ z ∧ l.width = z)
    (hsmall : (v.hoffset : ℚ) + (ls.map (fun l => l.width + (sp : ℚ))).sum < 2147483648) :
    ∀ q ∈ flowPlan Flow.LeftToRight sp pw ph ls v,
      ∃ h : Int, q.xo = some h ∧ 0 ≤ h ∧ (h = 0 ∨ (h : ℚ) + q.target.width ≤ pw) := by
  induction ls generalizing v with
  | nil => intro q hq; cases hq
  | cons l ls ih =>
    intro q hq
    obtain ⟨z, hz, hw⟩ := hint l (List.mem_cons_self _ _)
    have hint' : ∀ l ∈ ls, ∃ z : Int, 0 ≤ z ∧ l.width = z :=
      fun l hl => hint l (List.mem_cons_of_mem _ hl)
    have hrest := widths_sum_nonneg sp hsp ls hint'
    simp only [List.map_cons, List.sum_cons, hw] at hsmall
    have hsp' : (0 : ℚ) ≤ (sp : ℚ) := by exact_mod_cast hsp
    have hb : v.hoffset + z + sp < 2147483648 := by
      have : (v.hoffset : ℚ) + (z : ℚ) + (sp : ℚ) < 2147483648 := by linarith
      exact_mod_cast this
    simp only [flowPlan, List.mem_cons, hw] at hq
    have hfit := wrap_leftToRight_fits sp pw ph l.height z v hv hz (by omega)
    rcases hq with rfl | hq
    · refine ⟨_, rfl, hfit.1, ?_⟩
      show _ ∨ _ + l.width ≤ pw
      rw [hw]
      exact hfit.2.2
    · refine ih _ ?_ hint' ?_ q hq
      · rw [advance_leftToRight_hoffset sp l.height z _ hfit.1 hz hsp (by omega)]
        omega
      · rw [advance_leftToRight_hoffset sp l.height z _ hfit.1 hz hsp (by omega)]
        have h1 : ((QmlGraphicsFlow.wrap Flow.LeftToRight sp pw ph (z : ℚ) l.height
            v).hoffset : ℚ) ≤ (v.hoffset : ℚ) := by exact_mod_cast hfit.2.1
        push_cast
        linarith

/-- C25, amended. Flow keeps fitting items inside the positioner: for flow = LeftToRight in
immediate mode, a registry without duplicates, spacing >= 0, laid-out items of non-negative
integer width with the sum of width + spacing over them below 2^31 (the `int` hoffset does
not overflow and every double sum is exact), and any positioner width W, after
`QmlGraphicsFlow::doPositioning` every laid-out item has 0 <= x; if its width is at most W
then x + width <= W; and if it sticks out past W (x + width > W) then it is wider than W and
at x = 0. -/
theorem flow_fits_width (d : Positioner) (w : World)
    (hty : d.type = PositionerType.Both) (hi : Immediate d)
    (hnd : (d.positionedItems.map (fun e => e.item)).Nodup)
    (hsp : 0 ≤ d.spacing)
    (hint : ∀ l ∈ laid w.scene d.positionedItems, ∃ z : Int, 0 ≤ z ∧ l.width = z)
    (hsmall : ((laid w.scene d.positionedItems).map
      (fun l => l.width + (d.spacing : ℚ))).sum < 2147483648) :
    ∀ l ∈ laid w.scene d.positionedItems,
      0 ≤ ((QmlGraphicsFlow.doPositioning d Flow.LeftToRight w).scene l.addr).x ∧
      (((QmlGraphicsFlow.doPositioning d Flow.LeftToRight w).scene l.addr).width ≤ d.width →
        ((QmlGraphicsFlow.doPositioning d Flow.LeftToRight w).scene l.addr).x +
          ((QmlGraphicsFlow.doPositioning d Flow.LeftToRight w).scene l.addr).width ≤ d.width) ∧
      (d.width < ((QmlGraphicsFlow.doPositioning d Flow.LeftToRight w).scene l.addr).x +
          ((QmlGraphicsFlow.doPositioning d Flow.LeftToRight w).scene l.addr).width →
        d.width < ((QmlGraphicsFlow.doPositioning d Flow.LeftToRight w).scene l.addr).width ∧
          ((QmlGraphicsFlow.doPositioning d Flow.LeftToRight w).scene l.addr).x = 0) := by
  intro l hl
  have hw : QmlGraphicsFlow.doPositioning d Flow.LeftToRight w =
      placeAll d (flowPlan Flow.LeftToRight d.spacing d.width d.height
        (laid w.scene d.positionedItems) ⟨0, 0, 0⟩) w :=
    flow_loop_eq d Flow.LeftToRight d.positionedItems ⟨0, 0, 0⟩ w
  have htg := flowPlan_targets Flow.LeftToRight d.spacing d.width d.height
    (laid w.scene d.positionedItems) ⟨0, 0, 0⟩
  have hpn := plan_addr_nodup htg (laid_addr_nodup w.scene d.positionedItems hnd)
  have hmem : l ∈ (flowPlan Flow.LeftToRight d.spacing d.width d.height
      (laid w.scene d.positionedItems) ⟨0, 0, 0⟩).map (fun p => p.target) := by
    rw [htg]
    exact hl
  obtain ⟨q, hq, hql⟩ := List.mem_map.1 hmem
  obtain ⟨h, hxo, h0, hfit⟩ := flowPlan_fits d.spacing d.width d.height hsp
    (laid w.scene d.positionedItems) ⟨0, 0, 0⟩ (le_refl _) hint
    (by
      show ((0 : Int) : ℚ) + _ < 2147483648
      simpa using hsmall) q hq
  have hx := placeAll_x d _ w hi (Or.inr hty) hpn q hq h hxo
  rw [hql] at hx hfit
  have hwd : ((QmlGraphicsFlow.doPositioning d Flow.LeftToRight w).scene l.addr).width =
      l.width := by
    rw [hw, (sameGeom_placeAll d _ w l.addr).1]
    exact (laid_mem w.scene d.positionedItems l hl).1.symm
  rw [hwd, hw, hx]
  have h0q : (0 : ℚ) ≤ (h : ℚ) := by exact_mod_cast h0
  refine ⟨h0q, ?_, ?_⟩
  · intro hle
    rcases hfit with hz | hf
    · rw [hz]
      simpa using hle
    · exact hf
  · intro hout
    rcases hfit with hz | hf
    · rw [hz] at hout ⊢
      simp only [Int.cast_zero, zero_add] at hout
      exact ⟨hout, by simp⟩
    · exact absurd hout (not_lt.2 hf)

theorem flowWrap_integer_widths :
    ∀ l ∈ laid flowWrapW.scene flowWrapD.positionedItems, ∃ z : Int, 0 ≤ z ∧ l.width = z := by
  intro l hl
  have hl' : l ∈ [(⟨0, true, 60, 20⟩ : Laid), ⟨1, false, 50, 30⟩, ⟨2, false, 10, 4⟩] := by
    have e : laid flowWrapW.scene flowWrapD.positionedItems =
        [(⟨0, true, 60, 20⟩ : Laid), ⟨1, false, 50, 30⟩, ⟨2, false, 10, 4⟩] := by decide!
    rw [← e]
    exact hl
  simp only [List.mem_cons, List.mem_singleton, List.not_mem_nil, or_false] at hl'
  rcases hl' with rfl | rfl | rfl
  · exact ⟨60, by decide, by norm_num⟩
  · exact ⟨50, by decide, by norm_num⟩
  · exact ⟨10, by decide, by norm_num⟩

/-- C25, witness: the Flow `flowWrapD` (width 100, spacing 0) over items of widths 60, 50, 10:
item 1 ends with 0 <= x and x + width <= 100. -/
theorem flow_fits_width_witness :
    flowWrapD.type = PositionerType.Both ∧ Immediate flowWrapD ∧
    (flowWrapD.positionedItems.map (fun e => e.item)).Nodup ∧ 0 ≤ flowWrapD.spacing ∧
    ((laid flowWrapW.scene flowWrapD.positionedItems).map
      (fun l => l.width + (flowWrapD.spacing : ℚ))).sum < 2147483648 ∧
    ⟨1, false, 50, 30⟩ ∈ laid flowWrapW.scene flowWrapD.positionedItems ∧
    (0 ≤ ((QmlGraphicsFlow.doPositioning flowWrapD Flow.LeftToRight flowWrapW).scene 1).x ∧
      (((QmlGraphicsFlow.doPositioning flowWrapD Flow.LeftToRight flowWrapW).scene 1).width ≤
          flowWrapD.width →
        ((QmlGraphicsFlow.doPositioning flowWrapD Flow.LeftToRight flowWrapW).scene 1).x +
          ((QmlGraphicsFlow.doPositioning flowWrapD Flow.LeftToRight flowWrapW).scene 1).width ≤
            flowWrapD.width)) :=
  ⟨rfl, by decide, by decide, by decide, by decide!, by decide!,
    (flow_fits_width flowWrapD flowWrapW rfl (by decide) (by decide) (by decide)
      flowWrap_integer_widths
      (by decide!) ⟨1, false, 50, 30⟩ (by decide!)).1,
    (flow_fits_width flowWrapD flowWrapW rfl (by decide) (by decide) (by decide)
      flowWrap_integer_widths
      (by decide!) ⟨1, false, 50, 30⟩ (by decide!)).2.1⟩

/-- C25, counterexample: three Flows, LeftToRight, spacing 0, immediate mode, items of integer
sizes, in which an item of width at most W is not kept inside [0, W].
(1) W = 100, widths -30 and 45: item 1 (width 45 <= W) is placed at x = -30 < 0.
(2) W = 2^53, widths 1 and 2^53: the double sum 1 + 2^53 is rounded to 2^53, the item is not
wrapped: item 1 (width 2^53 <= W) is at x = 1 and x + width > W.
(3) W = 2^40, widths 2147483647, 10, 10: the conversion of 2147483657 to `int` leaves
-2147483648: item 2 (width 10 <= W) is placed at x = -2147483648 < 0. -/
theorem flow_fits_width_counterexample :
    ((flowNegativeW.scene 1).width ≤ 100 ∧
      ((QmlGraphicsFlow.doPositioning (flowOf 100 0 flowTwoItems) Flow.LeftToRight
        flowNegativeW).scene 1).x = -30) ∧
    ((flowHugeW.scene 1).width ≤ 9007199254740992 ∧
      ((QmlGraphicsFlow.doPositioning (flowOf 9007199254740992 0 flowTwoItems)
        Flow.LeftToRight flowHugeW).scene 1).x = 1 ∧
      (9007199254740992 : ℚ) <
        ((QmlGraphicsFlow.doPositioning (flowOf 9007199254740992 0 flowTwoItems)
          Flow.LeftToRight flowHugeW).scene 1).x +
        ((QmlGraphicsFlow.doPositioning (flowOf 9007199254740992 0 flowTwoItems)
          Flow.LeftToRight flowHugeW).scene 1).width) ∧
    ((flowOverflowW.scene 2).width ≤ 1099511627776 ∧
      ((QmlGraphicsFlow.doPositioning (flowOf 1099511627776 0 flowThreeItems) Flow.LeftToRight
        flowOverflowW).scene 2).x = -2147483648) := by
  decide!

/-! ### Column with fractional heights -/

/-- C23. A Column pass in immediate mode, spacing 0, over two visible items of height 21/2:
both are laid out, item 0 is at y = 0 and item 1 at y = 10, above the bottom edge 21/2 of
item 0: the two items overlap. -/
theorem column_overlap_fractional :
    fractionPass.isSome = true ∧
    (laid fractionW1.scene fractionP1.positionedItems).map (fun l => l.addr) = [0, 1] ∧
    (fractionW1.scene 0).y = 0 ∧ (fractionW1.scene 0).height = 21 / 2 ∧
    (fractionW1.scene 1).y = 10 ∧
    (fractionW1.scene 1).y < (fractionW1.scene 0).y + (fractionW1.scene 0).height := by
  decide!

/-! ### The isNew flag after a pass -/

theorem touch_once_visible (s : Nat → QmlGraphicsItem) (a : Nat) (e : PositionedItem)
    (hvis : effectivelyVisible (s a)) :
    (touch s a e).isVisible = true ∧ ((touch s a e).isNew = true ↔ e.isVisible = false) := by
  have hv : ¬ ((s a).opacity ≤ 0 ∨ (s a).visible = false) := by
    unfold effectivelyVisible at hvis
    intro h
    rcases h with h | h
    · exact absurd hvis.1 (not_lt.2 h)
    · rw [hvis.2] at h
      cases h
  unfold touch
  rw [if_neg hv]
  by_cases he : e.isVisible = false
  · rw [if_pos he]
    exact ⟨rfl, ⟨fun _ => he, fun _ => rfl⟩⟩
  · rw [if_neg he]
    have het : e.isVisible = true := by simpa using he
    exact ⟨het, ⟨fun h => (by cases h), fun h => absurd h he⟩⟩

theorem touch_once_hidden (s : Nat → QmlGraphicsItem) (a : Nat) (e : PositionedItem)
    (hvis : ¬ effectivelyVisible (s a)) :
    (touch s a e).isVisible = false ∧ (touch s a e).isNew = e.isNew := by
  have hv : (s a).opacity ≤ 0 ∨ (s a).visible = false := by
    unfold effectivelyVisible at hvis
    by_cases ho : (s a).opacity ≤ 0
    · exact Or.inl ho
    · right
      have : ¬ (s a).visible = true := fun hv => hvis ⟨not_le.1 ho, hv⟩
      simpa using this
  unfold touch
  rw [if_pos hv]
  exact ⟨rfl, rfl⟩

/-- C22, amended. The isNew flag after a completed pass, for an item that is a child (once in
the children list): if the item is effectively visible in the pass, its entry has
`isVisible = true`, and `isNew = true` if and only if before the pass the item had no entry
or its entry had `isVisible = false`; if the item is not effectively visible in the pass, its
entry has `isVisible = false` and keeps the `isNew` it had before the pass (false for an
entry the pass creates).  The entry of an item that is not among the children is as
before. -/
theorem isNew_after_pass (k : Layout) (children : List (Option Nat)) (p p1 : Positioner)
    (w w1 : World) (a : Nat) (hc : p.componentComplete = true)
    (h : QmlGraphicsBasePositioner.prePositioning k children p w = some (p1, w1)) :
    (children.count (some a) = 1 → effectivelyVisible (w.scene a) →
      ∃ e, entryOf p1.positionedItems a = some e ∧ e.isVisible = true ∧
        (e.isNew = true ↔ ∀ e0, entryOf p.positionedItems a = some e0 → e0.isVisible = false)) ∧
    (children.count (some a) = 1 → ¬ effectivelyVisible (w.scene a) →
      ∃ e, entryOf p1.positionedItems a = some e ∧ e.isVisible = false ∧
        e.isNew = ((entryOf p.positionedItems a).map (fun e0 => e0.isNew)).getD false) ∧
    (some a ∉ children → entryOf p1.positionedItems a = entryOf p.positionedItems a) := by
  obtain ⟨hreg, _⟩ := prePositioning_registry k children p p1 w w1 hc h
  have hentry : children.count (some a) = 1 → entryOf p1.positionedItems a =
      some (touch w.scene a ((entryOf p.positionedItems a).getD (PositionedItem.create a))) := by
    intro honce
    rw [hreg, trackAll_entry, if_neg (by omega), honce]
    rfl
  refine ⟨?_, ?_, ?_⟩
  · intro honce hvis
    refine ⟨_, hentry honce, (touch_once_visible _ _ _ hvis).1, ?_⟩
    rw [(touch_once_visible _ _ _ hvis).2]
    cases hent : entryOf p.positionedItems a with
    | none =>
      simp only [Option.getD_none]
      exact ⟨fun _ e0 he0 => (by cases he0), fun _ => rfl⟩
    | some e0 =>
      simp only [Option.getD_some, Option.some.injEq]
      exact ⟨fun h0 e1 he1 => (by rw [← he1]; exact h0), fun h0 => h0 e0 rfl⟩
  · intro honce hvis
    refine ⟨_, hentry honce, (touch_once_hidden _ _ _ hvis).1, ?_⟩
    rw [(touch_once_hidden _ _ _ hvis).2]
    cases hent : entryOf p.positionedItems a with
    | none => rfl
    | some e0 => rfl
  · intro ha
    exact prePositioning_entry k children p p1 w w1 a ha h

/-- C22, counterexample: in the Column `noveltyP1` the entries of items 0 and 1 are new and
visible.  In the next pass item 1 is a child with its visible flag cleared, so it is not
effectively visible in that pass; after the pass its entry still has `isNew = true`. -/
theorem isNew_after_pass_counterexample :
    noveltyP1.componentComplete = true ∧
    entryOf noveltyP1.positionedItems 1 = some ⟨some 1, true, true⟩ ∧
    QmlGraphicsBasePositioner.prePositioning Layout.Column [some 0, some 1] noveltyP1 keepW =
      some (staleP2, staleW2) ∧
    ¬ effectivelyVisible (keepW.scene 1) ∧
    entryOf staleP2.positionedItems 1 = some ⟨some 1, true, false⟩ :=
  ⟨by decide!, by decide!,
    option_pair_eq _ _ _ (prePositioning_total _ (by intro c r h; cases h) _ _ _),
    by decide!, by decide!⟩

/-- C22, witness: the same pass for item 0, which is effectively visible and was visible
before: its entry has `isVisible = true`. -/
theorem isNew_after_pass_witness :
    noveltyP1.componentComplete = true ∧
    QmlGraphicsBasePositioner.prePositioning Layout.Column [some 0, some 1] noveltyP1 keepW =
      some (staleP2, staleW2) ∧
    [some 0, some 1].count (some 0) = 1 ∧ effectivelyVisible (keepW.scene 0) ∧
    ∃ e, entryOf staleP2.positionedItems 0 = some e ∧ e.isVisible = true ∧
      (e.isNew = true ↔
        ∀ e0, entryOf noveltyP1.positionedItems 0 = some e0 → e0.isVisible = false) :=
  ⟨by decide!, option_pair_eq _ _ _ (prePositioning_total _ (by intro c r h; cases h) _ _ _),
    by decide, by decide!,
    (isNew_after_pass Layout.Column [some 0, some 1] noveltyP1 staleP2 keepW staleW2 0
      (by decide!)
      (option_pair_eq _ _ _ (prePositioning_total _ (by intro c r h; cases h) _ _ _))).1
      (by decide) (by decide!)⟩

/-! ### The layout does not depend on the current positions -/

theorem columnPlan_yo_some (sp : Int) (ls : List Laid) (v : Int) :
    ∀ q ∈ columnPlan sp ls v, q.yo ≠ none := by
  induction ls generalizing v with
  | nil => intro q hq; cases hq
  | cons l ls ih =>
    intro q hq
    simp only [columnPlan, List.mem_cons] at hq
    rcases hq with rfl | hq
    · simp
    · exact ih _ q hq

theorem rowPlan_xo_some (sp : Int) (ls : List Laid) (v : Int) :
    ∀ q ∈ rowPlan sp ls v, q.xo ≠ none := by
  induction ls generalizing v with
  | nil => intro q hq; cases hq
  | cons l ls ih =>
    intro q hq
    simp only [rowPlan, List.mem_cons] at hq
    rcases hq with rfl | hq
    · simp
    · exact ih _ q hq

theorem flowPlan_some (flow : Flow) (sp : Int) (pw ph : ℚ) (ls : List Laid) (v : FlowVars) :
    ∀ q ∈ flowPlan flow sp pw ph ls v, q.xo ≠ none ∧ q.yo ≠ none := by
  induction ls generalizing v with
  | nil => intro q hq; cases hq
  | cons l ls ih =>
    intro q hq
    simp only [flowPlan, List.mem_cons] at hq
    rcases hq with rfl | hq
    · simp
    · exact ih _ q hq

theorem idle_x (s : Nat → QmlGraphicsItem) (q : Placement) (h : Idle s q) (hx : q.xo ≠ none) :
    ∃ v : Int, q.xo = some v ∧ (s q.target.addr).x = v := by
  cases hxo : q.xo with
  | none => exact absurd hxo hx
  | some v => exact ⟨v, rfl, offBy_false h.1 hxo⟩

theorem idle_y (s : Nat → QmlGraphicsItem) (q : Placement) (h : Idle s q) (hy : q.yo ≠ none) :
    ∃ v : Int, q.yo = some v ∧ (s q.target.addr).y = v := by
  cases hyo : q.yo with
  | none => exact absurd hyo hy
  | some v => exact ⟨v, rfl, offBy_false h.2 hyo⟩

/-- Two runs on heaps that differ in x and y only: the plans request the same offsets, and
every request of the first plan is settled in both results. -/
theorem two_runs_settle (k : Layout) (d1 d2 : Positioner) (w1 w2 : World)
    (hi1 : Immediate d1) (hi2 : Immediate d2)
    (hty1 : d1.type = constructedType k) (hty2 : d2.type = constructedType k)
    (hnd : (d1.positionedItems.map (fun e => e.item)).Nodup)
    (hitems : d2.positionedItems.map (fun e => e.item) = d1.positionedItems.map (fun e => e.item))
    (hsp : d2.spacing = d1.spacing) (hw : d2.width = d1.width) (hh : d2.height = d1.height)
    (hgeo : SameGeom w1.scene w2.scene) (ps1 : List Placement)
    (hp1 : planOf k d1 w1.scene = some ps1) :
    ∃ ps2, planOf k d2 w2.scene = some ps2 ∧
      ∀ q ∈ ps1, Idle (placeAll d1 ps1 w1).scene q ∧ Idle (placeAll d2 ps2 w2).scene q := by
  have hreq := planOf_requested hgeo k d1 d2 hitems hsp hw hh
  rw [hp1] at hreq
  cases hp2 : planOf k d2 w2.scene with
  | none => rw [hp2] at hreq; cases hreq
  | some ps2 =>
    rw [hp2] at hreq
    simp only [Option.map_some', Option.some.injEq] at hreq
    have hnd2 : (d2.positionedItems.map (fun e => e.item)).Nodup := by rw [hitems]; exact hnd
    have hs1 := placeAll_settles d1 ps1 w1 hi1 (planOf_nodup k d1 w1.scene ps1 hp1 hnd)
      (planOf_axes k d1 w1.scene ps1 hp1 hty1)
    have hs2 := placeAll_settles d2 ps2 w2 hi2 (planOf_nodup k d2 w2.scene ps2 hp2 hnd2)
      (planOf_axes k d2 w2.scene ps2 hp2 hty2)
    refine ⟨ps2, rfl, ?_⟩
    intro q hq
    refine ⟨hs1 q hq, ?_⟩
    have hmem : requested q ∈ ps2.map requested := by
      rw [hreq]
      exact List.mem_map_of_mem _ hq
    obtain ⟨q2, hq2, heq⟩ := List.mem_map.1 hmem
    exact idle_of_requested _ q2 q heq.symm (hs2 q2 hq2)

/-- C21. Layouts are independent of the items' current positions: take one of Column, Row,
Grid, Flow in immediate mode, with the type its constructor sets, and two runs of
`doPositioning` on registries that list the same items in the same order (without duplicates)
with the same spacing and positioner size, and on heaps that agree on every item's width,
height, opacity and visible flag and may differ in x and y.  Then one run returns if and only
if the other does (Column, Row and Flow always return), and when they return every request
of the layout ends at the same coordinate in both results on each axis it positions: the y of
every laid-out item for Column, the x for Row, x and y for Flow, and x and y of every item
Grid places. -/
theorem layout_independent_of_positions (k : Layout) (d1 d2 : Positioner) (w1 w2 : World)
    (hi1 : Immediate d1) (hi2 : Immediate d2)
    (hty1 : d1.type = constructedType k) (hty2 : d2.type = constructedType k)
    (hnd : (d1.positionedItems.map (fun e => e.item)).Nodup)
    (hitems : d2.positionedItems.map (fun e => e.item) = d1.positionedItems.map (fun e => e.item))
    (hsp : d2.spacing = d1.spacing) (hw : d2.width = d1.width) (hh : d2.height = d1.height)
    (hgeo : SameGeom w1.scene w2.scene) :
    ((doPositioning k d2 w2).isSome = (doPositioning k d1 w1).isSome) ∧
    ((∀ c r, k ≠ Layout.Grid c r) → (doPositioning k d1 w1).isSome = true) ∧
    (∀ r1 r2, doPositioning k d1 w1 = some r1 → doPositioning k d2 w2 = some r2 →
      (∃ ps, planOf k d1 w1.scene = some ps ∧ r1 = placeAll d1 ps w1 ∧
        ∀ q ∈ ps,
          (q.xo ≠ none → (r1.scene q.target.addr).x = (r2.scene q.target.addr).x) ∧
          (q.yo ≠ none → (r1.scene q.target.addr).y = (r2.scene q.target.addr).y)) ∧
      (k = Layout.Column → ∀ l ∈ laid w1.scene d1.positionedItems,
        (r1.scene l.addr).y = (r2.scene l.addr).y) ∧
      (k = Layout.Row → ∀ l ∈ laid w1.scene d1.positionedItems,
        (r1.scene l.addr).x = (r2.scene l.addr).x) ∧
      (∀ f, k = Layout.Flow f → ∀ l ∈ laid w1.scene d1.positionedItems,
        (r1.scene l.addr).x = (r2.scene l.addr).x ∧
        (r1.scene l.addr).y = (r2.scene l.addr).y)) := by
  have hreq := planOf_requested hgeo k d1 d2 hitems hsp hw hh
  refine ⟨?_, ?_, ?_⟩
  · rw [doPositioning_eq_plan, doPositioning_eq_plan]
    cases h1 : planOf k d1 w1.scene <;> cases h2 : planOf k d2 w2.scene <;>
      rw [h1, h2] at hreq <;> simp_all
  · intro hk
    cases k with
    | Column => rfl
    | Row => rfl
    | Grid c r => exact absurd rfl (hk c r)
    | Flow f => rfl
  · intro r1 r2 hr1 hr2
    rw [doPositioning_eq_plan] at hr1 hr2
    cases hp1 : planOf k d1 w1.scene with
    | none => rw [hp1] at hr1; cases hr1
    | some ps1 =>
      obtain ⟨ps2, hp2, hidle⟩ := two_runs_settle k d1 d2 w1 w2 hi1 hi2 hty1 hty2 hnd hitems
        hsp hw hh hgeo ps1 hp1
      rw [hp1] at hr1
      rw [hp2] at hr2
      simp only [Option.map_some', Option.some.injEq] at hr1 hr2
      subst hr1
      subst hr2
      have hmain : ∀ q ∈ ps1,
          (q.xo ≠ none → ((placeAll d1 ps1 w1).scene q.target.addr).x =
            ((placeAll d2 ps2 w2).scene q.target.addr).x) ∧
          (q.yo ≠ none → ((placeAll d1 ps1 w1).scene q.target.addr).y =
            ((placeAll d2 ps2 w2).scene q.target.addr).y) := by
        intro q hq
        obtain ⟨i1, i2⟩ := hidle q hq
        constructor
        · intro hx
          obtain ⟨v, hv, e1⟩ := idle_x _ q i1 hx
          obtain ⟨v2, hv2, e2⟩ := idle_x _ q i2 hx
          rw [hv] at hv2
          cases hv2
          rw [e1, e2]
        · intro hy
          obtain ⟨v, hv, e1⟩ := idle_y _ q i1 hy
          obtain ⟨v2, hv2, e2⟩ := idle_y _ q i2 hy
          rw [hv] at hv2
          cases hv2
          rw [e1, e2]
      refine ⟨⟨ps1, rfl, rfl, hmain⟩, ?_, ?_, ?_⟩
      · intro hk l hl
        subst hk
        simp only [planOf, Option.some.injEq] at hp1
        have hmem : l ∈ ps1.map (fun p => p.target) := by
          rw [← hp1, columnPlan_targets]
          exact hl
        obtain ⟨q, hq, hql⟩ := List.mem_map.1 hmem
        have hyo : q.yo ≠ none := by
          apply columnPlan_yo_some d1.spacing (laid w1.scene d1.positionedItems) 0
          rw [hp1]
          exact hq
        rw [← hql]
        exact (hmain q hq).2 hyo
      · intro hk l hl
        subst hk
        simp only [planOf, Option.some.injEq] at hp1
        have hmem : l ∈ ps1.map (fun p => p.target) := by
          rw [← hp1, rowPlan_targets]
          exact hl
        obtain ⟨q, hq, hql⟩ := List.mem_map.1 hmem
        have hxo : q.xo ≠ none := by
          apply rowPlan_xo_some d1.spacing (laid w1.scene d1.positionedItems) 0
          rw [hp1]
          exact hq
        rw [← hql]
        exact (hmain q hq).1 hxo
      · intro f hk l hl
        subst hk
        simp only [planOf, Option.some.injEq] at hp1
        have hmem : l ∈ ps1.map (fun p => p.target) := by
          rw [← hp1, flowPlan_targets]
          exact hl
        obtain ⟨q, hq, hql⟩ := List.mem_map.1 hmem
        have hboth := flowPlan_some f d1.spacing d1.width d1.height
          (laid w1.scene d1.positionedItems) ⟨0, 0, 0⟩ q (by rw [hp1]; exact hq)
        rw [← hql]
        exact ⟨(hmain q hq).1 hboth.1, (hmain q hq).2 hboth.2⟩

/-- C21, witness: the Flow `flowWrapD` on the heap `flowWrapW` (items at (7, 7)) and on the
same heap with every item moved to (3, 4): both runs return, with item 1 at the same x and
y. -/
theorem layout_independent_of_positions_witness :
    Immediate flowWrapD ∧ flowWrapD.type = constructedType (Layout.Flow Flow.LeftToRight) ∧
    (flowWrapD.positionedItems.map (fun e => e.item)).Nodup ∧
    SameGeom flowWrapW.scene flowMovedW.scene ∧
    doPositioning (Layout.Flow Flow.LeftToRight) flowWrapD flowWrapW =
      some (QmlGraphicsFlow.doPositioning flowWrapD Flow.LeftToRight flowWrapW) ∧
    doPositioning (Layout.Flow Flow.LeftToRight) flowWrapD flowMovedW =
      some (QmlGraphicsFlow.doPositioning flowWrapD Flow.LeftToRight flowMovedW) ∧
    ⟨1, false, 50, 30⟩ ∈ laid flowWrapW.scene flowWrapD.positionedItems ∧
    ((QmlGraphicsFlow.doPositioning flowWrapD Flow.LeftToRight flowWrapW).scene 1).x =
      ((QmlGraphicsFlow.doPositioning flowWrapD Flow.LeftToRight flowMovedW).scene 1).x ∧
    ((QmlGraphicsFlow.doPositioning flowWrapD Flow.LeftToRight flowWrapW).scene 1).y =
      ((QmlGraphicsFlow.doPositioning flowWrapD Flow.LeftToRight flowMovedW).scene 1).y :=
  ⟨by decide, rfl, by decide, (fun _ => ⟨rfl, rfl, rfl, rfl⟩), rfl, rfl, by decide!,
    ((layout_independent_of_positions (Layout.Flow Flow.LeftToRight) flowWrapD flowWrapD
      flowWrapW flowMovedW (by decide) (by decide) rfl rfl (by decide) rfl rfl rfl rfl
      (fun _ => ⟨rfl, rfl, rfl, rfl⟩)).2.2 _ _ rfl rfl).2.2.2 Flow.LeftToRight rfl
      ⟨1, false, 50, 30⟩ (by decide!)⟩

end Positioners
